import Mathlib

/-!
RocksDBCuckooIndexEstimator: serialization, update buffering and replay.

A shallow embedding of `arangod/RocksDBEngine/RocksDBCuckooIndexEstimator.cpp`
(instantiated, as in the source, for `Key = uint64_t`).

Conventions of the embedding:

* 64-bit unsigned members are natural numbers; every place where the C++
  arithmetic can wrap is written with an explicit `% 2 ^ 64` (or `% 2 ^ 32`).
* `TRI_ASSERT` is compiled out (production build); the asserted conditions are
  kept as comments next to the statement they guard.
* The lock, the metrics gauge and allocation failure are not part of the model.
* Loops whose termination depends on the data (`while (true)` in
  `applyUpdates`, the `uint32_t` bucket loops) take a fuel argument and answer
  `none` when the fuel is used up.
* The header `RocksDBCuckooIndexEstimator.h` and `RocksDBFormat.h` are not part
  of the sources at hand.  Constants and collaborators declared there are either
  fields of `Env` or definitions marked `Modelled from the spec:`.
-/

namespace RocksDBCuckooIndexEstimator

/-! ## Bytes and the persistent integer encoding -/

/-- One `char` of a serialized string. -/
abbrev Byte := Fin 256

/-- The estimator is instantiated for `uint64_t` keys. -/
abbrev Key := Nat

/-- Byte order of the fixed-width persistent integers. -/
inductive ByteOrder where
  | little
  | big
deriving DecidableEq, Repr

/-- The `w` low-order base-256 digits of `v`, least significant first. -/
def toBytesLE : Nat → Nat → List Byte
  | 0, _ => []
  | w + 1, v => Fin.ofNat (v % 256) :: toBytesLE w (v / 256)

/-- Value of a little-endian digit string. -/
def fromBytesLE : List Byte → Nat
  | [] => 0
  | b :: bs => b.val + 256 * fromBytesLE bs

/-- Modelled from the spec: `rocksutils::uintNToPersistent` (RocksDBFormat is not
among the sources): the fixed-width encoding of an unsigned integer in `w`
bytes, in the byte order fixed by the format. -/
def uintToPersistent (bo : ByteOrder) (w v : Nat) : List Byte :=
  match bo with
  | ByteOrder.little => toBytesLE w v
  | ByteOrder.big => (toBytesLE w v).reverse

/-- Modelled from the spec: `rocksutils::uintNFromPersistent` (RocksDBFormat is
not among the sources): decodes the bytes of one fixed-width integer. -/
def uintFromPersistent (bo : ByteOrder) (bs : List Byte) : Nat :=
  match bo with
  | ByteOrder.little => fromBytesLE bs
  | ByteOrder.big => fromBytesLE bs.reverse

/-- Reads the `w`-byte integer that starts `off` bytes into `bs`. -/
def readAt (bo : ByteOrder) (w : Nat) (bs : List Byte) (off : Nat) : Nat :=
  uintFromPersistent bo ((bs.drop off).take w)

/-- Wrap to `uint64_t`. -/
def u64 (n : Nat) : Nat := n % 2 ^ 64

/-- Subtraction of `uint64_t` values, wrapping below zero. -/
def sub64 (a b : Nat) : Nat := if b ≤ a then a - b else (a + 2 ^ 64 - b) % 2 ^ 64

/-! ## Constants -/

/-- Modelled from the spec: `kSlotSize` (declared in the header): a fingerprint
takes 2 bytes; the source reads and writes the slots through `uint16_t*`. -/
def kSlotSize : Nat := 2

/-- Modelled from the spec: `kSlotsPerBucket` (declared in the header): the
number of slots of a bucket, 4; the size constructor wants `1024 / 4 = 256`
buckets minimum. -/
def kSlotsPerBucket : Nat := 4

/-- Modelled from the spec: `kCounterSize` (declared in the header): a counter
takes 4 bytes; the source reads and writes the counters through `uint32_t*`. -/
def kCounterSize : Nat := 4

/-- The lower bound `minRequiredSize` of `deserializeUncompressedBody`: the
length field and the six members, each persisted as a 64-bit integer. -/
def minRequiredSize : Nat := 8 + 8 + 8 + 8 + 8 + 8 + 8

/-! ## State -/

/-- The members the filter core works on: table dimensions, the two parallel
regions of the table (`_base`: one 16-bit fingerprint per slot, `_counters`:
one 32-bit counter per slot, both addressed by
`bucket * kSlotsPerBucket + slot`), the statistics and the state of the
pseudo random generator. -/
structure Filter where
  randState : Nat
  logSize : Nat
  size : Nat
  niceSize : Nat
  sizeMask : Nat
  sizeShift : Nat
  slots : List Nat
  counters : List Nat
  nrUsed : Nat
  nrCuckood : Nat
  nrTotal : Nat
deriving DecidableEq, Repr

/-- The whole estimator: the filter, the allocation bookkeeping, the applied
sequence number and the three update buffers.  The buffers are kept in
ascending order of sequence number, as the ordered containers of the source
are. -/
structure Estimator extends Filter where
  allocSize : Nat
  appliedSeq : Nat
  needToPersist : Bool
  memoryUsage : Nat
  insertBuffers : List (Nat × List Key)
  removalBuffers : List (Nat × List Key)
  truncateBuffer : List Nat
deriving DecidableEq, Repr

/-- Modelled from the spec: the enumeration `SerializeFormat` (declared in the
header), with its two formats. -/
inductive SerializeFormat where
  | UNCOMPRESSED
  | COMPRESSED
deriving DecidableEq, Repr

/-- What the estimator takes from declarations and collaborators that are not
among the sources: the byte order of the persistent integers, the two format
tag bytes (distinct, they label two cases of one `switch`), the block codec
(snappy), the memory accounting constants `bufferedEntrySize()` and
`bufferedEntryItemSize()`, whether the insert/removal buffers keep several
batches under one sequence number (multimap) or one (map), the hash functions
`_hasherKey`, `keyToFingerprint`, `_hasherPosFingerprint`, the generator step
`pseudoRandomChoice` (old state to choice and new state) and the bound
`kMaxRounds` on relocation attempts. -/
structure Env where
  byteOrder : ByteOrder
  uncompressedTag : Byte
  compressedTag : Byte
  tagsDistinct : uncompressedTag ≠ compressedTag
  compress : List Byte → List Byte
  uncompress : List Byte → Option (List Byte)
  bufferedEntrySize : Nat
  bufferedEntryItemSize : Nat
  multiBuffers : Bool
  hasherKey : Key → Nat
  keyToFingerprint : Key → Nat
  hasherPosFingerprint : Nat → Nat → Nat
  pseudoRandomChoice : Nat → Nat × Nat
  kMaxRounds : Nat

/-- The tag byte written for a format. -/
def Env.tag (env : Env) : SerializeFormat → Byte
  | SerializeFormat.UNCOMPRESSED => env.uncompressedTag
  | SerializeFormat.COMPRESSED => env.compressedTag

/-- State set up by the default constructor: no table, all members zero. -/
def emptyEstimator : Estimator :=
  { randState := 0x2636283625154737
    logSize := 0
    size := 0
    niceSize := 0
    sizeMask := 0
    sizeShift := 0
    slots := []
    counters := []
    nrUsed := 0
    nrCuckood := 0
    nrTotal := 0
    allocSize := 0
    appliedSeq := 0
    needToPersist := false
    memoryUsage := 0
    insertBuffers := []
    removalBuffers := []
    truncateBuffer := [] }

/-! ## Slots (header, modelled from the spec) -/

/-- Modelled from the spec: `findSlot(bucket, slot)` / `findCounter(bucket,
slot)` (header): index `bucketIndex * slotsPerBucket + slotOffset` into the two
parallel arrays. -/
def findSlot (b i : Nat) : Nat := b * kSlotsPerBucket + i

/-- Fingerprint stored in a slot (0 for an index behind the table). -/
def Filter.fingerprintAt (f : Filter) (s : Nat) : Nat := f.slots.getD s 0

/-- Counter paired with a slot (0 for an index behind the table). -/
def Filter.counterAt (f : Filter) (s : Nat) : Nat := f.counters.getD s 0

/-- Writes fingerprint and counter of one slot. -/
def Filter.place (f : Filter) (s fp cnt : Nat) : Filter :=
  { f with slots := f.slots.set s fp, counters := f.counters.set s cnt }

/-- Modelled from the spec: `Slot::isEmpty` (header): an empty slot is denoted
by fingerprint value zero. -/
def slotIsEmpty (f : Filter) (s : Nat) : Bool := f.fingerprintAt s == 0

/-- Modelled from the spec: `Slot::reset` (header): the slot becomes empty, its
counter zero. -/
def slotReset (f : Filter) (s : Nat) : Filter := f.place s 0 0

/-- Modelled from the spec: `Slot::init` (header): place the fingerprint and
initialize its counter to one occurrence. -/
def slotInit (f : Filter) (s fp : Nat) : Filter := f.place s fp 1

/-- Modelled from the spec: `Slot::increase` (header): increment the counter,
saturating at the largest 32-bit value. -/
def slotIncrease (f : Filter) (s : Nat) : Filter :=
  if f.counterAt s < 2 ^ 32 - 1 then
    { f with counters := f.counters.set s (f.counterAt s + 1) }
  else f

/-- Modelled from the spec: `Slot::decrease` (header): decrement the counter;
the answer is `false` when the counter has reached zero, in which case the
caller resets the slot. -/
def slotDecrease (f : Filter) (s : Nat) : Filter × Bool :=
  ({ f with counters := f.counters.set s (f.counterAt s - 1) }, decide (0 < f.counterAt s - 1))

/-- Modelled from the spec: `hashToPos` (header): the hash modulo `niceSize`,
taken with the shift `_sizeShift` and the mask `_sizeMask` and folded into the
`_size` buckets of the table. -/
def hashToPos (f : Filter) (hash : Nat) : Nat :=
  let relevantBits := (hash >>> f.sizeShift) &&& f.sizeMask
  if relevantBits < f.size then relevantBits else relevantBits - f.size

/-- First slot of bucket `pos` that holds fingerprint `fp` (`fp = 0`: first
empty slot). -/
def probeBucket (f : Filter) (pos fp : Nat) : Option Nat :=
  ((List.range kSlotsPerBucket).find? (fun i => f.fingerprintAt (findSlot pos i) == fp)).map
    (findSlot pos)

/-- Modelled from the spec: `findSlotNoCuckoo` (header): probe the slots of
both buckets for a matching fingerprint; the flag tells whether it was found
(the slot is meaningful only then). -/
def findSlotNoCuckoo (f : Filter) (pos1 pos2 fp : Nat) : Nat × Bool :=
  match probeBucket f pos1 fp with
  | some s => (s, true)
  | none =>
    match probeBucket f pos2 fp with
    | some s => (s, true)
    | none => (findSlot pos2 0, false)

/-- Modelled from the spec: the relocation loop of `findSlotCuckoo` (header):
the entry `(fp, cnt)` evicted from bucket `pos` goes to a free slot of its
alternate bucket (one more slot is used then); without a free slot it takes the
place of an occupant chosen there, which is relocated in turn; after `rounds`
attempts the entry in hand is dropped and `nrCuckood` is incremented. The slot
`keep`, in which `findSlotCuckoo` has installed the new fingerprint and which it
returns, is never the one chosen (the next slot of the bucket is taken in its
place): `insert()` relies on the returned slot holding the new fingerprint,
`TRI_ASSERT(slot.isEqual(fingerprint))`. -/
def relocate (env : Env) (keep : Nat) : Nat → Filter → Nat → Nat → Nat → Filter
  | 0, f, _, _, _ => { f with nrCuckood := u64 (f.nrCuckood + 1) }
  | rounds + 1, f, pos, fp, cnt =>
    let alt := hashToPos f (env.hasherPosFingerprint pos fp)
    match probeBucket f alt 0 with
    | some s => { f.place s fp cnt with nrUsed := u64 (f.nrUsed + 1) }
    | none =>
      let choice := env.pseudoRandomChoice f.randState
      let i := choice.1 % kSlotsPerBucket
      let victim :=
        if findSlot alt i = keep then findSlot alt ((i + 1) % kSlotsPerBucket)
        else findSlot alt i
      relocate env keep rounds { f.place victim fp cnt with randState := choice.2 } alt
        (f.fingerprintAt victim) (f.counterAt victim)

/-- Modelled from the spec: `findSlotCuckoo` (header): the slot that already
holds the fingerprint in bucket `pos1` or `pos2`; else a free slot of either
bucket; else cuckoo eviction: an occupant of bucket `pos1` is evicted, the new
fingerprint is installed in its place (with counter zero, the caller counts the
occurrence) and the evicted entry is relocated; the slot of the new fingerprint
is returned. -/
def findSlotCuckoo (env : Env) (f : Filter) (pos1 pos2 fp : Nat) : Filter × Nat :=
  match probeBucket f pos1 fp with
  | some s => (f, s)
  | none =>
    match probeBucket f pos2 fp with
    | some s => (f, s)
    | none =>
      match probeBucket f pos1 0 with
      | some s => (f, s)
      | none =>
        match probeBucket f pos2 0 with
        | some s => (f, s)
        | none =>
          let choice := env.pseudoRandomChoice f.randState
          let victim := findSlot pos1 (choice.1 % kSlotsPerBucket)
          (relocate env victim env.kMaxRounds { f.place victim fp 0 with randState := choice.2 }
            pos1 (f.fingerprintAt victim) (f.counterAt victim), victim)

/-! ## Filter operations -/

/-- The locked block of `insert(Key const&)`, on the filter members. -/
def insertKey (env : Env) (f : Filter) (k : Key) : Filter :=
  let hash1 := env.hasherKey k
  let pos1 := hashToPos f hash1
  let fingerprint := env.keyToFingerprint k
  let hash2 := env.hasherPosFingerprint pos1 fingerprint
  let pos2 := hashToPos f hash2
  let found := findSlotCuckoo env f pos1 pos2 fingerprint
  let f1 :=
    if slotIsEmpty found.1 found.2 then
      -- Free slot. insert ourself.
      { slotInit found.1 found.2 fingerprint with nrUsed := u64 (found.1.nrUsed + 1) }
    else
      -- TRI_ASSERT(slot.isEqual(fingerprint))
      slotIncrease found.1 found.2
  { f1 with nrTotal := u64 (f1.nrTotal + 1) }

/-- The function `insert(Key const& k)`. -/
def insert (env : Env) (e : Estimator) (k : Key) : Estimator :=
  { e with toFilter := insertKey env e.toFilter k, needToPersist := true }

/-- One round of the loop of `insert(std::vector<Key> const&)`. -/
def insertBatchStep (env : Env) (f : Filter) (k : Key) : Filter :=
  let hash1 := env.hasherKey k
  let pos1 := hashToPos f hash1
  let fingerprint := env.keyToFingerprint k
  let hash2 := env.hasherPosFingerprint pos1 fingerprint
  let pos2 := hashToPos f hash2
  let found := findSlotCuckoo env f pos1 pos2 fingerprint
  let f1 :=
    if slotIsEmpty found.1 found.2 then
      { slotInit found.1 found.2 fingerprint with nrUsed := u64 (found.1.nrUsed + 1) }
    else
      slotIncrease found.1 found.2
  { f1 with nrTotal := u64 (f1.nrTotal + 1) }

/-- The function `insert(std::vector<Key> const& keys)`. -/
def insertBatch (env : Env) (e : Estimator) (keys : List Key) : Estimator :=
  if keys.isEmpty then e
  else { e with toFilter := keys.foldl (insertBatchStep env) e.toFilter, needToPersist := true }

/-- The locked block of `remove(Key const&)`, on the filter members, with the
value of `found`. -/
def removeKey (env : Env) (f : Filter) (k : Key) : Filter × Bool :=
  let hash1 := env.hasherKey k
  let pos1 := hashToPos f hash1
  let fingerprint := env.keyToFingerprint k
  let hash2 := env.hasherPosFingerprint pos1 fingerprint
  let pos2 := hashToPos f hash2
  let found := findSlotNoCuckoo f pos1 pos2 fingerprint
  if found.2 then
    -- only decrease the total if we actually found it
    let f1 := { f with nrTotal := sub64 f.nrTotal 1 }
    let dec := slotDecrease f1 found.1
    if dec.2 then (dec.1, true)
    else
      -- Removed last element. Have to remove
      let f2 := slotReset dec.1 found.1
      ({ f2 with nrUsed := sub64 f2.nrUsed 1 }, true)
  else if 0 < f.nrCuckood then
    ({ f with nrCuckood := f.nrCuckood - 1 }, false)
  else (f, false)

/-- The function `remove(Key const& k)`: the new state and the returned flag. -/
def remove (env : Env) (e : Estimator) (k : Key) : Estimator × Bool :=
  ({ e with toFilter := (removeKey env e.toFilter k).1, needToPersist := true },
    (removeKey env e.toFilter k).2)

/-- One round of the loop of `remove(std::vector<Key> const&)`. -/
def removeBatchStep (env : Env) (f : Filter) (k : Key) : Filter :=
  let hash1 := env.hasherKey k
  let pos1 := hashToPos f hash1
  let fingerprint := env.keyToFingerprint k
  let hash2 := env.hasherPosFingerprint pos1 fingerprint
  let pos2 := hashToPos f hash2
  let found := findSlotNoCuckoo f pos1 pos2 fingerprint
  if found.2 then
    let f1 := { f with nrTotal := sub64 f.nrTotal 1 }
    let dec := slotDecrease f1 found.1
    if dec.2 then dec.1
    else
      let f2 := slotReset dec.1 found.1
      { f2 with nrUsed := sub64 f2.nrUsed 1 }
  else if 0 < f.nrCuckood then
    { f with nrCuckood := f.nrCuckood - 1 }
  else f

/-- The function `remove(std::vector<Key> const& keys)`. -/
def removeBatch (env : Env) (e : Estimator) (keys : List Key) : Estimator :=
  if keys.isEmpty then e
  else { e with toFilter := keys.foldl (removeBatchStep env) e.toFilter, needToPersist := true }

/-- The body of one bucket in the reset loops: every slot of bucket `b` is
reset, together with its counter. -/
def resetBucket (f : Filter) (b : Nat) : Filter :=
  (List.range kSlotsPerBucket).foldl (fun g i => slotReset g (findSlot b i)) f

/-- The loop `for (uint32_t b = 0; b < _size; ++b)` of `clear` and
`initializeDefault`: the index is 32 bits wide and is compared with the 64-bit
`_size`. -/
def resetLoop (size : Nat) : Nat → Nat → Filter → Option Filter
  | 0, _, _ => none
  | fuel + 1, b, f =>
    if b < size then resetLoop size fuel ((b + 1) % 2 ^ 32) (resetBucket f b) else some f

/-- The function `clear()`. -/
def clear (fuel : Nat) (e : Estimator) : Option Estimator :=
  match resetLoop e.size fuel 0 { e.toFilter with nrTotal := 0, nrCuckood := 0, nrUsed := 0 } with
  | none => none
  | some f => some { e with toFilter := f, needToPersist := true }

/-! ## Memory accounting and update buffers -/

/-- The function `increaseMemoryUsage(value)` (the gauge is left out). -/
def increaseMemoryUsage (e : Estimator) (value : Nat) : Estimator :=
  { e with memoryUsage := u64 (e.memoryUsage + value) }

/-- The function `decreaseMemoryUsage(value)` (the gauge is left out);
`TRI_ASSERT(_memoryUsage >= value)`. -/
def decreaseMemoryUsage (e : Estimator) (value : Nat) : Estimator :=
  { e with memoryUsage := sub64 e.memoryUsage value }

/-- Accounted size of a buffered batch:
`bufferedEntrySize() + bufferedEntryItemSize() * keys.size()`. -/
def batchMemory (env : Env) (keys : List Key) : Nat :=
  u64 (env.bufferedEntrySize + u64 (env.bufferedEntryItemSize * keys.length))

/-- `emplace(seq, keys)` on an insert/removal buffer: the batch goes behind the
entries with a smaller (multimap: or equal) sequence number; a map that
already holds `seq` is left as it is. -/
def emplaceBatch (multi : Bool) :
    List (Nat × List Key) → Nat → List Key → List (Nat × List Key)
  | [], seq, keys => [(seq, keys)]
  | (s, ks) :: rest, seq, keys =>
    if s < seq then (s, ks) :: emplaceBatch multi rest seq keys
    else if s = seq then
      if multi then (s, ks) :: emplaceBatch multi rest seq keys else (s, ks) :: rest
    else (seq, keys) :: (s, ks) :: rest

/-- Modelled from the spec: the pending truncations are an ordered set of
sequence numbers (the member is declared in the header); `emplace(seq)` on it:
a sequence number that is already present is not stored again. -/
def emplaceMarker : List Nat → Nat → List Nat
  | [], seq => [seq]
  | s :: rest, seq =>
    if s < seq then s :: emplaceMarker rest seq
    else if s = seq then s :: rest
    else seq :: s :: rest

/-- The function `bufferTruncate(seq)`. -/
def bufferTruncate (env : Env) (e : Estimator) (seq : Nat) : Estimator :=
  increaseMemoryUsage
    { e with truncateBuffer := emplaceMarker e.truncateBuffer seq, needToPersist := true }
    env.bufferedEntrySize

/-- The function `bufferUpdates(seq, inserts, removals)`;
`TRI_ASSERT(!inserts.empty() || !removals.empty())`. -/
def bufferUpdates (env : Env) (e : Estimator) (seq : Nat) (inserts removals : List Key) :
    Estimator :=
  let e1 :=
    if inserts.isEmpty then e
    else
      increaseMemoryUsage
        { e with insertBuffers := emplaceBatch env.multiBuffers e.insertBuffers seq inserts }
        (batchMemory env inserts)
  let e2 :=
    if removals.isEmpty then e1
    else
      increaseMemoryUsage
        { e1 with removalBuffers := emplaceBatch env.multiBuffers e1.removalBuffers seq removals }
        (batchMemory env removals)
  { e2 with needToPersist := true }

/-! ## applyUpdates -/

/-- Locals of `applyUpdates` after the scan of the truncate markers. -/
structure TruncateScan where
  rest : List Nat
  ignoreSeq : Nat
  appliedSeq : Nat
  foundTruncate : Bool
  memoryUsage : Nat
deriving DecidableEq, Repr

/-- The loop "check for a truncate marker": the leading markers with
`seq <= commitSeq` are erased; each sets `ignoreSeq`, raises `appliedSeq` and
adds `bufferedEntrySize()` to the local `memoryUsage`.
`TRI_ASSERT(ignoreSeq != 0)`. -/
def scanTruncate (env : Env) (commitSeq : Nat) :
    List Nat → Nat → Nat → Bool → Nat → TruncateScan
  | [], ignoreSeq, appliedSeq, found, mem =>
    { rest := [], ignoreSeq := ignoreSeq, appliedSeq := appliedSeq, foundTruncate := found,
      memoryUsage := mem }
  | t :: rest, ignoreSeq, appliedSeq, found, mem =>
    if t ≤ commitSeq then
      scanTruncate env commitSeq rest t (max appliedSeq t) true (u64 (mem + env.bufferedEntrySize))
    else
      { rest := t :: rest, ignoreSeq := ignoreSeq, appliedSeq := appliedSeq,
        foundTruncate := found, memoryUsage := mem }

/-- Locals of `applyUpdates` after the scan of one buffer. -/
structure BatchScan where
  rest : List (Nat × List Key)
  batch : List Key
  appliedSeq : Nat
  memoryUsage : Nat
deriving DecidableEq, Repr

/-- The loop "check for inserts" (and, with the same body, "check for
removals"): leading entries with `seq <= commitSeq` are visited; an entry with
`seq <= ignoreSeq` is erased unapplied, the first other one is moved out as the
batch of this pass and the loop is left.
`TRI_ASSERT(it->first <= appliedSeq)`, `TRI_ASSERT(!inserts.empty())`. -/
def scanBatch (env : Env) (commitSeq ignoreSeq : Nat) :
    List (Nat × List Key) → Nat → Nat → BatchScan
  | [], appliedSeq, mem => { rest := [], batch := [], appliedSeq := appliedSeq, memoryUsage := mem }
  | (s, ks) :: rest, appliedSeq, mem =>
    if s ≤ commitSeq then
      if s ≤ ignoreSeq then
        scanBatch env commitSeq ignoreSeq rest appliedSeq (u64 (mem + batchMemory env ks))
      else
        { rest := rest, batch := ks, appliedSeq := max appliedSeq s,
          memoryUsage := u64 (mem + batchMemory env ks) }
    else
      { rest := (s, ks) :: rest, batch := [], appliedSeq := appliedSeq, memoryUsage := mem }

/-- The `while (true)` loop of `applyUpdates`, one pass per unit of fuel: the
block under the write lock (truncate markers, inserts, removals, memory
accounting), `clear()` when a marker was found, the exit test, and the
application of the two batches, inserts first.
`TRI_ASSERT(ignoreSeq <= commitSeq)`. -/
def applyUpdatesLoop (env : Env) (commitSeq clearFuel : Nat) :
    Nat → Estimator → Nat → Nat → Option (Nat × Estimator)
  | 0, _, _, _ => none
  | fuel + 1, e, appliedSeq, ignoreSeq =>
    let t := scanTruncate env commitSeq e.truncateBuffer ignoreSeq appliedSeq false 0
    let i := scanBatch env commitSeq t.ignoreSeq e.insertBuffers t.appliedSeq t.memoryUsage
    let r := scanBatch env commitSeq t.ignoreSeq e.removalBuffers i.appliedSeq i.memoryUsage
    let e1 :=
      decreaseMemoryUsage
        { e with truncateBuffer := t.rest, insertBuffers := i.rest, removalBuffers := r.rest }
        r.memoryUsage
    match (if t.foundTruncate then clear clearFuel e1 else some e1) with
    | none => none
    | some e2 =>
      if i.batch.isEmpty && r.batch.isEmpty then some (r.appliedSeq, e2)
      else
        applyUpdatesLoop env commitSeq clearFuel fuel
          (removeBatch env (insertBatch env e2 i.batch) r.batch) r.appliedSeq t.ignoreSeq

/-- The function `applyUpdates(commitSeq)`: the returned `appliedSeq` and the
new state; `none` when the fuel does not suffice. -/
def applyUpdates (env : Env) (fuel : Nat) (e : Estimator) (commitSeq : Nat) :
    Option (Nat × Estimator) :=
  applyUpdatesLoop env commitSeq fuel fuel e 0 0

/-! ## Serialization -/

/-- The function `appendHeader(result)`. -/
def appendHeader (env : Env) (e : Estimator) (result : List Byte) : List Byte :=
  result ++ uintToPersistent env.byteOrder 8 e.size
    ++ uintToPersistent env.byteOrder 8 e.nrUsed
    ++ uintToPersistent env.byteOrder 8 e.nrCuckood
    ++ uintToPersistent env.byteOrder 8 e.nrTotal
    ++ uintToPersistent env.byteOrder 8 e.niceSize
    ++ uintToPersistent env.byteOrder 8 e.logSize

/-- The function `appendDataBlob(result)`: the first loop walks the slot region
in steps of `kSlotSize` bytes, the second the counter region in steps of
`kCounterSize` bytes. -/
def appendDataBlob (env : Env) (e : Estimator) (result : List Byte) : List Byte :=
  let r1 :=
    (List.range (u64 (e.size * kSlotSize * kSlotsPerBucket) / kSlotSize)).foldl
      (fun acc j => acc ++ uintToPersistent env.byteOrder 2 (e.fingerprintAt j)) result
  (List.range (u64 (e.size * kCounterSize * kSlotsPerBucket) / kCounterSize)).foldl
    (fun acc j => acc ++ uintToPersistent env.byteOrder 4 (e.counterAt j)) r1

/-- The function `serialize(serialized, maxCommitSeq, format)`, started on an
empty output string: the blob and the new state; `none` when `applyUpdates` does
not return.  `TRI_ASSERT(appliedSeq <= maxCommitSeq)`,
`TRI_ASSERT(appliedSeq != max)`. -/
def serialize (env : Env) (fuel : Nat) (e : Estimator) (maxCommitSeq : Nat)
    (format : SerializeFormat) : Option (List Byte × Estimator) :=
  match applyUpdates env fuel e maxCommitSeq with
  | none => none
  | some (applied, e1) =>
    let appliedSeq := max applied e1.appliedSeq
    let serialized := uintToPersistent env.byteOrder 8 appliedSeq ++ [env.tag format]
    -- note where we left off
    let leftOff := serialized.length
    let serialLength :=
      u64 (u64 (1 + 8 + 8 + 8 + 8 + 8 + 8 + 8 + u64 (e1.size * kSlotSize * kSlotsPerBucket))
        + u64 (e1.size * kCounterSize * kSlotsPerBucket))
    let serialized := serialized ++ uintToPersistent env.byteOrder 8 serialLength
    let serialized := appendHeader env e1 serialized
    let serialized := appendDataBlob env e1 serialized
    let serialized :=
      match format with
      | SerializeFormat.COMPRESSED =>
        let scratch := env.compress (serialized.drop leftOff)
        serialized.take leftOff ++ uintToPersistent env.byteOrder 8 scratch.length ++ scratch
      | SerializeFormat.UNCOMPRESSED => serialized
    let havePendingUpdates :=
      !e1.insertBuffers.isEmpty || !e1.removalBuffers.isEmpty || !e1.truncateBuffer.isEmpty
    some (serialized, { e1 with needToPersist := havePendingUpdates, appliedSeq := appliedSeq })

/-! ## Deserialization -/

/-- How a deserialization ends without a loaded estimator: one of the three
exceptions of the source, or a read behind the end of the input (which the
source does not check; its behaviour is undefined there). -/
inductive Failure where
  | invalidFormat
  | unserialize
  | uncompress
  | outOfBounds
deriving DecidableEq, Repr

/-- The function `deriveSizesAndAlloc()`: mask and shift, the freshly
allocated (zeroed) table of `bytesForSlots` and `bytesForCounters` bytes and
its accounting.  `TRI_ASSERT(bytesForSlots % 64 == 0)`. -/
def deriveSizesAndAlloc (e : Estimator) : Estimator :=
  let bytesForSlots := u64 (e.size * kSlotSize * kSlotsPerBucket)
  let bytesForCounters := u64 (e.size * kCounterSize * kSlotsPerBucket)
  let allocSize := u64 (bytesForSlots + bytesForCounters + 64)
  increaseMemoryUsage
    { e with
      sizeMask := sub64 e.niceSize 1
      sizeShift := (sub64 64 e.logSize / 2) % 2 ^ 32
      allocSize := allocSize
      slots := List.replicate (bytesForSlots / kSlotSize) 0
      counters := List.replicate (bytesForCounters / kCounterSize) 0 }
    allocSize

/-- A loading loop of `deserializeUncompressedBody`: `n` integers of `w` bytes
each are read from consecutive positions. -/
def readValues (bo : ByteOrder) (w : Nat) : Nat → List Byte → List Nat
  | 0, _ => []
  | n + 1, bs => uintFromPersistent bo (bs.take w) :: readValues bo w n (bs.drop w)

/-- The function `deserializeUncompressedBody(serialized)`: the state it leaves
and the failure, if any.  The declared length is read and, assertions being
compiled out, not looked at again:
`TRI_ASSERT(serialized.size() + sizeof(SerializeFormat) == length)`,
`TRI_ASSERT(serialized.size() == ... + (_size * kSlotSize * kSlotsPerBucket) +
(_size * kCounterSize * kSlotsPerBucket))`. -/
def deserializeUncompressedBody (env : Env) (e : Estimator) (serialized : List Byte) :
    Estimator × Option Failure :=
  if serialized.length ≤ minRequiredSize then (e, some Failure.invalidFormat)
  else
    let _length := readAt env.byteOrder 8 serialized 0
    let e1 : Estimator := { e with size := readAt env.byteOrder 8 serialized 8 }
    if e1.size ≤ 256 then (e1, some Failure.unserialize)
    else
      let e2 : Estimator :=
        { e1 with
          nrUsed := readAt env.byteOrder 8 serialized 16
          nrCuckood := readAt env.byteOrder 8 serialized 24
          nrTotal := readAt env.byteOrder 8 serialized 32
          niceSize := readAt env.byteOrder 8 serialized 40
          logSize := readAt env.byteOrder 8 serialized 48 }
      let e3 := deriveSizesAndAlloc e2
      let nSlots := u64 (e3.size * kSlotSize * kSlotsPerBucket) / kSlotSize
      let nCounters := u64 (e3.size * kCounterSize * kSlotsPerBucket) / kCounterSize
      let data := serialized.drop minRequiredSize
      if data.length < nSlots * kSlotSize + nCounters * kCounterSize then
        -- the loops run past the end of the input
        (e3, some Failure.outOfBounds)
      else
        ({ e3 with
            slots := readValues env.byteOrder kSlotSize nSlots data
            counters :=
              readValues env.byteOrder kCounterSize nCounters (data.drop (nSlots * kSlotSize)) },
          none)

/-- The function `deserialize(serialized)`: the state it leaves and the failure,
if any.  `TRI_ASSERT(serialized.size() > sizeof(_appliedSeq) + 1)`,
`TRI_ASSERT(compressedLength == serialized.size() - 17)`. -/
def deserialize (env : Env) (e : Estimator) (serialized : List Byte) :
    Estimator × Option Failure :=
  if serialized.length < 9 then (e, some Failure.outOfBounds)
  else
    let e1 : Estimator := { e with appliedSeq := readAt env.byteOrder 8 serialized 0 }
    let format := serialized.getD 8 0
    let current := serialized.drop 9
    if format = env.uncompressedTag then deserializeUncompressedBody env e1 current
    else if format = env.compressedTag then
      if current.length < 8 then (e1, some Failure.outOfBounds)
      else
        let compressedLength := readAt env.byteOrder 8 current 0
        let current := current.drop 8
        if current.length < compressedLength then (e1, some Failure.outOfBounds)
        else
          match env.uncompress (current.take compressedLength) with
          | none => (e1, some Failure.uncompress)
          | some scratch => deserializeUncompressedBody env e1 scratch
    else (e1, some Failure.invalidFormat)

/-! ## Construction -/

/-- The loop of `initializeDefault()` that doubles `_niceSize` until it is not
smaller than `_size`; the result is `(_niceSize, _logSize)`. -/
def niceSizeLoop (size : Nat) : Nat → Nat → Nat → Option (Nat × Nat)
  | 0, _, _ => none
  | fuel + 1, niceSize, logSize =>
    if niceSize < size then niceSizeLoop size fuel (u64 (niceSize * 2)) (u64 (logSize + 1))
    else some (niceSize, logSize)

/-- The function `initializeDefault()`. -/
def initializeDefault (fuel : Nat) (e : Estimator) : Option Estimator :=
  match niceSizeLoop e.size fuel 256 8 with
  | none => none
  | some (niceSize, logSize) =>
    let e1 := deriveSizesAndAlloc { e with niceSize := niceSize, logSize := logSize }
    -- Now initialize all slots in all buckets with zero data
    match resetLoop e1.size fuel 0 e1.toFilter with
    | none => none
    | some f => some { e1 with toFilter := f }

/-- The constructor `RocksDBCuckooIndexEstimator(memoryUsageMetric, size)`. -/
def construct (fuel : Nat) (size : Nat) : Option Estimator :=
  -- Inflate size so that we have some padding to avoid failure
  let size := u64 (size * 2)
  let size := if size ≥ 1024 then size else 1024 -- want 256 buckets minimum
  let size := size / kSlotsPerBucket
  initializeDefault fuel { emptyEstimator with size := size }

/-! ## Read-only operations -/

/-- The function `isFormatSupported(serialized)`: `none` stands for the read
behind the end of an input of fewer than 9 bytes.
`TRI_ASSERT(serialized.size() > sizeof(_appliedSeq) + sizeof(char))`. -/
def isFormatSupported (env : Env) (serialized : List Byte) : Option Bool :=
  if serialized.length < 9 then none
  else
    some (decide (serialized.getD 8 0 = env.uncompressedTag) ||
      decide (serialized.getD 8 0 = env.compressedTag))

/-- The function `lookup(Key const& k)`. -/
def lookup (env : Env) (e : Estimator) (k : Key) : Bool :=
  let hash1 := env.hasherKey k
  let pos1 := hashToPos e.toFilter hash1
  let fingerprint := env.keyToFingerprint k
  let hash2 := env.hasherPosFingerprint pos1 fingerprint
  let pos2 := hashToPos e.toFilter hash2
  (findSlotNoCuckoo e.toFilter pos1 pos2 fingerprint).2

/-! ## Double-precision arithmetic of `computeEstimate` -/

/-- The position of the leading bit of `n`, found by halving at most `fuel`
times. -/
def floorLog2Aux : Nat → Nat → Nat
  | 0, _ => 0
  | fuel + 1, n => if n < 2 then 0 else floorLog2Aux fuel (n / 2) + 1

/-- The position of the leading bit of `n`: the exponent `L` with
`2 ^ L ≤ n < 2 ^ (L + 1)` (0 for `n = 0`). -/
def floorLog2 (n : Nat) : Nat := floorLog2Aux n n

/-- The integer nearest to `n / d`; of two nearest integers, the even one. -/
def roundHalfEven (n d : Nat) : Nat :=
  let q := n / d
  let r := n % d
  if 2 * r < d then q else if d < 2 * r then q + 1 else if q % 2 = 0 then q else q + 1

/-- The conversion `static_cast<double>(n)` of a 64-bit unsigned integer: the
value of the binary64 number nearest to `n` (53 significant bits, round to
nearest, ties to even). It is an integer; below `2 ^ 53` it is `n`. -/
def toDouble (n : Nat) : Nat :=
  let s := floorLog2 n - 52
  roundHalfEven n (2 ^ s) * 2 ^ s

/-- The division `a / b` of two doubles that hold the integers `a` and `b`,
`0 < b`, both at most `2 ^ 64`: the value of the binary64 number nearest to the
quotient (IEEE 754 division is correctly rounded; these quotients are 0 or lie
between `2 ^ (-64)` and `2 ^ 64`, within the normal range). The quotient is
scaled by `2 ^ 117`, so that its 53 leading bits are an integer. -/
def divDouble (a b : Nat) : ℚ :=
  let s := floorLog2 (a * 2 ^ 117 / b) - 52
  ((roundHalfEven (a * 2 ^ 117) (b * 2 ^ s) * 2 ^ s : Nat) : ℚ) / 2 ^ 117

/-- The function `computeEstimate()`: the returned value and the state the call
leaves (it raises `_nrTotal` to `_nrUsed` when it finds `_nrUsed > _nrTotal`).
The value is that of the returned `double`:
`static_cast<double>(_nrUsed) / static_cast<double>(_nrTotal)`.
`TRI_ASSERT(0 == _nrUsed)`, `TRI_ASSERT(_nrUsed <= _nrTotal)`. -/
def computeEstimate (e : Estimator) : ℚ × Estimator :=
  if e.nrTotal = 0 then
    -- If we do not have any documents, we have a rather constant estimate.
    (1, e)
  else
    let e1 : Estimator := if e.nrUsed > e.nrTotal then { e with nrTotal := e.nrUsed } else e
    (divDouble (toDouble e1.nrUsed) (toDouble e1.nrTotal), e1)

/-! ## Predicates and reference definitions used in the statements -/

/-- A sample instantiation of `Env`, used to evaluate the model on concrete
inputs: little-endian integers, tags `'1'` and `'2'`, the identity as block
codec, multimap buffers and simple hash functions. -/
def sampleEnv : Env :=
  { byteOrder := ByteOrder.little
    uncompressedTag := 49
    compressedTag := 50
    tagsDistinct := by decide
    compress := fun b => b
    uncompress := fun b => some b
    bufferedEntrySize := 40
    bufferedEntryItemSize := 8
    multiBuffers := true
    hasherKey := fun k => u64 (k * 0x9E3779B97F4A7C15)
    keyToFingerprint := fun k => k % 65535 + 1
    hasherPosFingerprint := fun pos fp => u64 ((pos + 1) * 0xC2B2AE3D27D4EB4F + fp)
    pseudoRandomChoice := fun s => ((u64 (s * 997 + 17) >>> 37) % 256, u64 (s * 997 + 17))
    kMaxRounds := 16 }

/-- The table is the one allocated for `_size` buckets: both regions hold
`size * kSlotsPerBucket` entries, fingerprints are 16-bit and counters 32-bit
values, and the allocation (`size * 24 + 64` bytes) fits 64 bits. -/
def TableOk (f : Filter) : Prop :=
  f.slots.length = f.size * kSlotsPerBucket ∧
  f.counters.length = f.size * kSlotsPerBucket ∧
  (∀ x ∈ f.slots, x < 2 ^ 16) ∧
  (∀ x ∈ f.counters, x < 2 ^ 32) ∧
  f.size * 24 + 64 < 2 ^ 64

instance (f : Filter) : Decidable (TableOk f) := by
  unfold TableOk
  infer_instance

/-- The 64-bit members that are persisted hold 64-bit values. -/
def MembersOk (e : Estimator) : Prop :=
  e.nrUsed < 2 ^ 64 ∧ e.nrCuckood < 2 ^ 64 ∧ e.nrTotal < 2 ^ 64 ∧
  e.niceSize < 2 ^ 64 ∧ e.logSize < 2 ^ 64 ∧ e.appliedSeq < 2 ^ 64

instance (e : Estimator) : Decidable (MembersOk e) := by
  unfold MembersOk
  infer_instance

/-- The update buffers are what the ordered containers of the source can hold:
batches and markers ascend in sequence number and, as `bufferUpdates` stores
no empty vector, no buffered batch is empty. -/
def BuffersOk (e : Estimator) : Prop :=
  (e.insertBuffers.map Prod.fst).Pairwise (· ≤ ·) ∧
  (e.removalBuffers.map Prod.fst).Pairwise (· ≤ ·) ∧
  e.truncateBuffer.Pairwise (· ≤ ·) ∧
  (∀ b ∈ e.insertBuffers, b.2 ≠ []) ∧
  (∀ b ∈ e.removalBuffers, b.2 ≠ [])

instance (e : Estimator) : Decidable (BuffersOk e) := by
  unfold BuffersOk
  infer_instance

/-- The key lists of the buffered batches that `applyUpdates(commitSeq)` applies
when no truncate marker is pending: those with `0 < seq <= commitSeq`, in buffer
order (`ignoreSeq` starts at 0, so a batch buffered under sequence number 0 is
erased unapplied). -/
def dueBatches (commitSeq : Nat) (buffer : List (Nat × List Key)) : List (List Key) :=
  (buffer.filter (fun b => decide (0 < b.1) && decide (b.1 ≤ commitSeq))).map Prod.snd

/-- Rounds of a replay that walks two lists of batches in parallel: round `k`
holds the `k`-th insert batch and the `k`-th removal batch, an empty list
standing in where one of the two lists has run out. -/
def pairRounds : List (List Key) → List (List Key) → List (List Key × List Key)
  | [], rs => rs.map (fun r => ([], r))
  | i :: is, [] => (i, []) :: is.map (fun j => (j, []))
  | i :: is, r :: rs => (i, r) :: pairRounds is rs

/-- Replay in rounds: each round applies its insert batch and then its removal
batch. -/
def replayPaired (env : Env) (e : Estimator) (inserts removals : List (List Key)) : Estimator :=
  (pairRounds inserts removals).foldl
    (fun acc round => removeBatch env (insertBatch env acc round.1) round.2) e

/-- The buffered batches with `seq <= commitSeq`, inserts (flag `false`) and
removals (flag `true`) together, in increasing order of sequence number. -/
def batchesInSeqOrder (e : Estimator) (commitSeq : Nat) : List (Nat × Bool × List Key) :=
  List.insertionSort (fun a b => a.1 ≤ b.1)
    (((e.insertBuffers.filter (fun b => decide (b.1 ≤ commitSeq))).map
        (fun b => (b.1, false, b.2))) ++
      ((e.removalBuffers.filter (fun b => decide (b.1 ≤ commitSeq))).map
        (fun b => (b.1, true, b.2))))

/-- Replay as the specification words it: all buffered insert and removal
batches with `seq <= commitSeq` are applied one batch at a time in increasing
order of sequence number. -/
def replayInSeqOrder (env : Env) (e : Estimator) (commitSeq : Nat) : Estimator :=
  (batchesInSeqOrder e commitSeq).foldl
    (fun acc u => if u.2.1 then removeBatch env acc u.2.2 else insertBatch env acc u.2.2) e

/-- A small estimator for evaluating the model: two buckets, empty table. -/
def tinyEstimator : Estimator :=
  { emptyEstimator with
    logSize := 1
    size := 2
    niceSize := 2
    sizeMask := 1
    sizeShift := 31
    slots := List.replicate 8 0
    counters := List.replicate 8 0
    allocSize := 112
    memoryUsage := 112 }

/-- An estimator whose table has `2 ^ 32` buckets (a table of 96 GiB), with
nothing stored and nothing buffered. -/
def hugeEstimator : Estimator :=
  { emptyEstimator with
    logSize := 32
    size := 2 ^ 32
    niceSize := 2 ^ 32
    sizeMask := 2 ^ 32 - 1
    sizeShift := 16
    slots := List.replicate (2 ^ 32 * kSlotsPerBucket) 0
    counters := List.replicate (2 ^ 32 * kSlotsPerBucket) 0
    allocSize := 2 ^ 32 * 24 + 64
    memoryUsage := 2 ^ 32 * 24 + 64 }

/-- An estimator with one removal batch buffered under sequence number 3 and one
insert batch under sequence number 5, both for key 1 (which is not in the
filter). -/
def crossedEstimator : Estimator :=
  { tinyEstimator with insertBuffers := [(5, [1])], removalBuffers := [(3, [1])] }

/-- The uncompressed blob as the specification lays it out: 8 bytes
`appliedSeq`, the format byte `UNCOMPRESSED`, 8 bytes length, 8 bytes each for
`size`, `nrUsed`, `nrCuckood`, `nrTotal`, `niceSize`, `logSize`, the
fingerprints as 2-byte values in slot order, the counters as 4-byte values in
slot order. -/
def uncompressedLayout (env : Env) (e : Estimator) (appliedSeq length : Nat) : List Byte :=
  uintToPersistent env.byteOrder 8 appliedSeq ++ [env.uncompressedTag]
    ++ uintToPersistent env.byteOrder 8 length
    ++ uintToPersistent env.byteOrder 8 e.size
    ++ uintToPersistent env.byteOrder 8 e.nrUsed
    ++ uintToPersistent env.byteOrder 8 e.nrCuckood
    ++ uintToPersistent env.byteOrder 8 e.nrTotal
    ++ uintToPersistent env.byteOrder 8 e.niceSize
    ++ uintToPersistent env.byteOrder 8 e.logSize
    ++ e.slots.flatMap (uintToPersistent env.byteOrder 2)
    ++ e.counters.flatMap (uintToPersistent env.byteOrder 4)

/-- What `serialize` writes behind the format byte before any compression: the
length field, the header and the data blob. -/
def uncompressedBody (env : Env) (e : Estimator) : List Byte :=
  appendDataBlob env e
    (appendHeader env e
      (uintToPersistent env.byteOrder 8
        (u64 (u64 (1 + 8 + 8 + 8 + 8 + 8 + 8 + 8 + u64 (e.size * kSlotSize * kSlotsPerBucket))
          + u64 (e.size * kCounterSize * kSlotsPerBucket)))))

/-- An estimator with an empty table of 257 buckets, the smallest size that
`deserializeUncompressedBody` accepts. -/
def sample257 : Estimator :=
  { emptyEstimator with
    logSize := 9
    size := 257
    niceSize := 512
    sizeMask := 511
    sizeShift := 27
    slots := List.replicate (257 * kSlotsPerBucket) 0
    counters := List.replicate (257 * kSlotsPerBucket) 0
    allocSize := 6232
    memoryUsage := 6232 }

/-- What the size constructor builds for a requested size of 0 (and for every
request up to 512): the table of 256 buckets, empty. -/
def minimalEstimator : Estimator :=
  { emptyEstimator with
    logSize := 8
    size := 256
    niceSize := 256
    sizeMask := 255
    sizeShift := 28
    slots := List.replicate (256 * kSlotsPerBucket) 0
    counters := List.replicate (256 * kSlotsPerBucket) 0
    allocSize := 6208
    memoryUsage := 6208 }


/-- Two filter states have the same table geometry: the same bucket count,
hash geometry and table lengths. -/
def SameShape (f g : Filter) : Prop :=
  g.size = f.size ∧ g.sizeMask = f.sizeMask ∧ g.sizeShift = f.sizeShift ∧
    g.niceSize = f.niceSize ∧ g.logSize = f.logSize ∧
    g.slots.length = f.slots.length ∧ g.counters.length = f.counters.length


/-- The part of `insert` behind the slot search, for the slot `s` it returned:
an empty slot is initialised and counted in `nrUsed`, an occupied one has its
counter increased; `nrTotal` is incremented. -/
def storeAt (g : Filter) (s fp : Nat) : Filter :=
  let f1 :=
    if slotIsEmpty g s then { slotInit g s fp with nrUsed := u64 (g.nrUsed + 1) }
    else slotIncrease g s
  { f1 with nrTotal := u64 (f1.nrTotal + 1) }

/-- First candidate bucket of a key. -/
def pos1Of (env : Env) (f : Filter) (k : Key) : Nat := hashToPos f (env.hasherKey k)

/-- Second candidate bucket of a key. -/
def pos2Of (env : Env) (f : Filter) (k : Key) : Nat :=
  hashToPos f (env.hasherPosFingerprint (pos1Of env f k) (env.keyToFingerprint k))


/-- Fingerprint `fp` is stored in bucket `pos`: one of the slots of the bucket
holds it. -/
def HasFp (f : Filter) (pos fp : Nat) : Prop :=
  ∃ i, i < kSlotsPerBucket ∧ f.fingerprintAt (findSlot pos i) = fp

/-- Slot `s` is one of the slots of bucket `pos`. -/
def InBucket (pos s : Nat) : Prop := ∃ i, i < kSlotsPerBucket ∧ s = findSlot pos i


/-- The fingerprint of key `k` is stored in one of its two candidate buckets. -/
def Stored (env : Env) (f : Filter) (k : Key) : Prop :=
  HasFp f (pos1Of env f k) (env.keyToFingerprint k) ∨
    HasFp f (pos2Of env f k) (env.keyToFingerprint k)

instance (f : Filter) (pos fp : Nat) : Decidable (HasFp f pos fp) := by
  unfold HasFp
  infer_instance

instance (env : Env) (f : Filter) (k : Key) : Decidable (Stored env f k) := by
  unfold Stored
  infer_instance

/-- The slot that `findSlotNoCuckoo` answers for key `k`: when the fingerprint
is stored, the first slot holding it, bucket `pos1` before bucket `pos2`. -/
def foundSlot (env : Env) (f : Filter) (k : Key) : Nat :=
  (findSlotNoCuckoo f (pos1Of env f k) (pos2Of env f k) (env.keyToFingerprint k)).1


/-- The state of a freshly constructed estimator, as far as the filter
operations depend on it: a zeroed table of `size * kSlotsPerBucket` slots, the
three statistics zero, and a hash geometry that sends every hash to one of the
`size` buckets. -/
def Fresh (e : Estimator) : Prop :=
  e.slots = List.replicate (e.size * kSlotsPerBucket) 0 ∧
    e.counters = List.replicate (e.size * kSlotsPerBucket) 0 ∧
    e.nrUsed = 0 ∧ e.nrCuckood = 0 ∧ e.nrTotal = 0 ∧
    ∀ hash, hashToPos e.toFilter hash < e.size


/-- One of the two candidate buckets of key `k` has an empty slot. -/
def HasFree (env : Env) (f : Filter) (k : Key) : Prop :=
  HasFp f (pos1Of env f k) 0 ∨ HasFp f (pos2Of env f k) 0

instance (env : Env) (f : Filter) (k : Key) : Decidable (HasFree env f k) := by
  unfold HasFree
  infer_instance

/-- The first empty slot of the two candidate buckets of key `k`, bucket `pos1`
before bucket `pos2`. -/
def freeSlot (env : Env) (f : Filter) (k : Key) : Nat :=
  (findSlotNoCuckoo f (pos1Of env f k) (pos2Of env f k) 0).1

/-- No call of the sequence `insert(k)`, `k` from `keys`, has to evict an
entry: each finds its fingerprint or an empty slot in one of its two candidate
buckets. -/
def NoEviction (env : Env) : Filter → List Key → Prop
  | _, [] => True
  | f, k :: ks => (Stored env f k ∨ HasFree env f k) ∧ NoEviction env (insertKey env f k) ks

instance (env : Env) (f : Filter) (keys : List Key) : Decidable (NoEviction env f keys) := by
  induction keys generalizing f with
  | nil => exact isTrue trivial
  | cons k ks ih =>
    unfold NoEviction
    exact @instDecidableAnd _ _ _ (ih _)

/-- Keys `a` and `b` do not have both the same fingerprint and a common
candidate bucket. -/
def Compatible (env : Env) (f : Filter) (a b : Key) : Prop :=
  env.keyToFingerprint a = env.keyToFingerprint b →
    pos1Of env f a ≠ pos1Of env f b ∧ pos1Of env f a ≠ pos2Of env f b ∧
      pos2Of env f a ≠ pos1Of env f b ∧ pos2Of env f a ≠ pos2Of env f b

instance (env : Env) (f : Filter) (a b : Key) : Decidable (Compatible env f a b) := by
  unfold Compatible
  infer_instance


/-- The table has `size * kSlotsPerBucket` slots and counters, and every hash
is sent to one of the `size` buckets. -/
def InTable (f : Filter) : Prop :=
  f.slots.length = f.size * kSlotsPerBucket ∧ f.counters.length = f.size * kSlotsPerBucket ∧
    ∀ hash, hashToPos f hash < f.size


/-- An instantiation of `Env` whose hash functions send every key to the
candidate buckets 0 and 1, give key `k` the fingerprint `k + 1`, and give an
entry that sits in bucket `pos` the alternate bucket `pos + 1`; the occupant
chosen for eviction is always the first of its bucket. -/
def driftEnv : Env :=
  { sampleEnv with
    hasherKey := fun _ => 0
    keyToFingerprint := fun k => k + 1
    hasherPosFingerprint := fun pos _ => (pos + 1) * 2 ^ 28
    pseudoRandomChoice := fun s => (0, s)
    kMaxRounds := 16 }


/-- Slot `s` of filter `f` lies in one of the two candidate buckets of key `k`
(taken with the geometry of `f0`) and holds the fingerprint of `k`. -/
def Owns (env : Env) (f0 f : Filter) (k : Key) (s : Nat) : Prop :=
  (InBucket (pos1Of env f0 k) s ∨ InBucket (pos2Of env f0 k) s) ∧
    f.fingerprintAt s = env.keyToFingerprint k

/-- The keys of `L` are stored in `f` once each, in a slot of their own: every
occupied slot has counter 1 and belongs to a key of `L`, every key of `L` has
exactly one slot, `nrUsed` and `nrTotal` are the number of keys and no entry
was dropped. -/
def OneSlotEach (env : Env) (f0 f : Filter) (L : List Key) : Prop :=
  SameShape f0 f ∧
    (∀ k ∈ L, env.keyToFingerprint k ≠ 0) ∧
    (∀ s, f.fingerprintAt s ≠ 0 → f.counterAt s = 1 ∧ ∃ k ∈ L, Owns env f0 f k s) ∧
    (∀ k ∈ L, (∃ s, Owns env f0 f k s) ∧
      ∀ s t, Owns env f0 f k s → Owns env f0 f k t → s = t) ∧
    f.nrUsed = L.length ∧ f.nrTotal = L.length ∧ f.nrCuckood = 0 ∧
    L.length ≤ f.slots.countP (fun x => decide (x ≠ 0))


/-- The value the size constructor gives `_size` for a requested size `n`:
`size *= 2; size = (size >= 1024) ? size : 1024; size /= kSlotsPerBucket`. -/
def requestedBuckets (n : Nat) : Nat :=
  (if u64 (n * 2) ≥ 1024 then u64 (n * 2) else 1024) / kSlotsPerBucket

/-- The local `bytesForSlots` of `deriveSizesAndAlloc()`:
`_size * kSlotSize * kSlotsPerBucket`. -/
def bytesForSlots (e : Estimator) : Nat := u64 (e.size * kSlotSize * kSlotsPerBucket)


/-- The largest number of a list, 0 for the empty list. -/
def maxSeq : List Nat → Nat
  | [] => 0
  | x :: xs => max x (maxSeq xs)

/-- The sequence numbers at or below `commitSeq` of the batches of a buffer. -/
def dueOf (commitSeq : Nat) (buffer : List (Nat × List Key)) : List Nat :=
  (buffer.filter (fun b => decide (b.1 ≤ commitSeq))).map Prod.fst

/-- The sequence numbers at or below `commitSeq` of all buffered insert batches,
removal batches and truncate markers. -/
def dueSeqs (commitSeq : Nat) (e : Estimator) : List Nat :=
  dueOf commitSeq e.insertBuffers ++ dueOf commitSeq e.removalBuffers ++
    e.truncateBuffer.filter (fun t => decide (t ≤ commitSeq))


/-- The two-bucket estimator with insert batches buffered under the sequence
numbers 3 and 7, a removal batch under 5 and truncate markers at 2 and 9. -/
def bufferedEstimator : Estimator :=
  { tinyEstimator with
    insertBuffers := [(3, [1]), (7, [2])]
    removalBuffers := [(5, [1])]
    truncateBuffer := [2, 9] }

/-- The estimator of `2 ^ 32` buckets after `bufferTruncate(3)` and
`bufferUpdates(5, [1], [])`. -/
def hugeBuffered : Estimator :=
  bufferUpdates sampleEnv (bufferTruncate sampleEnv hugeEstimator 3) 5 [1] []


/-- The 257-bucket estimator with the header values `niceSize = 0` and
`logSize = 0`. -/
def sampleBadDims : Estimator := { sample257 with niceSize := 0, logSize := 0 }


/-- The local `memoryUsage` that `checkInvariants()` and `drainNoLock()` compute:
`bufferedEntrySize() + bufferedEntryItemSize() * keys.size()` for every buffered
insert batch and removal batch, `bufferedEntrySize() * _truncateBuffer.size()`
for the truncate markers. -/
def bufferedMemory (env : Env) (e : Estimator) : Nat :=
  let memoryUsage := e.insertBuffers.foldl (fun m it => u64 (m + batchMemory env it.2)) 0
  let memoryUsage := e.removalBuffers.foldl (fun m it => u64 (m + batchMemory env it.2)) memoryUsage
  u64 (memoryUsage + u64 (env.bufferedEntrySize * e.truncateBuffer.length))

/-- The condition that `checkInvariants()` asserts (when the check is compiled
in): `_memoryUsage == memoryUsage + _allocSize`. -/
def checkInvariants (env : Env) (e : Estimator) : Bool :=
  decide (e.memoryUsage = u64 (bufferedMemory env e + e.allocSize))

/-- The function `drainNoLock()`. -/
def drainNoLock (env : Env) (e : Estimator) : Estimator :=
  decreaseMemoryUsage
    { e with insertBuffers := [], removalBuffers := [], truncateBuffer := [] }
    (bufferedMemory env e)


/-- The statistics agree with the table: the table has `size * kSlotsPerBucket`
slots and counters and every hash is sent to one of the `size` buckets, every
occupied slot has a counter of at least 1, `nrUsed` is the number of occupied
slots, and the counters add up to at most `nrTotal`. -/
def StatsOk (f : Filter) : Prop :=
  InTable f ∧ (∀ s, f.fingerprintAt s ≠ 0 → 1 ≤ f.counterAt s) ∧
    f.nrUsed = f.slots.countP (fun x => decide (x ≠ 0)) ∧ f.counters.sum ≤ f.nrTotal

/-- The estimator constructed for a requested size of 0 with the counters set
to `nrUsed = 3` and `nrTotal = 4`. -/
def sampleCounters : Estimator := { minimalEstimator with nrUsed := 3, nrTotal := 4 }


/-- A state with `2 ^ 61` buckets whose table holds no slot at all: the byte
counts `_size * kSlotSize * kSlotsPerBucket` and
`_size * kCounterSize * kSlotsPerBucket` wrap to 0 in 64 bits. -/
def wrappedEstimator : Estimator :=
  { emptyEstimator with
    logSize := 61
    size := 2 ^ 61
    niceSize := 2 ^ 61
    sizeMask := 2 ^ 61 - 1
    sizeShift := 1
    slots := []
    counters := []
    allocSize := 64
    memoryUsage := 64 }

/-- A blob of 66 bytes: header fields of `wrappedEstimator` (size `2 ^ 61`),
declared length 0, and one more byte. -/
def wrappedBlob : List Byte := uncompressedLayout sampleEnv wrappedEstimator 0 0 ++ [0]

/-! ## Properties -/

/-! ## The persistent integer encoding -/

theorem toBytesLE_length (w v : Nat) : (toBytesLE w v).length = w := by
  induction w generalizing v with
  | zero => rfl
  | succ w ih => simp [toBytesLE, ih]

theorem fromBytesLE_toBytesLE (w v : Nat) : fromBytesLE (toBytesLE w v) = v % 256 ^ w := by
  induction w generalizing v with
  | zero => simp [toBytesLE, fromBytesLE, Nat.mod_one]
  | succ w ih =>
    simp only [toBytesLE, fromBytesLE, ih]
    have h1 : (Fin.ofNat (v % 256) : Fin 256).val = v % 256 := by
      simp [Fin.ofNat]
    rw [h1, pow_succ, Nat.mul_comm (256 ^ w) 256, Nat.mod_mul]

theorem uintToPersistent_length (bo : ByteOrder) (w v : Nat) :
    (uintToPersistent bo w v).length = w := by
  cases bo <;> simp [uintToPersistent, toBytesLE_length]

theorem uintFromPersistent_uintToPersistent (bo : ByteOrder) (w v : Nat) :
    uintFromPersistent bo (uintToPersistent bo w v) = v % 256 ^ w := by
  cases bo <;> simp [uintFromPersistent, uintToPersistent, fromBytesLE_toBytesLE]

theorem readAt_append_left (bo : ByteOrder) (w : Nat) (pre bs : List Byte) :
    readAt bo w (pre ++ bs) pre.length = readAt bo w bs 0 := by
  simp [readAt]

theorem readAt_uintToPersistent (bo : ByteOrder) (w v : Nat) (rest : List Byte) :
    readAt bo w (uintToPersistent bo w v ++ rest) 0 = v % 256 ^ w := by
  have h : (uintToPersistent bo w v ++ rest).take w = uintToPersistent bo w v := by
    rw [List.take_append_eq_append_take, uintToPersistent_length]
    simp [List.take_of_length_le, uintToPersistent_length]
  simp [readAt, h, uintFromPersistent_uintToPersistent]

/-! ## Scanning the buffers -/

theorem sub64_zero (a : Nat) : sub64 a 0 = a := by
  simp [sub64]

theorem scanTruncate_none_due (env : Env) (c : Nat) (l : List Nat) (ig ap : Nat) (found : Bool)
    (mem : Nat) (h : ∀ t ∈ l, c < t) :
    scanTruncate env c l ig ap found mem =
      { rest := l, ignoreSeq := ig, appliedSeq := ap, foundTruncate := found,
        memoryUsage := mem } := by
  cases l with
  | nil => rfl
  | cons t rest =>
    have ht : ¬ t ≤ c := Nat.not_le.mpr (h t (List.mem_cons_self _ _))
    simp [scanTruncate, ht]

theorem scanBatch_none_due (env : Env) (c ig : Nat) (l : List (Nat × List Key)) (ap mem : Nat)
    (h : ∀ b ∈ l, c < b.1) :
    scanBatch env c ig l ap mem =
      { rest := l, batch := [], appliedSeq := ap, memoryUsage := mem } := by
  cases l with
  | nil => rfl
  | cons b rest =>
    obtain ⟨s, ks⟩ := b
    have hs : ¬ s ≤ c := Nat.not_le.mpr (h (s, ks) (List.mem_cons_self _ _))
    simp [scanBatch, hs]

theorem applyUpdatesLoop_none_due (env : Env) (e : Estimator) (c cf n ap ig : Nat)
    (hi : ∀ b ∈ e.insertBuffers, c < b.1)
    (hr : ∀ b ∈ e.removalBuffers, c < b.1)
    (ht : ∀ t ∈ e.truncateBuffer, c < t) :
    applyUpdatesLoop env c cf (n + 1) e ap ig = some (ap, e) := by
  simp [applyUpdatesLoop, scanTruncate_none_due env c _ _ _ _ _ ht,
    scanBatch_none_due env c _ _ _ _ hi, scanBatch_none_due env c _ _ _ _ hr,
    decreaseMemoryUsage, sub64_zero]

theorem applyUpdates_unbuffered (env : Env) (e : Estimator) (c n : Nat)
    (hi : e.insertBuffers = []) (hr : e.removalBuffers = []) (ht : e.truncateBuffer = []) :
    applyUpdates env (n + 1) e c = some (0, e) :=
  applyUpdatesLoop_none_due env e c (n + 1) n 0 0 (by simp [hi]) (by simp [hr]) (by simp [ht])

/-- C5. Sequencing, negative half: when every buffered insert batch, removal
batch and truncate marker has a sequence number above `c`, `applyUpdates(c)`
returns 0 (with any fuel but none) and leaves the whole estimator as it was:
slots, counters, `nrUsed`, `nrTotal`, `nrCuckood`, the three buffers and
`memoryUsage`. -/
theorem applyUpdates_nothing_due (env : Env) (e : Estimator) (c fuel : Nat)
    (hfuel : 0 < fuel)
    (hi : ∀ b ∈ e.insertBuffers, c < b.1)
    (hr : ∀ b ∈ e.removalBuffers, c < b.1)
    (ht : ∀ t ∈ e.truncateBuffer, c < t) :
    applyUpdates env fuel e c = some (0, e) := by
  obtain ⟨n, rfl⟩ : ∃ n, fuel = n + 1 := ⟨fuel - 1, by omega⟩
  exact applyUpdatesLoop_none_due env e c (n + 1) n 0 0 hi hr ht

/-- C5, at a concrete input: batches buffered at 7 and 9 and a marker at 8 stay
untouched by `applyUpdates(6)`. -/
theorem applyUpdates_nothing_due_witness :
    applyUpdates sampleEnv 1
        { tinyEstimator with
          insertBuffers := [(7, [1, 2])], removalBuffers := [(9, [3])], truncateBuffer := [8] } 6 =
      some (0,
        { tinyEstimator with
          insertBuffers := [(7, [1, 2])], removalBuffers := [(9, [3])], truncateBuffer := [8] }) :=
  applyUpdates_nothing_due sampleEnv _ 6 1 (by decide) (by decide) (by decide) (by decide)

/-! ## One buffered update -/

theorem insertBatch_nil (env : Env) (e : Estimator) : insertBatch env e [] = e := rfl

theorem removeBatch_nil (env : Env) (e : Estimator) : removeBatch env e [] = e := rfl

theorem insertBatch_buffers (env : Env) (e : Estimator) (keys : List Key) :
    (insertBatch env e keys).insertBuffers = e.insertBuffers ∧
    (insertBatch env e keys).removalBuffers = e.removalBuffers ∧
    (insertBatch env e keys).truncateBuffer = e.truncateBuffer := by
  unfold insertBatch
  split <;> simp

theorem removeBatch_buffers (env : Env) (e : Estimator) (keys : List Key) :
    (removeBatch env e keys).insertBuffers = e.insertBuffers ∧
    (removeBatch env e keys).removalBuffers = e.removalBuffers ∧
    (removeBatch env e keys).truncateBuffer = e.truncateBuffer := by
  unfold removeBatch
  split <;> simp

theorem insertBatch_toFilter (env : Env) (e : Estimator) (keys : List Key) :
    (insertBatch env e keys).toFilter = keys.foldl (insertBatchStep env) e.toFilter := by
  unfold insertBatch
  cases keys <;> simp

theorem removeBatch_toFilter (env : Env) (e : Estimator) (keys : List Key) :
    (removeBatch env e keys).toFilter = keys.foldl (removeBatchStep env) e.toFilter := by
  unfold removeBatch
  cases keys <;> simp

theorem replayStep_toFilter (env : Env) (e1 e2 : Estimator) (i r : List Key)
    (h : e1.toFilter = e2.toFilter) :
    (removeBatch env (insertBatch env e1 i) r).toFilter =
      (removeBatch env (insertBatch env e2 i) r).toFilter := by
  simp [removeBatch_toFilter, insertBatch_toFilter, h]

theorem applyUpdatesLoop_idle (env : Env) (c cf n : Nat) (e : Estimator) (ap ig : Nat)
    (hi : e.insertBuffers = []) (hr : e.removalBuffers = []) (ht : e.truncateBuffer = []) :
    applyUpdatesLoop env c cf (n + 1) e ap ig = some (ap, e) := by
  simp [applyUpdatesLoop, hi, hr, ht, scanTruncate, scanBatch, decreaseMemoryUsage, sub64_zero]
  cases e
  simp_all

theorem replayStep_insertBuffers (env : Env) (e : Estimator) (i r : List Key) :
    (removeBatch env (insertBatch env e i) r).insertBuffers = e.insertBuffers := by
  rw [(removeBatch_buffers env _ _).1, (insertBatch_buffers env _ _).1]

theorem replayStep_removalBuffers (env : Env) (e : Estimator) (i r : List Key) :
    (removeBatch env (insertBatch env e i) r).removalBuffers = e.removalBuffers := by
  rw [(removeBatch_buffers env _ _).2.1, (insertBatch_buffers env _ _).2.1]

theorem replayStep_truncateBuffer (env : Env) (e : Estimator) (i r : List Key) :
    (removeBatch env (insertBatch env e i) r).truncateBuffer = e.truncateBuffer := by
  rw [(removeBatch_buffers env _ _).2.2, (insertBatch_buffers env _ _).2.2]

theorem bufferUpdates_applyUpdates_state (env : Env) (e : Estimator) (S : Nat)
    (ins rem : List Key) (n : Nat)
    (hi : e.insertBuffers = []) (hr : e.removalBuffers = []) (ht : e.truncateBuffer = [])
    (hS : 1 ≤ S) (hne : ins ≠ [] ∨ rem ≠ []) :
    ∃ m, applyUpdates env (n + 2) (bufferUpdates env e S ins rem) S =
      some (S, removeBatch env
        (insertBatch env { e with needToPersist := true, memoryUsage := m } ins) rem) := by
  have hS0 : ¬ S ≤ 0 := by omega
  cases ins with
  | nil =>
    cases rem with
    | nil => simp at hne
    | cons r rs =>
      apply Exists.intro
      simp only [applyUpdates, bufferUpdates, List.isEmpty_nil, List.isEmpty_cons, if_true,
        if_false, hr, emplaceBatch, increaseMemoryUsage]
      rw [applyUpdatesLoop]
      simp only [ht, hi, scanTruncate, scanBatch, le_refl, if_true, hS0, if_false,
        List.isEmpty_nil, List.isEmpty_cons, Bool.and_false, Bool.false_eq_true,
        decreaseMemoryUsage, Nat.max_eq_right (Nat.zero_le S)]
      rw [applyUpdatesLoop_idle env _ _ _ _ _ _ (by simp [replayStep_insertBuffers])
        (by simp [replayStep_removalBuffers]) (by simp [replayStep_truncateBuffer])]
  | cons i is =>
    cases rem with
    | nil =>
      apply Exists.intro
      simp only [applyUpdates, bufferUpdates, List.isEmpty_nil, List.isEmpty_cons, if_true,
        if_false, hi, emplaceBatch, increaseMemoryUsage]
      rw [applyUpdatesLoop]
      simp only [ht, hr, scanTruncate, scanBatch, le_refl, if_true, hS0, if_false,
        List.isEmpty_nil, List.isEmpty_cons, Bool.false_and, Bool.false_eq_true,
        decreaseMemoryUsage, Nat.max_eq_right (Nat.zero_le S)]
      rw [applyUpdatesLoop_idle env _ _ _ _ _ _ (by simp [replayStep_insertBuffers])
        (by simp [replayStep_removalBuffers]) (by simp [replayStep_truncateBuffer])]
    | cons r rs =>
      apply Exists.intro
      simp only [applyUpdates, bufferUpdates, List.isEmpty_nil, List.isEmpty_cons, if_true,
        if_false, hi, hr, emplaceBatch, increaseMemoryUsage]
      rw [applyUpdatesLoop]
      simp only [ht, scanTruncate, scanBatch, le_refl, if_true, hS0, if_false,
        List.isEmpty_nil, List.isEmpty_cons, Bool.false_and, Bool.false_eq_true,
        decreaseMemoryUsage, Nat.max_eq_right (Nat.zero_le S), Nat.max_self]
      rw [applyUpdatesLoop_idle env _ _ _ _ _ _ (by simp [replayStep_insertBuffers])
        (by simp [replayStep_removalBuffers]) (by simp [replayStep_truncateBuffer])]

/-- C4 (amended). Sequencing, positive half: for an estimator whose three
update buffers are empty, a sequence number `S >= 1` and key lists that are not
both empty, `bufferUpdates(S, ins, rem)` followed by `applyUpdates(S)` (two
units of fuel suffice) returns `S`, leaves all three buffers empty and leaves
the filter in the state reached by `insert(ins)` followed by `remove(rem)` on
the state before. -/
theorem bufferUpdates_then_applyUpdates (env : Env) (e : Estimator) (S : Nat)
    (ins rem : List Key) (fuel : Nat) (hfuel : 2 ≤ fuel)
    (hi : e.insertBuffers = []) (hr : e.removalBuffers = []) (ht : e.truncateBuffer = [])
    (hS : 1 ≤ S) (hne : ins ≠ [] ∨ rem ≠ []) :
    ∃ e', applyUpdates env fuel (bufferUpdates env e S ins rem) S = some (S, e') ∧
      e'.insertBuffers = [] ∧ e'.removalBuffers = [] ∧ e'.truncateBuffer = [] ∧
      e'.toFilter = (removeBatch env (insertBatch env e ins) rem).toFilter := by
  obtain ⟨n, rfl⟩ : ∃ n, fuel = n + 2 := ⟨fuel - 2, by omega⟩
  obtain ⟨m, hm⟩ := bufferUpdates_applyUpdates_state env e S ins rem n hi hr ht hS hne
  refine ⟨_, hm, ?_, ?_, ?_, ?_⟩
  · rw [replayStep_insertBuffers]; exact hi
  · rw [replayStep_removalBuffers]; exact hr
  · rw [replayStep_truncateBuffer]; exact ht
  · exact replayStep_toFilter env _ _ ins rem rfl

/-- C4 (amended), at a concrete input: keys 1 and 2 inserted and key 1 removed
under sequence number 5. -/
theorem bufferUpdates_then_applyUpdates_witness :
    ∃ e', applyUpdates sampleEnv 2 (bufferUpdates sampleEnv tinyEstimator 5 [1, 2] [1]) 5 =
        some (5, e') ∧
      e'.insertBuffers = [] ∧ e'.removalBuffers = [] ∧ e'.truncateBuffer = [] ∧
      e'.toFilter =
        (removeBatch sampleEnv (insertBatch sampleEnv tinyEstimator [1, 2]) [1]).toFilter :=
  bufferUpdates_then_applyUpdates sampleEnv tinyEstimator 5 [1, 2] [1] 2 (by decide) rfl rfl rfl
    (by decide) (by decide)

/-- C4 as stated fails for `S = 0`: the batch buffered under sequence number 0
is erased by `applyUpdates(0)` without being applied (`ignoreSeq` starts at 0),
so the filter stays as it was and differs from the state after `insert([5])`. -/
theorem bufferUpdates_seq_zero_unapplied :
    (applyUpdates sampleEnv 2 (bufferUpdates sampleEnv tinyEstimator 0 [5] []) 0).map
        (fun r => (r.1, r.2.toFilter, r.2.insertBuffers)) =
      some (0, tinyEstimator.toFilter, []) ∧
    tinyEstimator.toFilter ≠
      (removeBatch sampleEnv (insertBatch sampleEnv tinyEstimator [5]) []).toFilter := by
  decide

/-! ## The reset loops -/

theorem resetBucket_eq (f : Filter) (b : Nat) :
    resetBucket f b =
      { f with
        slots := (((f.slots.set (b * 4) 0).set (b * 4 + 1) 0).set (b * 4 + 2) 0).set (b * 4 + 3) 0
        counters :=
          (((f.counters.set (b * 4) 0).set (b * 4 + 1) 0).set (b * 4 + 2) 0).set (b * 4 + 3) 0 } := by
  have h4 : List.range kSlotsPerBucket = [0, 1, 2, 3] := by decide
  rw [resetBucket, h4]
  simp [slotReset, Filter.place, findSlot, kSlotsPerBucket]

theorem getD_zeroed (l : List Nat) (b i : Nat) :
    ((((l.set (b * 4) 0).set (b * 4 + 1) 0).set (b * 4 + 2) 0).set (b * 4 + 3) 0).getD i 0 =
      if b * 4 ≤ i ∧ i < b * 4 + 4 then 0 else l.getD i 0 := by
  simp only [List.getD_eq_getElem?_getD, List.getElem?_set, List.length_set]
  split_ifs <;> first | rfl | omega

theorem resetLoop_diverges (size : Nat) (hsize : 2 ^ 32 ≤ size) (fuel b : Nat) (f : Filter)
    (hb : b < 2 ^ 32) : resetLoop size fuel b f = none := by
  induction fuel generalizing b f with
  | zero => rfl
  | succ n ih =>
    have hlt : b < size := by omega
    simp only [resetLoop, hlt, if_true]
    exact ih _ _ (Nat.mod_lt _ (by norm_num))

theorem resetLoop_spec (size : Nat) (hsize : size < 2 ^ 32) (fuel b : Nat) (f : Filter)
    (hb : b ≤ size) (hfuel : size - b < fuel) :
    ∃ sl ct, resetLoop size fuel b f = some { f with slots := sl, counters := ct } ∧
      sl.length = f.slots.length ∧ ct.length = f.counters.length ∧
      (∀ i, sl.getD i 0 = if b * 4 ≤ i ∧ i < size * 4 then 0 else f.slots.getD i 0) ∧
      (∀ i, ct.getD i 0 = if b * 4 ≤ i ∧ i < size * 4 then 0 else f.counters.getD i 0) := by
  induction fuel generalizing b f with
  | zero => omega
  | succ n ih =>
    by_cases hlt : b < size
    · have hmod : (b + 1) % 2 ^ 32 = b + 1 := Nat.mod_eq_of_lt (by omega)
      simp only [resetLoop, hlt, if_true, hmod]
      obtain ⟨sl, ct, hres, hl1, hl2, hs, hc⟩ :=
        ih (b + 1) (resetBucket f b) (by omega) (by omega)
      refine ⟨sl, ct, ?_, ?_, ?_, ?_, ?_⟩
      · rw [hres, resetBucket_eq]
      · rw [hl1, resetBucket_eq]; simp
      · rw [hl2, resetBucket_eq]; simp
      · intro i
        rw [hs i, resetBucket_eq]
        simp only [getD_zeroed]
        split_ifs <;> first | rfl | omega
      · intro i
        rw [hc i, resetBucket_eq]
        simp only [getD_zeroed]
        split_ifs <;> first | rfl | omega
    · have hbe : b = size := by omega
      refine ⟨f.slots, f.counters, ?_, rfl, rfl, ?_, ?_⟩
      · simp [resetLoop, hlt]
      · intro i
        split_ifs <;> first | rfl | omega
      · intro i
        split_ifs <;> first | rfl | omega

theorem eq_replicate_of_getD (l : List Nat) (n : Nat) (hlen : l.length = n)
    (h : ∀ i, i < n → l.getD i 0 = 0) : l = List.replicate n 0 := by
  apply List.ext_getElem
  · simp [hlen]
  · intro i h1 h2
    have := h i (by omega)
    simp only [List.getD_eq_getElem?_getD, List.getElem?_eq_getElem h1, Option.getD_some] at this
    simp [this]

theorem resetLoop_full (f : Filter) (fuel : Nat) (hsize : f.size < 2 ^ 32)
    (hfuel : f.size < fuel)
    (hs : f.slots.length = f.size * kSlotsPerBucket)
    (hc : f.counters.length = f.size * kSlotsPerBucket) :
    resetLoop f.size fuel 0 f =
      some { f with
        slots := List.replicate (f.size * kSlotsPerBucket) 0
        counters := List.replicate (f.size * kSlotsPerBucket) 0 } := by
  obtain ⟨sl, ct, hres, hl1, hl2, h1, h2⟩ :=
    resetLoop_spec f.size hsize fuel 0 f (Nat.zero_le _) (by omega)
  have e1 : sl = List.replicate (f.size * kSlotsPerBucket) 0 :=
    eq_replicate_of_getD sl _ (by rw [hl1, hs]) (fun i hi => by
      rw [h1 i]; simp only [kSlotsPerBucket] at hi; simp [hi])
  have e2 : ct = List.replicate (f.size * kSlotsPerBucket) 0 :=
    eq_replicate_of_getD ct _ (by rw [hl2, hc]) (fun i hi => by
      rw [h2 i]; simp only [kSlotsPerBucket] at hi; simp [hi])
  rw [hres, e1, e2]

theorem clear_spec (e : Estimator) (fuel : Nat) (hsize : e.size < 2 ^ 32) (hfuel : e.size < fuel)
    (hs : e.slots.length = e.size * kSlotsPerBucket)
    (hc : e.counters.length = e.size * kSlotsPerBucket) :
    clear fuel e =
      some { e with
        nrTotal := 0, nrCuckood := 0, nrUsed := 0
        slots := List.replicate (e.size * kSlotsPerBucket) 0
        counters := List.replicate (e.size * kSlotsPerBucket) 0
        needToPersist := true } := by
  have h := resetLoop_full { e.toFilter with nrTotal := 0, nrCuckood := 0, nrUsed := 0 } fuel
    hsize hfuel hs hc
  simp only [clear]
  simp only at h
  rw [h]

theorem clear_diverges (e : Estimator) (fuel : Nat) (hsize : 2 ^ 32 ≤ e.size) :
    clear fuel e = none := by
  simp only [clear]
  rw [resetLoop_diverges e.size hsize fuel 0 _ (by norm_num)]

/-! ## Truncate markers -/

theorem dropWhile_le_eq_filter {α : Type} (key : α → Nat) (c : Nat) (l : List α)
    (h : (l.map key).Pairwise (· ≤ ·)) :
    l.dropWhile (fun x => decide (key x ≤ c)) = l.filter (fun x => decide (c < key x)) := by
  induction l with
  | nil => rfl
  | cons x xs ih =>
    simp only [List.map_cons, List.pairwise_cons] at h
    by_cases hx : key x ≤ c
    · have hx' : ¬ c < key x := by omega
      simp [List.dropWhile_cons, List.filter_cons, hx, hx', ih h.2]
    · have hx' : c < key x := by omega
      have hall : ∀ y ∈ xs, decide (c < key y) = true := by
        intro y hy
        have := h.1 (key y) (List.mem_map_of_mem key hy)
        simp only [decide_eq_true_eq]
        omega
      simp [List.dropWhile_cons, List.filter_cons, hx, hx', List.filter_eq_self.mpr hall]

theorem scanTruncate_rest (env : Env) (c : Nat) (l : List Nat) (ig ap : Nat) (found : Bool)
    (mem : Nat) :
    (scanTruncate env c l ig ap found mem).rest = l.dropWhile (fun t => decide (t ≤ c)) := by
  induction l generalizing ig ap found mem with
  | nil => rfl
  | cons t rest ih =>
    by_cases ht : t ≤ c
    · simp [scanTruncate, ht, ih, List.dropWhile_cons]
    · simp [scanTruncate, ht, List.dropWhile_cons]

theorem scanTruncate_marker (env : Env) (T : Nat) (l : List Nat) (ig ap : Nat) (found : Bool)
    (mem : Nat) (hs : l.Pairwise (· ≤ ·)) (hap : ap ≤ T)
    (h : (ig = T ∧ ap = T ∧ found = true ∧ ∀ x ∈ l, T ≤ x) ∨ T ∈ l) :
    (scanTruncate env T l ig ap found mem).ignoreSeq = T ∧
    (scanTruncate env T l ig ap found mem).appliedSeq = T ∧
    (scanTruncate env T l ig ap found mem).foundTruncate = true := by
  induction l generalizing ig ap found mem with
  | nil =>
    rcases h with ⟨h1, h2, h3, _⟩ | h
    · simp [scanTruncate, h1, h2, h3]
    · simp at h
  | cons t rest ih =>
    rw [List.pairwise_cons] at hs
    by_cases ht : t ≤ T
    · simp only [scanTruncate, ht, if_true]
      apply ih _ _ _ _ hs.2
      · exact Nat.max_le.mpr ⟨hap, ht⟩
      · rcases h with ⟨_, _, _, h4⟩ | h
        · have h5 := h4 t (List.mem_cons_self _ _)
          have h6 : t = T := by omega
          left
          refine ⟨h6, ?_, rfl, fun x hx => h4 x (List.mem_cons_of_mem _ hx)⟩
          rw [h6]; exact Nat.max_eq_right hap
        · rcases List.mem_cons.mp h with h | h
          · left
            refine ⟨h.symm, ?_, rfl, fun x hx => ?_⟩
            · rw [← h]; exact Nat.max_eq_right hap
            · rw [h]; exact hs.1 x hx
          · right; exact h
    · rcases h with ⟨h1, h2, h3, _⟩ | h
      · simp [scanTruncate, ht, h1, h2, h3]
      · rcases List.mem_cons.mp h with h | h
        · omega
        · have := hs.1 T h
          omega

theorem mem_emplaceMarker (l : List Nat) (T : Nat) : T ∈ emplaceMarker l T := by
  induction l with
  | nil => simp [emplaceMarker]
  | cons s rest ih =>
    simp only [emplaceMarker]
    split_ifs with h1 h2
    · exact List.mem_cons_of_mem _ ih
    · rw [h2]; exact List.mem_cons_self _ _
    · exact List.mem_cons_self _ _

theorem emplaceMarker_subset (l : List Nat) (T x : Nat) (hx : x ∈ emplaceMarker l T) :
    x = T ∨ x ∈ l := by
  induction l with
  | nil => simp [emplaceMarker] at hx; exact Or.inl hx
  | cons s rest ih =>
    simp only [emplaceMarker] at hx
    split_ifs at hx with h1 h2
    · rcases List.mem_cons.mp hx with h | h
      · right; rw [h]; exact List.mem_cons_self _ _
      · rcases ih h with h | h
        · exact Or.inl h
        · exact Or.inr (List.mem_cons_of_mem _ h)
    · exact Or.inr hx
    · rcases List.mem_cons.mp hx with h | h
      · exact Or.inl h
      · exact Or.inr h

theorem emplaceMarker_sorted (l : List Nat) (T : Nat) (h : l.Pairwise (· ≤ ·)) :
    (emplaceMarker l T).Pairwise (· ≤ ·) := by
  induction l with
  | nil => simp [emplaceMarker]
  | cons s rest ih =>
    rw [List.pairwise_cons] at h
    simp only [emplaceMarker]
    split_ifs with h1 h2
    · rw [List.pairwise_cons]
      refine ⟨fun x hx => ?_, ih h.2⟩
      rcases emplaceMarker_subset rest T x hx with hx | hx
      · omega
      · exact h.1 x hx
    · exact List.pairwise_cons.mpr h
    · rw [List.pairwise_cons]
      refine ⟨fun x hx => ?_, List.pairwise_cons.mpr h⟩
      rcases List.mem_cons.mp hx with hx | hx
      · omega
      · have := h.1 x hx
        omega

theorem emplaceMarker_filter (l : List Nat) (T : Nat) :
    (emplaceMarker l T).filter (fun t => decide (T < t)) = l.filter (fun t => decide (T < t)) := by
  induction l with
  | nil => simp [emplaceMarker]
  | cons s rest ih =>
    simp only [emplaceMarker]
    split_ifs with h1 h2
    · simp [List.filter_cons, ih]
    · rfl
    · simp [List.filter_cons]

theorem scanBatch_all_ignored (env : Env) (c : Nat) (l : List (Nat × List Key)) (ap mem : Nat) :
    ∃ m, scanBatch env c c l ap mem =
      { rest := l.dropWhile (fun b => decide (b.1 ≤ c)), batch := [], appliedSeq := ap,
        memoryUsage := m } := by
  induction l generalizing mem with
  | nil => exact ⟨mem, rfl⟩
  | cons b rest ih =>
    obtain ⟨s, ks⟩ := b
    by_cases hs : s ≤ c
    · obtain ⟨m, hm⟩ := ih (u64 (mem + batchMemory env ks))
      exact ⟨m, by simp [scanBatch, hs, hm, List.dropWhile_cons]⟩
    · exact ⟨mem, by simp [scanBatch, hs, List.dropWhile_cons]⟩

/-- Truncation precedence on tables the reset loop can cover: for an estimator
with fewer than `2 ^ 32` buckets, a table of `size * kSlotsPerBucket` slots and
ordered buffers, `bufferTruncate(T)` followed by `applyUpdates(T)` returns `T`
and leaves exactly the cleared filter (no batch was applied) and the buffer
entries with a sequence number above `T`. -/
theorem bufferTruncate_applyUpdates (env : Env) (e : Estimator) (T fuel : Nat)
    (hsize : e.size < 2 ^ 32) (hfuel : e.size < fuel)
    (hs : e.slots.length = e.size * kSlotsPerBucket)
    (hc : e.counters.length = e.size * kSlotsPerBucket)
    (hb : BuffersOk e) :
    ∃ m, applyUpdates env fuel (bufferTruncate env e T) T =
      some (T,
        { e with
          nrTotal := 0, nrCuckood := 0, nrUsed := 0
          slots := List.replicate (e.size * kSlotsPerBucket) 0
          counters := List.replicate (e.size * kSlotsPerBucket) 0
          needToPersist := true
          memoryUsage := m
          insertBuffers := e.insertBuffers.filter (fun b => decide (T < b.1))
          removalBuffers := e.removalBuffers.filter (fun b => decide (T < b.1))
          truncateBuffer := e.truncateBuffer.filter (fun t => decide (T < t)) }) := by
  obtain ⟨n, rfl⟩ : ∃ n, fuel = n + 1 := ⟨fuel - 1, by omega⟩
  obtain ⟨hbi, hbr, hbt, _, _⟩ := hb
  have hsorted := emplaceMarker_sorted e.truncateBuffer T hbt
  have hmark := scanTruncate_marker env T (emplaceMarker e.truncateBuffer T) 0 0 false 0 hsorted
    (Nat.zero_le _) (Or.inr (mem_emplaceMarker _ _))
  have hrest := scanTruncate_rest env T (emplaceMarker e.truncateBuffer T) 0 0 false 0
  rw [dropWhile_le_eq_filter (fun t => t) T _ (by simpa using hsorted), emplaceMarker_filter]
    at hrest
  obtain ⟨h1, h2, h3⟩ := hmark
  obtain ⟨mi, hmi⟩ := scanBatch_all_ignored env T e.insertBuffers T
    (scanTruncate env T (emplaceMarker e.truncateBuffer T) 0 0 false 0).memoryUsage
  obtain ⟨mr, hmr⟩ := scanBatch_all_ignored env T e.removalBuffers T mi
  rw [dropWhile_le_eq_filter Prod.fst T _ hbi] at hmi
  rw [dropWhile_le_eq_filter Prod.fst T _ hbr] at hmr
  refine ⟨sub64 (u64 (e.memoryUsage + env.bufferedEntrySize)) mr, ?_⟩
  simp only [applyUpdates, applyUpdatesLoop, bufferTruncate, increaseMemoryUsage, h1, h2, h3,
    hmi, hmr, hrest, if_true, decreaseMemoryUsage, List.isEmpty_nil, Bool.and_self]
  have hcl := clear_spec
    { e with
      needToPersist := true
      memoryUsage := sub64 (u64 (e.memoryUsage + env.bufferedEntrySize)) mr
      insertBuffers := e.insertBuffers.filter (fun b => decide (T < b.1))
      removalBuffers := e.removalBuffers.filter (fun b => decide (T < b.1))
      truncateBuffer := e.truncateBuffer.filter (fun t => decide (T < t)) }
    (n + 1) hsize hfuel hs hc
  rw [hcl]

/-- C3, at the failing input: on an estimator whose table has `2 ^ 32` buckets,
`bufferTruncate(1)` followed by `applyUpdates(1)` does not return, whatever the
fuel: `clear()` counts the buckets in a `uint32_t` that never reaches `_size`. -/
theorem bufferTruncate_applyUpdates_huge (fuel : Nat) :
    applyUpdates sampleEnv fuel (bufferTruncate sampleEnv hugeEstimator 1) 1 = none := by
  cases fuel with
  | zero => rfl
  | succ n =>
    have hmark := scanTruncate_marker sampleEnv 1 (emplaceMarker hugeEstimator.truncateBuffer 1)
      0 0 false 0 (emplaceMarker_sorted _ 1 (by simp [hugeEstimator, emptyEstimator]))
      (Nat.zero_le _) (Or.inr (mem_emplaceMarker _ _))
    simp only [applyUpdates, applyUpdatesLoop, bufferTruncate, increaseMemoryUsage, hmark.2.2,
      if_true]
    rw [clear_diverges _ _ (by simp [decreaseMemoryUsage, hugeEstimator])]

/-! ## Replay without truncate markers -/

theorem dueBatches_nil_of_above (c : Nat) (l : List (Nat × List Key))
    (h : ∀ b ∈ l, c < b.1) : dueBatches c l = [] := by
  simp only [dueBatches, List.map_eq_nil_iff, List.filter_eq_nil_iff]
  intro b hb
  have := h b hb
  simp only [Bool.and_eq_true, decide_eq_true_eq, not_and, not_le]
  intro _
  exact this

theorem scanBatch_due (env : Env) (c : Nat) (l : List (Nat × List Key)) (ap mem : Nat)
    (hs : (l.map Prod.fst).Pairwise (· ≤ ·)) :
    (scanBatch env c 0 l ap mem).batch = (dueBatches c l).headD [] ∧
    dueBatches c (scanBatch env c 0 l ap mem).rest = (dueBatches c l).tail ∧
    ((scanBatch env c 0 l ap mem).rest.map Prod.fst).Pairwise (· ≤ ·) ∧
    (∀ b ∈ (scanBatch env c 0 l ap mem).rest, b ∈ l) := by
  induction l generalizing mem with
  | nil => simp [scanBatch, dueBatches]
  | cons b rest ih =>
    obtain ⟨s, ks⟩ := b
    have hs' := hs
    simp only [List.map_cons, List.pairwise_cons] at hs'
    by_cases hc : s ≤ c
    · by_cases h0 : s ≤ 0
      · have hpos : ¬ 0 < s := by omega
        obtain ⟨h1, h2, h3, h4⟩ := ih (u64 (mem + batchMemory env ks)) hs'.2
        have hd : dueBatches c ((s, ks) :: rest) = dueBatches c rest := by
          simp [dueBatches, List.filter_cons, hpos]
        simp only [scanBatch, hc, h0, if_true, hd]
        exact ⟨h1, h2, h3, fun b hb => List.mem_cons_of_mem _ (h4 b hb)⟩
      · have hpos : 0 < s := by omega
        have hd : dueBatches c ((s, ks) :: rest) = ks :: dueBatches c rest := by
          simp [dueBatches, List.filter_cons, hpos, hc]
        simp only [scanBatch, hc, h0, if_true, if_false, hd]
        exact ⟨rfl, rfl, hs'.2, fun b hb => List.mem_cons_of_mem _ hb⟩
    · have hall : ∀ b ∈ (s, ks) :: rest, c < b.1 := by
        intro b hb
        rcases List.mem_cons.mp hb with hb | hb
        · rw [hb]; simp only; omega
        · have := hs'.1 b.1 (List.mem_map_of_mem Prod.fst hb)
          omega
      have hd := dueBatches_nil_of_above c _ hall
      simp only [scanBatch, hc, if_false, hd]
      exact ⟨rfl, rfl, hs, fun b hb => hb⟩

theorem dueBatches_ne_nil (c : Nat) (l : List (Nat × List Key)) (h : ∀ b ∈ l, b.2 ≠ [])
    (ks : List Key) (hks : ks ∈ dueBatches c l) : ks ≠ [] := by
  simp only [dueBatches, List.mem_map, List.mem_filter] at hks
  obtain ⟨b, ⟨hb, _⟩, rfl⟩ := hks
  exact h b hb

theorem pairRounds_nil_right (is : List (List Key)) :
    pairRounds is [] = is.map (fun j => (j, [])) := by
  cases is <;> simp [pairRounds]

theorem pairRounds_step (is rs : List (List Key)) (h : ¬ (is = [] ∧ rs = [])) :
    pairRounds is rs = (is.headD [], rs.headD []) :: pairRounds is.tail rs.tail := by
  cases is with
  | nil =>
    cases rs with
    | nil => simp at h
    | cons r rs => simp [pairRounds]
  | cons i is =>
    cases rs with
    | nil => simp [pairRounds, pairRounds_nil_right]
    | cons r rs => simp [pairRounds]

theorem replayRounds_toFilter (env : Env) (rounds : List (List Key × List Key))
    (e1 e2 : Estimator) (h : e1.toFilter = e2.toFilter) :
    (rounds.foldl (fun acc round => removeBatch env (insertBatch env acc round.1) round.2)
        e1).toFilter =
      (rounds.foldl (fun acc round => removeBatch env (insertBatch env acc round.1) round.2)
        e2).toFilter := by
  induction rounds generalizing e1 e2 with
  | nil => exact h
  | cons r rest ih =>
    simp only [List.foldl_cons]
    exact ih _ _ (replayStep_toFilter env e1 e2 r.1 r.2 h)

theorem applyUpdatesLoop_paired (env : Env) (c cf fuel : Nat) (e : Estimator) (ap : Nat)
    (ht : e.truncateBuffer = [])
    (hsi : (e.insertBuffers.map Prod.fst).Pairwise (· ≤ ·))
    (hsr : (e.removalBuffers.map Prod.fst).Pairwise (· ≤ ·))
    (hni : ∀ b ∈ e.insertBuffers, b.2 ≠ [])
    (hnr : ∀ b ∈ e.removalBuffers, b.2 ≠ [])
    (hfuel : (pairRounds (dueBatches c e.insertBuffers)
      (dueBatches c e.removalBuffers)).length < fuel) :
    ∃ a e', applyUpdatesLoop env c cf fuel e ap 0 = some (a, e') ∧
      e'.toFilter =
        (replayPaired env e (dueBatches c e.insertBuffers)
          (dueBatches c e.removalBuffers)).toFilter := by
  induction fuel generalizing e ap with
  | zero => omega
  | succ n ih =>
    obtain ⟨i1, i2, i3, i4⟩ := scanBatch_due env c e.insertBuffers ap 0 hsi
    obtain ⟨r1, r2, r3, r4⟩ := scanBatch_due env c e.removalBuffers
      (scanBatch env c 0 e.insertBuffers ap 0).appliedSeq
      (scanBatch env c 0 e.insertBuffers ap 0).memoryUsage hsr
    simp only [applyUpdatesLoop, ht, scanTruncate, Bool.false_eq_true, if_false]
    by_cases hboth : dueBatches c e.insertBuffers = [] ∧ dueBatches c e.removalBuffers = []
    · have hib : (scanBatch env c 0 e.insertBuffers ap 0).batch = [] := by
        rw [i1, hboth.1]; rfl
      have hrb : (scanBatch env c 0 e.removalBuffers
          (scanBatch env c 0 e.insertBuffers ap 0).appliedSeq
          (scanBatch env c 0 e.insertBuffers ap 0).memoryUsage).batch = [] := by
        rw [r1, hboth.2]; rfl
      simp only [hib, hrb, List.isEmpty_nil, Bool.and_self, if_true]
      refine ⟨_, _, rfl, ?_⟩
      simp [hboth.1, hboth.2, replayPaired, pairRounds, decreaseMemoryUsage]
    · have hne : ¬ ((scanBatch env c 0 e.insertBuffers ap 0).batch.isEmpty = true ∧
          (scanBatch env c 0 e.removalBuffers
            (scanBatch env c 0 e.insertBuffers ap 0).appliedSeq
            (scanBatch env c 0 e.insertBuffers ap 0).memoryUsage).batch.isEmpty = true) := by
        rintro ⟨ha, hb⟩
        apply hboth
        rw [i1, List.isEmpty_iff] at ha
        rw [r1, List.isEmpty_iff] at hb
        constructor
        · cases hd : dueBatches c e.insertBuffers with
          | nil => rfl
          | cons x xs =>
            rw [hd] at ha
            exact absurd ha (dueBatches_ne_nil c _ hni x (by rw [hd]; exact List.mem_cons_self _ _))
        · cases hd : dueBatches c e.removalBuffers with
          | nil => rfl
          | cons x xs =>
            rw [hd] at hb
            exact absurd hb (dueBatches_ne_nil c _ hnr x (by rw [hd]; exact List.mem_cons_self _ _))
      have hstep := pairRounds_step _ _ hboth
      rw [hstep] at hfuel
      simp only [List.length_cons] at hfuel
      simp only [Bool.and_eq_true, hne, if_false]
      obtain ⟨a, e', hres, hflt⟩ := ih
        (removeBatch env
          (insertBatch env
            (decreaseMemoryUsage
              { e with
                truncateBuffer := []
                insertBuffers := (scanBatch env c 0 e.insertBuffers ap 0).rest
                removalBuffers := (scanBatch env c 0 e.removalBuffers
                  (scanBatch env c 0 e.insertBuffers ap 0).appliedSeq
                  (scanBatch env c 0 e.insertBuffers ap 0).memoryUsage).rest }
              (scanBatch env c 0 e.removalBuffers
                (scanBatch env c 0 e.insertBuffers ap 0).appliedSeq
                (scanBatch env c 0 e.insertBuffers ap 0).memoryUsage).memoryUsage)
            (scanBatch env c 0 e.insertBuffers ap 0).batch)
          (scanBatch env c 0 e.removalBuffers
            (scanBatch env c 0 e.insertBuffers ap 0).appliedSeq
            (scanBatch env c 0 e.insertBuffers ap 0).memoryUsage).batch)
        (scanBatch env c 0 e.removalBuffers
          (scanBatch env c 0 e.insertBuffers ap 0).appliedSeq
          (scanBatch env c 0 e.insertBuffers ap 0).memoryUsage).appliedSeq
        (by rw [replayStep_truncateBuffer]; rfl)
        (by rw [replayStep_insertBuffers]; exact i3)
        (by rw [replayStep_removalBuffers]; exact r3)
        (by rw [replayStep_insertBuffers]; exact fun b hb => hni b (i4 b hb))
        (by rw [replayStep_removalBuffers]; exact fun b hb => hnr b (r4 b hb))
        (by
          rw [replayStep_insertBuffers, replayStep_removalBuffers]
          simp only [decreaseMemoryUsage]
          rw [i2, r2]
          omega)
      refine ⟨a, e', hres, ?_⟩
      rw [hflt, replayStep_insertBuffers, replayStep_removalBuffers]
      simp only [decreaseMemoryUsage]
      rw [i2, r2]
      conv_rhs => rw [replayPaired, hstep, List.foldl_cons]
      rw [replayPaired]
      apply replayRounds_toFilter
      rw [i1, r1]
      exact replayStep_toFilter env _ _ _ _ rfl

theorem pairRounds_length_le (is rs : List (List Key)) :
    (pairRounds is rs).length ≤ is.length + rs.length := by
  induction is generalizing rs with
  | nil => simp [pairRounds]
  | cons i is ih =>
    cases rs with
    | nil => simp [pairRounds]
    | cons r rs =>
      have := ih rs
      simp only [pairRounds, List.length_cons]
      omega

theorem dueBatches_length_le (c : Nat) (l : List (Nat × List Key)) :
    (dueBatches c l).length ≤ l.length := by
  simp only [dueBatches, List.length_map]
  exact List.length_filter_le _ _

/-- C2 (amended). Order of effects without truncate markers: for every filter
state, ordered buffers without truncate markers and every `commitSeq`,
`applyUpdates(commitSeq)` returns (one unit of fuel per buffered batch and one
more suffice) and leaves the filter in exactly the state obtained by replaying
the buffered batches with `0 < seq <= commitSeq` in rounds: round `k` applies
the `k`-th such insert batch and then the `k`-th such removal batch.  Insert
batches among themselves and removal batches among themselves take effect in
increasing order of `seq`; a removal batch takes effect after the insert batch
of its round, whatever their sequence numbers. -/
theorem applyUpdates_replays_in_rounds (env : Env) (e : Estimator) (c fuel : Nat)
    (ht : e.truncateBuffer = []) (hb : BuffersOk e)
    (hfuel : e.insertBuffers.length + e.removalBuffers.length < fuel) :
    ∃ a e', applyUpdates env fuel e c = some (a, e') ∧
      e'.toFilter =
        (replayPaired env e (dueBatches c e.insertBuffers)
          (dueBatches c e.removalBuffers)).toFilter := by
  obtain ⟨hsi, hsr, _, hni, hnr⟩ := hb
  have h1 := pairRounds_length_le (dueBatches c e.insertBuffers) (dueBatches c e.removalBuffers)
  have h2 := dueBatches_length_le c e.insertBuffers
  have h3 := dueBatches_length_le c e.removalBuffers
  exact applyUpdatesLoop_paired env c fuel fuel e 0 ht hsi hsr hni hnr (by omega)

/-- C2 (amended), at a concrete input: the removal buffered under 3 and the
insert buffered under 5 form one round. -/
theorem applyUpdates_replays_in_rounds_witness :
    ∃ a e', applyUpdates sampleEnv 3 crossedEstimator 10 = some (a, e') ∧
      e'.toFilter =
        (replayPaired sampleEnv crossedEstimator (dueBatches 10 crossedEstimator.insertBuffers)
          (dueBatches 10 crossedEstimator.removalBuffers)).toFilter :=
  applyUpdates_replays_in_rounds sampleEnv crossedEstimator 10 3 rfl (by decide) (by decide)

/-- C2 as stated fails: with a removal of key 1 buffered under sequence number
3 and an insert of key 1 under 5, `applyUpdates(10)` applies the insert before
the removal and ends with an empty filter (`nrUsed = nrTotal = 0`), while the
replay in increasing order of sequence number ends with the key stored
(`nrUsed = nrTotal = 1`). -/
theorem applyUpdates_not_in_seq_order :
    (applyUpdates sampleEnv 3 crossedEstimator 10).map
        (fun r => (r.2.nrUsed, r.2.nrTotal, r.2.slots)) =
      some (0, 0, [0, 0, 0, 0, 0, 0, 0, 0]) ∧
    ((replayInSeqOrder sampleEnv crossedEstimator 10).nrUsed,
        (replayInSeqOrder sampleEnv crossedEstimator 10).nrTotal,
        (replayInSeqOrder sampleEnv crossedEstimator 10).slots) =
      (1, 1, [2, 0, 0, 0, 0, 0, 0, 0]) ∧
    (applyUpdates sampleEnv 3 crossedEstimator 10).map (fun r => r.2.toFilter) ≠
      some (replayInSeqOrder sampleEnv crossedEstimator 10).toFilter := by
  decide

/-! ## The serialized layout -/

theorem foldl_append_flatMap {α β : Type} (g : α → List β) (l : List α) (init : List β) :
    l.foldl (fun acc j => acc ++ g j) init = init ++ l.flatMap g := by
  induction l generalizing init with
  | nil => simp
  | cons x xs ih => simp [ih, List.append_assoc]

theorem map_getD_range (l : List Nat) : (List.range l.length).map (fun j => l.getD j 0) = l := by
  apply List.ext_getElem
  · simp
  · intro i h1 h2
    simp [List.getD_eq_getElem?_getD, List.getElem?_eq_getElem h2]

theorem flatMap_getD_range {β : Type} (g : Nat → List β) (l : List Nat) :
    (List.range l.length).flatMap (fun j => g (l.getD j 0)) = l.flatMap g := by
  conv_rhs => rw [← map_getD_range l]
  simp [List.flatMap_def, List.map_map, Function.comp_def]

theorem slotBytes_eq (size : Nat) (h : size * 24 + 64 < 2 ^ 64) :
    u64 (size * kSlotSize * kSlotsPerBucket) / kSlotSize = size * kSlotsPerBucket := by
  have h1 : size * 2 * 4 % 2 ^ 64 = size * 2 * 4 := Nat.mod_eq_of_lt (by omega)
  simp only [u64, kSlotSize, kSlotsPerBucket, h1]
  omega

theorem counterBytes_eq (size : Nat) (h : size * 24 + 64 < 2 ^ 64) :
    u64 (size * kCounterSize * kSlotsPerBucket) / kCounterSize = size * kSlotsPerBucket := by
  have h1 : size * 4 * 4 % 2 ^ 64 = size * 4 * 4 := Nat.mod_eq_of_lt (by omega)
  simp only [u64, kCounterSize, kSlotsPerBucket, h1]
  omega

theorem appendDataBlob_eq (env : Env) (e : Estimator) (result : List Byte)
    (hs : e.slots.length = e.size * kSlotsPerBucket)
    (hc : e.counters.length = e.size * kSlotsPerBucket)
    (hsize : e.size * 24 + 64 < 2 ^ 64) :
    appendDataBlob env e result =
      result ++ e.slots.flatMap (uintToPersistent env.byteOrder 2)
        ++ e.counters.flatMap (uintToPersistent env.byteOrder 4) := by
  simp only [appendDataBlob, slotBytes_eq e.size hsize, counterBytes_eq e.size hsize,
    foldl_append_flatMap, Filter.fingerprintAt, Filter.counterAt]
  rw [← hs, flatMap_getD_range (uintToPersistent env.byteOrder 2) e.slots, hs, ← hc,
    flatMap_getD_range (uintToPersistent env.byteOrder 4) e.counters]

theorem flatMap_uintToPersistent_length (bo : ByteOrder) (w : Nat) (l : List Nat) :
    (l.flatMap (uintToPersistent bo w)).length = l.length * w := by
  induction l with
  | nil => simp
  | cons x xs ih =>
    simp only [List.flatMap_cons, List.length_append, ih, uintToPersistent_length,
      List.length_cons]
    ring

theorem serialLength_eq (size : Nat) (h : size * 24 + 64 < 2 ^ 64) :
    u64 (u64 (1 + 8 + 8 + 8 + 8 + 8 + 8 + 8 + u64 (size * kSlotSize * kSlotsPerBucket))
        + u64 (size * kCounterSize * kSlotsPerBucket)) =
      1 + 8 + 48 + size * kSlotsPerBucket * 2 + size * kSlotsPerBucket * 4 := by
  have h1 : size * 2 * 4 % 2 ^ 64 = size * 2 * 4 := Nat.mod_eq_of_lt (by omega)
  have h2 : size * 4 * 4 % 2 ^ 64 = size * 4 * 4 := Nat.mod_eq_of_lt (by omega)
  have h3 : (1 + 8 + 8 + 8 + 8 + 8 + 8 + 8 + size * 2 * 4) % 2 ^ 64 =
      1 + 8 + 8 + 8 + 8 + 8 + 8 + 8 + size * 2 * 4 := Nat.mod_eq_of_lt (by omega)
  have h4 : (1 + 8 + 8 + 8 + 8 + 8 + 8 + 8 + size * 2 * 4 + size * 4 * 4) % 2 ^ 64 =
      1 + 8 + 8 + 8 + 8 + 8 + 8 + 8 + size * 2 * 4 + size * 4 * 4 :=
    Nat.mod_eq_of_lt (by omega)
  simp only [u64, kSlotSize, kSlotsPerBucket, kCounterSize, h1, h2, h3, h4]
  omega

theorem uncompressedLayout_length (env : Env) (e : Estimator) (a len : Nat)
    (hs : e.slots.length = e.size * kSlotsPerBucket)
    (hc : e.counters.length = e.size * kSlotsPerBucket) :
    (uncompressedLayout env e a len).length =
      8 + 1 + 8 + 48 + e.size * kSlotsPerBucket * 2 + e.size * kSlotsPerBucket * 4 := by
  simp only [uncompressedLayout, List.length_append, uintToPersistent_length,
    flatMap_uintToPersistent_length, hs, hc, List.length_cons, List.length_nil]

theorem serialize_of_applyUpdates (env : Env) (fuel : Nat) (e : Estimator) (seq a : Nat)
    (e1 : Estimator) (h : applyUpdates env fuel e seq = some (a, e1))
    (hs : e1.slots.length = e1.size * kSlotsPerBucket)
    (hc : e1.counters.length = e1.size * kSlotsPerBucket)
    (hsize : e1.size * 24 + 64 < 2 ^ 64) :
    serialize env fuel e seq SerializeFormat.UNCOMPRESSED =
      some (uncompressedLayout env e1 (max a e1.appliedSeq)
          (1 + 8 + 48 + e1.size * kSlotsPerBucket * 2 + e1.size * kSlotsPerBucket * 4),
        { e1 with
          needToPersist :=
            !e1.insertBuffers.isEmpty || !e1.removalBuffers.isEmpty ||
              !e1.truncateBuffer.isEmpty
          appliedSeq := max a e1.appliedSeq }) := by
  simp only [serialize, h, appendDataBlob_eq env e1 _ hs hc hsize, appendHeader,
    serialLength_eq e1.size hsize, Env.tag, uncompressedLayout, List.append_assoc]

/-! ## Taking a blob apart -/

theorem appendDataBlob_append (env : Env) (e : Estimator) (result : List Byte) :
    appendDataBlob env e result = result ++ appendDataBlob env e [] := by
  simp only [appendDataBlob, foldl_append_flatMap, List.nil_append, List.append_assoc]

theorem appendHeader_append (env : Env) (e : Estimator) (result : List Byte) :
    appendHeader env e result = result ++ appendHeader env e [] := by
  simp only [appendHeader, List.nil_append, List.append_assoc]

theorem serialize_eq (env : Env) (fuel : Nat) (e : Estimator) (seq : Nat)
    (format : SerializeFormat) :
    serialize env fuel e seq format =
      (applyUpdates env fuel e seq).map (fun r =>
        (uintToPersistent env.byteOrder 8 (max r.1 r.2.appliedSeq) ++ [env.tag format] ++
            (match format with
              | SerializeFormat.COMPRESSED =>
                uintToPersistent env.byteOrder 8 (env.compress (uncompressedBody env r.2)).length
                  ++ env.compress (uncompressedBody env r.2)
              | SerializeFormat.UNCOMPRESSED => uncompressedBody env r.2),
          { r.2 with
            needToPersist :=
              !r.2.insertBuffers.isEmpty || !r.2.removalBuffers.isEmpty ||
                !r.2.truncateBuffer.isEmpty
            appliedSeq := max r.1 r.2.appliedSeq })) := by
  unfold serialize
  cases h : applyUpdates env fuel e seq with
  | none => rfl
  | some r =>
    obtain ⟨a, e1⟩ := r
    have hlen : (uintToPersistent env.byteOrder 8 (max a e1.appliedSeq) ++ [env.tag format]).length
        = 9 := by simp [uintToPersistent_length]
    cases format with
    | UNCOMPRESSED =>
      simp only [Option.map_some', uncompressedBody]
      rw [appendDataBlob_append, appendHeader_append, appendDataBlob_append env e1 (appendHeader _ _ _),
        appendHeader_append env e1 (uintToPersistent _ _ _)]
      simp only [List.append_assoc]
    | COMPRESSED =>
      simp only [Option.map_some', uncompressedBody]
      rw [appendDataBlob_append, appendHeader_append, appendDataBlob_append env e1 (appendHeader _ _ _),
        appendHeader_append env e1 (uintToPersistent _ _ _)]
      simp only [hlen, List.append_assoc]
      have hd : ∀ rest : List Byte,
          (uintToPersistent env.byteOrder 8 (max a e1.appliedSeq) ++
            (env.tag SerializeFormat.COMPRESSED :: rest)).drop 9 = rest := by
        intro rest
        have := List.drop_left (uintToPersistent env.byteOrder 8 (max a e1.appliedSeq) ++
          [env.tag SerializeFormat.COMPRESSED]) rest
        rw [hlen] at this
        simpa [List.append_assoc] using this
      have ht : ∀ rest : List Byte,
          (uintToPersistent env.byteOrder 8 (max a e1.appliedSeq) ++
            (env.tag SerializeFormat.COMPRESSED :: rest)).take 9 =
          uintToPersistent env.byteOrder 8 (max a e1.appliedSeq) ++
            [env.tag SerializeFormat.COMPRESSED] := by
        intro rest
        have := List.take_left (uintToPersistent env.byteOrder 8 (max a e1.appliedSeq) ++
          [env.tag SerializeFormat.COMPRESSED]) rest
        rw [hlen] at this
        simpa [List.append_assoc] using this
      simp only [List.singleton_append, hd, ht, List.append_assoc]

theorem pow_256_8 : (256 : Nat) ^ 8 = 2 ^ 64 := by norm_num

theorem readAt_zero_uint64 (bo : ByteOrder) (v : Nat) (rest : List Byte) :
    readAt bo 8 (uintToPersistent bo 8 v ++ rest) 0 = v % 2 ^ 64 := by
  rw [readAt_uintToPersistent, pow_256_8]

theorem deserialize_uncompressed (env : Env) (e : Estimator) (a : Nat) (body : List Byte) :
    deserialize env e (uintToPersistent env.byteOrder 8 a ++ [env.uncompressedTag] ++ body) =
      deserializeUncompressedBody env { e with appliedSeq := a % 2 ^ 64 } body := by
  have hlen : (uintToPersistent env.byteOrder 8 a).length = 8 := uintToPersistent_length _ _ _
  have h9 : ¬ (uintToPersistent env.byteOrder 8 a ++ [env.uncompressedTag] ++ body).length < 9 := by
    simp only [List.length_append, hlen, List.length_cons, List.length_nil]
    omega
  have hg : (uintToPersistent env.byteOrder 8 a ++ [env.uncompressedTag] ++ body).getD 8 0 =
      env.uncompressedTag := by
    rw [List.append_assoc, List.getD_eq_getElem?_getD, List.getElem?_append_right (by omega)]
    simp [hlen]
  have hd : (uintToPersistent env.byteOrder 8 a ++ [env.uncompressedTag] ++ body).drop 9 = body := by
    have := List.drop_left (uintToPersistent env.byteOrder 8 a ++ [env.uncompressedTag]) body
    simpa [hlen] using this
  have hr : readAt env.byteOrder 8
      (uintToPersistent env.byteOrder 8 a ++ [env.uncompressedTag] ++ body) 0 = a % 2 ^ 64 := by
    rw [List.append_assoc, readAt_zero_uint64]
  simp only [deserialize, h9, if_false, hg, if_true, hd, hr]

theorem deserialize_compressed (env : Env) (e : Estimator) (a : Nat) (scratch : List Byte)
    (hlen : scratch.length < 2 ^ 64) :
    deserialize env e
        (uintToPersistent env.byteOrder 8 a ++ [env.compressedTag] ++
          (uintToPersistent env.byteOrder 8 scratch.length ++ scratch)) =
      match env.uncompress scratch with
      | none => ({ e with appliedSeq := a % 2 ^ 64 }, some Failure.uncompress)
      | some body => deserializeUncompressedBody env { e with appliedSeq := a % 2 ^ 64 } body := by
  have hl8 : (uintToPersistent env.byteOrder 8 a).length = 8 := uintToPersistent_length _ _ _
  have hl8' : (uintToPersistent env.byteOrder 8 scratch.length).length = 8 :=
    uintToPersistent_length _ _ _
  have h9 : ¬ (uintToPersistent env.byteOrder 8 a ++ [env.compressedTag] ++
      (uintToPersistent env.byteOrder 8 scratch.length ++ scratch)).length < 9 := by
    simp only [List.length_append, hl8, List.length_cons, List.length_nil]
    omega
  have hg : (uintToPersistent env.byteOrder 8 a ++ [env.compressedTag] ++
      (uintToPersistent env.byteOrder 8 scratch.length ++ scratch)).getD 8 0 =
      env.compressedTag := by
    rw [List.append_assoc, List.getD_eq_getElem?_getD, List.getElem?_append_right (by omega)]
    simp [hl8]
  have hd : (uintToPersistent env.byteOrder 8 a ++ [env.compressedTag] ++
      (uintToPersistent env.byteOrder 8 scratch.length ++ scratch)).drop 9 =
      uintToPersistent env.byteOrder 8 scratch.length ++ scratch := by
    have := List.drop_left (uintToPersistent env.byteOrder 8 a ++ [env.compressedTag])
      (uintToPersistent env.byteOrder 8 scratch.length ++ scratch)
    simpa [hl8] using this
  have hr : readAt env.byteOrder 8
      (uintToPersistent env.byteOrder 8 a ++ [env.compressedTag] ++
        (uintToPersistent env.byteOrder 8 scratch.length ++ scratch)) 0 = a % 2 ^ 64 := by
    rw [List.append_assoc, readAt_zero_uint64]
  have hne : env.compressedTag ≠ env.uncompressedTag := fun h => env.tagsDistinct h.symm
  have hr2 : readAt env.byteOrder 8 (uintToPersistent env.byteOrder 8 scratch.length ++ scratch) 0
      = scratch.length := by
    rw [readAt_zero_uint64, Nat.mod_eq_of_lt hlen]
  have hd2 : (uintToPersistent env.byteOrder 8 scratch.length ++ scratch).drop 8 = scratch := by
    have := List.drop_left (uintToPersistent env.byteOrder 8 scratch.length) scratch
    rw [hl8'] at this
    exact this
  have h8 : ¬ (uintToPersistent env.byteOrder 8 scratch.length ++ scratch).length < 8 := by
    simp only [List.length_append, hl8']
    omega
  simp only [deserialize, h9, if_false, hg, hne, if_true, hd, hr, h8, hr2, hd2, lt_irrefl,
    List.take_length]

/-- C6. Compression transparency: if the block codec satisfies
`Uncompress(Compress(b)) = b` for every byte string `b`, then for every
estimator state, `maxCommitSeq` and fuel the two calls of `serialize` return
together, leave the same estimator state, and (the compressed blob being a
string, shorter than `2 ^ 64` bytes) `deserialize` ends in exactly the same way
on the COMPRESSED blob as on the UNCOMPRESSED one: the same success or failure
and the same loaded state, hence the same `appliedSeq`, `size`, `niceSize`,
`logSize`, `nrUsed`, `nrCuckood`, `nrTotal`, fingerprints and counters. -/
theorem compression_transparent (env : Env) (fuel : Nat) (x : Estimator) (maxCommitSeq : Nat)
    (target : Estimator)
    (hcodec : ∀ b, env.uncompress (env.compress b) = some b) :
    match serialize env fuel x maxCommitSeq SerializeFormat.UNCOMPRESSED,
      serialize env fuel x maxCommitSeq SerializeFormat.COMPRESSED with
    | some (plain, x1), some (packed, x2) =>
      x1 = x2 ∧
        (packed.length < 2 ^ 64 → deserialize env target packed = deserialize env target plain)
    | none, none => True
    | _, _ => False := by
  rw [serialize_eq, serialize_eq]
  cases applyUpdates env fuel x maxCommitSeq with
  | none => trivial
  | some r =>
    simp only [Option.map_some', Env.tag]
    refine ⟨trivial, fun hlen => ?_⟩
    have hlen' : (env.compress (uncompressedBody env r.2)).length < 2 ^ 64 := by
      simp only [List.length_append] at hlen
      omega
    rw [deserialize_uncompressed, deserialize_compressed _ _ _ _ hlen', hcodec]

/-- C6, at a concrete input, with the identity as block codec. -/
theorem compression_transparent_witness :
    match serialize sampleEnv 1 tinyEstimator 5 SerializeFormat.UNCOMPRESSED,
      serialize sampleEnv 1 tinyEstimator 5 SerializeFormat.COMPRESSED with
    | some (plain, x1), some (packed, x2) =>
      x1 = x2 ∧
        (packed.length < 2 ^ 64 →
          deserialize sampleEnv emptyEstimator packed = deserialize sampleEnv emptyEstimator plain)
    | none, none => True
    | _, _ => False :=
  compression_transparent sampleEnv 1 tinyEstimator 5 emptyEstimator (fun _ => rfl)

/-! ## Loading a laid out body -/

theorem readAt_skip (bo : ByteOrder) (w w2 v off : Nat) (rest : List Byte) :
    readAt bo w (uintToPersistent bo w2 v ++ rest) (w2 + off) = readAt bo w rest off := by
  have h := @List.drop_append _ (uintToPersistent bo w2 v) rest off
  rw [uintToPersistent_length] at h
  simp only [readAt, h]

theorem readAt_header (bo : ByteOrder) (hdr : List Nat) (rest : List Byte) (k : Nat)
    (hk : k < hdr.length) :
    readAt bo 8 (hdr.flatMap (uintToPersistent bo 8) ++ rest) (8 * k) = hdr.getD k 0 % 2 ^ 64 := by
  induction hdr generalizing k with
  | nil => simp at hk
  | cons v vs ih =>
    simp only [List.flatMap_cons, List.append_assoc]
    cases k with
    | zero => simp [readAt_zero_uint64]
    | succ k =>
      have hk' : k < vs.length := by simpa using hk
      have e : 8 * (k + 1) = 8 + 8 * k := by ring
      rw [e, readAt_skip, ih k hk']
      simp

theorem readValues_flatMap (bo : ByteOrder) (w : Nat) (l : List Nat) (rest : List Byte) :
    readValues bo w l.length (l.flatMap (uintToPersistent bo w) ++ rest) =
      l.map (fun v => v % 256 ^ w) := by
  induction l with
  | nil => simp [readValues]
  | cons v vs ih =>
    simp only [List.flatMap_cons, List.append_assoc, List.length_cons, readValues, List.map_cons]
    rw [List.take_left' (uintToPersistent_length bo w v),
      List.drop_left' (uintToPersistent_length bo w v), ih,
      uintFromPersistent_uintToPersistent]

theorem map_mod_of_lt (l : List Nat) (m : Nat) (h : ∀ x ∈ l, x < m) :
    l.map (fun v => v % m) = l := by
  induction l with
  | nil => rfl
  | cons v vs ih =>
    simp only [List.map_cons]
    rw [Nat.mod_eq_of_lt (h v (List.mem_cons_self _ _)),
      ih (fun x hx => h x (List.mem_cons_of_mem _ hx))]

theorem header_length (bo : ByteOrder) (hdr : List Nat) :
    (hdr.flatMap (uintToPersistent bo 8)).length = hdr.length * 8 :=
  flatMap_uintToPersistent_length bo 8 hdr

theorem deserializeUncompressedBody_layout (env : Env) (target x : Estimator) (len : Nat)
    (trailing : List Byte) (hbig : 256 < x.size)
    (hs : x.slots.length = x.size * kSlotsPerBucket)
    (hc : x.counters.length = x.size * kSlotsPerBucket)
    (hsize : x.size * 24 + 64 < 2 ^ 64) :
    deserializeUncompressedBody env target
        ([len, x.size, x.nrUsed, x.nrCuckood, x.nrTotal, x.niceSize, x.logSize].flatMap
            (uintToPersistent env.byteOrder 8) ++
          (x.slots.flatMap (uintToPersistent env.byteOrder 2) ++
            (x.counters.flatMap (uintToPersistent env.byteOrder 4) ++ trailing))) =
      ({ deriveSizesAndAlloc
            { target with
              size := x.size
              nrUsed := x.nrUsed % 2 ^ 64
              nrCuckood := x.nrCuckood % 2 ^ 64
              nrTotal := x.nrTotal % 2 ^ 64
              niceSize := x.niceSize % 2 ^ 64
              logSize := x.logSize % 2 ^ 64 } with
          slots := x.slots.map (fun v => v % 2 ^ 16)
          counters := x.counters.map (fun v => v % 2 ^ 32) }, none) := by
  have hh := header_length env.byteOrder
    [len, x.size, x.nrUsed, x.nrCuckood, x.nrTotal, x.niceSize, x.logSize]
  simp only [List.length_cons, List.length_nil] at hh
  have hl1 := flatMap_uintToPersistent_length env.byteOrder 2 x.slots
  have hl2 := flatMap_uintToPersistent_length env.byteOrder 4 x.counters
  have k4 : kSlotsPerBucket = 4 := rfl
  have hlen : ¬ ([len, x.size, x.nrUsed, x.nrCuckood, x.nrTotal, x.niceSize, x.logSize].flatMap
      (uintToPersistent env.byteOrder 8) ++
      (x.slots.flatMap (uintToPersistent env.byteOrder 2) ++
        (x.counters.flatMap (uintToPersistent env.byteOrder 4) ++ trailing))).length
      ≤ minRequiredSize := by
    simp only [List.length_append, hh, hl1, hs, minRequiredSize, k4]
    omega
  have r (k : Nat) (hk : k < 7) := readAt_header env.byteOrder
    [len, x.size, x.nrUsed, x.nrCuckood, x.nrTotal, x.niceSize, x.logSize]
    (x.slots.flatMap (uintToPersistent env.byteOrder 2) ++
      (x.counters.flatMap (uintToPersistent env.byteOrder 4) ++ trailing)) k (by simpa using hk)
  have r1 := r 1 (by norm_num)
  have r2 := r 2 (by norm_num)
  have r3 := r 3 (by norm_num)
  have r4 := r 4 (by norm_num)
  have r5 := r 5 (by norm_num)
  have r6 := r 6 (by norm_num)
  simp only [Nat.reduceMul, List.getD_cons_succ, List.getD_cons_zero] at r1 r2 r3 r4 r5 r6
  have hsz : x.size % 2 ^ 64 = x.size := Nat.mod_eq_of_lt (by omega)
  have hdrop : ([len, x.size, x.nrUsed, x.nrCuckood, x.nrTotal, x.niceSize, x.logSize].flatMap
      (uintToPersistent env.byteOrder 8) ++
      (x.slots.flatMap (uintToPersistent env.byteOrder 2) ++
        (x.counters.flatMap (uintToPersistent env.byteOrder 4) ++ trailing))).drop minRequiredSize
      = x.slots.flatMap (uintToPersistent env.byteOrder 2) ++
        (x.counters.flatMap (uintToPersistent env.byteOrder 4) ++ trailing) :=
    List.drop_left' (by rw [hh]; rfl)
  have hnot : ¬ x.size ≤ 256 := by omega
  have hdata : ¬ (x.slots.flatMap (uintToPersistent env.byteOrder 2) ++
      (x.counters.flatMap (uintToPersistent env.byteOrder 4) ++ trailing)).length <
      x.size * kSlotsPerBucket * kSlotSize + x.size * kSlotsPerBucket * kCounterSize := by
    simp only [List.length_append, hl1, hl2, hs, hc, kSlotSize, kCounterSize]
    omega
  have hdrop2 : (x.slots.flatMap (uintToPersistent env.byteOrder 2) ++
      (x.counters.flatMap (uintToPersistent env.byteOrder 4) ++ trailing)).drop
        (x.size * kSlotsPerBucket * kSlotSize) =
      x.counters.flatMap (uintToPersistent env.byteOrder 4) ++ trailing :=
    List.drop_left' (by rw [hl1, hs]; rfl)
  have hv1 := readValues_flatMap env.byteOrder 2 x.slots
    (x.counters.flatMap (uintToPersistent env.byteOrder 4) ++ trailing)
  have hv2 := readValues_flatMap env.byteOrder 4 x.counters trailing
  rw [hs] at hv1
  rw [hc] at hv2
  have p16 : (256 : Nat) ^ 2 = 2 ^ 16 := by norm_num
  have p32 : (256 : Nat) ^ 4 = 2 ^ 32 := by norm_num
  rw [p16] at hv1
  rw [p32] at hv2
  simp only [deserializeUncompressedBody, hlen, if_false, r1, r2, r3, r4, r5, r6, hsz, hnot,
    deriveSizesAndAlloc, increaseMemoryUsage, slotBytes_eq x.size hsize,
    counterBytes_eq x.size hsize, hdrop, hdata, hdrop2]
  simp only [kSlotSize, kCounterSize] at hv1 hv2 ⊢
  rw [hv1, hv2]

theorem uncompressedLayout_eq (env : Env) (x : Estimator) (a len : Nat) (trailing : List Byte) :
    uncompressedLayout env x a len ++ trailing =
      uintToPersistent env.byteOrder 8 a ++ [env.uncompressedTag] ++
        ([len, x.size, x.nrUsed, x.nrCuckood, x.nrTotal, x.niceSize, x.logSize].flatMap
            (uintToPersistent env.byteOrder 8) ++
          (x.slots.flatMap (uintToPersistent env.byteOrder 2) ++
            (x.counters.flatMap (uintToPersistent env.byteOrder 4) ++ trailing))) := by
  simp only [uncompressedLayout, List.flatMap_cons, List.flatMap_nil, List.append_nil,
    List.append_assoc]

theorem deserialize_layout (env : Env) (target x : Estimator) (a len : Nat)
    (trailing : List Byte) (hbig : 256 < x.size)
    (hs : x.slots.length = x.size * kSlotsPerBucket)
    (hc : x.counters.length = x.size * kSlotsPerBucket)
    (hsize : x.size * 24 + 64 < 2 ^ 64) :
    deserialize env target (uncompressedLayout env x a len ++ trailing) =
      ({ deriveSizesAndAlloc
            { target with
              appliedSeq := a % 2 ^ 64
              size := x.size
              nrUsed := x.nrUsed % 2 ^ 64
              nrCuckood := x.nrCuckood % 2 ^ 64
              nrTotal := x.nrTotal % 2 ^ 64
              niceSize := x.niceSize % 2 ^ 64
              logSize := x.logSize % 2 ^ 64 } with
          slots := x.slots.map (fun v => v % 2 ^ 16)
          counters := x.counters.map (fun v => v % 2 ^ 32) }, none) := by
  rw [uncompressedLayout_eq, deserialize_uncompressed,
    deserializeUncompressedBody_layout env _ x len trailing hbig hs hc hsize]

/-- Round trip for tables of more than 256 buckets: when `applyUpdates` returns
a well-formed state with `size > 256`, `serialize(.., UNCOMPRESSED)` returns and
`deserialize` of its blob into a fresh estimator succeeds with the same `size`,
`niceSize`, `logSize`, `nrUsed`, `nrTotal`, `nrCuckood`, `appliedSeq`,
fingerprints and counters as the serialized estimator has after the call. -/
theorem roundtrip_uncompressed (env : Env) (fuel : Nat) (e : Estimator) (seq a : Nat)
    (e1 : Estimator) (h : applyUpdates env fuel e seq = some (a, e1)) (ha : a < 2 ^ 64)
    (hbig : 256 < e1.size) (ht : TableOk e1.toFilter) (hm : MembersOk e1) :
    ∃ blob x' y, serialize env fuel e seq SerializeFormat.UNCOMPRESSED = some (blob, x') ∧
      deserialize env emptyEstimator blob = (y, none) ∧
      y.size = x'.size ∧ y.niceSize = x'.niceSize ∧ y.logSize = x'.logSize ∧
      y.nrUsed = x'.nrUsed ∧ y.nrTotal = x'.nrTotal ∧ y.nrCuckood = x'.nrCuckood ∧
      y.appliedSeq = x'.appliedSeq ∧ y.slots = x'.slots ∧ y.counters = x'.counters := by
  obtain ⟨hs, hc, hs16, hc32, hsize⟩ := ht
  obtain ⟨m1, m2, m3, m4, m5, m6⟩ := hm
  have hmax : max a e1.appliedSeq < 2 ^ 64 := Nat.max_lt.mpr ⟨ha, m6⟩
  have hd := deserialize_layout env emptyEstimator e1 (max a e1.appliedSeq)
    (1 + 8 + 48 + e1.size * kSlotsPerBucket * 2 + e1.size * kSlotsPerBucket * 4) [] hbig hs hc
    hsize
  rw [List.append_nil] at hd
  refine ⟨_, _, _, serialize_of_applyUpdates env fuel e seq a e1 h hs hc hsize, hd, ?_⟩
  simp only [deriveSizesAndAlloc, increaseMemoryUsage, Nat.mod_eq_of_lt m1,
    Nat.mod_eq_of_lt m2, Nat.mod_eq_of_lt m3, Nat.mod_eq_of_lt m4, Nat.mod_eq_of_lt m5,
    Nat.mod_eq_of_lt hmax, map_mod_of_lt _ _ hs16, map_mod_of_lt _ _ hc32, and_self]

theorem deserializeUncompressedBody_small (env : Env) (target : Estimator) (len size : Nat)
    (fields rest : List Byte) (hsize : size ≤ 256) (hrest : 48 < (fields ++ rest).length) :
    deserializeUncompressedBody env target
        (uintToPersistent env.byteOrder 8 len ++
          (uintToPersistent env.byteOrder 8 size ++ (fields ++ rest))) =
      ({ target with size := size }, some Failure.unserialize) := by
  have hlen : ¬ (uintToPersistent env.byteOrder 8 len ++
      (uintToPersistent env.byteOrder 8 size ++ (fields ++ rest))).length ≤ minRequiredSize := by
    simp only [List.length_append, uintToPersistent_length, minRequiredSize] at hrest ⊢
    omega
  have hr : readAt env.byteOrder 8 (uintToPersistent env.byteOrder 8 len ++
      (uintToPersistent env.byteOrder 8 size ++ (fields ++ rest))) 8 = size := by
    have := readAt_skip env.byteOrder 8 8 len 0
      (uintToPersistent env.byteOrder 8 size ++ (fields ++ rest))
    rw [Nat.add_zero] at this
    rw [this, readAt_zero_uint64, Nat.mod_eq_of_lt (by omega)]
  simp only [deserializeUncompressedBody, hlen, if_false, hr, hsize, if_true]

theorem deriveSizesAndAlloc_minimal :
    deriveSizesAndAlloc { emptyEstimator with size := 256, niceSize := 256, logSize := 8 } =
      minimalEstimator := by
  have hs := slotBytes_eq 256 (by norm_num)
  have hc := counterBytes_eq 256 (by norm_num)
  have ha : u64 (u64 (256 * kSlotSize * kSlotsPerBucket) + u64 (256 * kCounterSize * kSlotsPerBucket)
      + 64) = 6208 := by decide
  have hm : sub64 256 1 = 255 := by decide
  have hsh : (sub64 64 8 / 2) % 2 ^ 32 = 28 := by decide
  have hmem : u64 (0 + 6208) = 6208 := by decide
  simp only [deriveSizesAndAlloc, increaseMemoryUsage, hs, hc, ha, hm, hsh, minimalEstimator,
    emptyEstimator, hmem]

theorem initializeDefault_eq (fuel : Nat) (e : Estimator) (niceSize logSize : Nat)
    (d : Estimator) (hn : niceSizeLoop e.size fuel 256 8 = some (niceSize, logSize))
    (hd : deriveSizesAndAlloc { e with niceSize := niceSize, logSize := logSize } = d) :
    initializeDefault fuel e =
      match resetLoop d.size fuel 0 d.toFilter with
      | none => none
      | some f => some { d with toFilter := f } := by
  simp only [initializeDefault, hn, hd]

theorem construct_zero : construct 257 0 = some minimalEstimator := by
  have hr := resetLoop_full minimalEstimator.toFilter 257 (by simp [minimalEstimator])
    (by simp [minimalEstimator]) (by simp [minimalEstimator]) (by simp [minimalEstimator])
  have hn : niceSizeLoop 256 257 256 8 = some (256, 8) := by
    show niceSizeLoop 256 (256 + 1) 256 8 = some (256, 8)
    simp [niceSizeLoop]
  have h1 : construct 257 0 = initializeDefault 257 { emptyEstimator with size := 256 } := rfl
  rw [h1, initializeDefault_eq 257 _ 256 8 minimalEstimator hn deriveSizesAndAlloc_minimal, hr]
  rfl

theorem minimalEstimator_table :
    minimalEstimator.slots.length = minimalEstimator.size * kSlotsPerBucket ∧
    minimalEstimator.counters.length = minimalEstimator.size * kSlotsPerBucket ∧
    minimalEstimator.size * 24 + 64 < 2 ^ 64 := by
  simp [minimalEstimator]

theorem minimalEstimator_not_loaded (env : Env) :
    ∃ blob x', serialize env 1 minimalEstimator 0 SerializeFormat.UNCOMPRESSED =
        some (blob, x') ∧
      (deserialize env emptyEstimator blob).2 = some Failure.unserialize := by
  obtain ⟨hs, hc, hsize⟩ := minimalEstimator_table
  have happ : applyUpdates env 1 minimalEstimator 0 = some (0, minimalEstimator) :=
    applyUpdates_unbuffered env minimalEstimator 0 0 rfl rfl rfl
  have hser := serialize_of_applyUpdates env 1 minimalEstimator 0 0 minimalEstimator happ hs hc
    hsize
  refine ⟨_, _, hser, ?_⟩
  have hlay := uncompressedLayout_eq env minimalEstimator (max 0 minimalEstimator.appliedSeq)
    (1 + 8 + 48 + minimalEstimator.size * kSlotsPerBucket * 2 +
      minimalEstimator.size * kSlotsPerBucket * 4) []
  rw [List.append_nil] at hlay
  rw [hlay, deserialize_uncompressed]
  simp only [List.flatMap_cons, List.flatMap_nil, List.append_nil, List.append_assoc]
  rw [deserializeUncompressedBody_small env _ _ minimalEstimator.size _ _ (by decide)]
  have hsz : minimalEstimator.size = 256 := rfl
  rw [hsz] at hs hc
  simp only [List.length_append, uintToPersistent_length, flatMap_uintToPersistent_length, hs,
    hc, kSlotsPerBucket]
  omega

/-- C1, at the failing input: the size constructor called with requested size 0
builds the table of 256 buckets ("want 256 buckets minimum");
`serialize(.., UNCOMPRESSED)` of this estimator returns a blob, and
`deserialize` of that blob into a fresh estimator fails with "unable to
unserialize index estimates", because it rejects `_size <= 256`. -/
theorem roundtrip_fails_for_minimal_table (env : Env) :
    ∃ x blob x', construct 257 0 = some x ∧ x.size = 256 ∧
      serialize env 1 x 0 SerializeFormat.UNCOMPRESSED = some (blob, x') ∧
      (deserialize env emptyEstimator blob).2 = some Failure.unserialize := by
  obtain ⟨blob, x', h1, h2⟩ := minimalEstimator_not_loaded env
  exact ⟨minimalEstimator, blob, x', construct_zero, rfl, h1, h2⟩

/-! ## Rejected input -/

/-- C8. Unknown format tag: for every byte string longer than 9 bytes whose byte
at offset 8 is neither the UNCOMPRESSED nor the COMPRESSED tag, `deserialize`
fails with "invalid format found" and, apart from `_appliedSeq` (read before
the tag is looked at), leaves the estimator as it was: `size`, `niceSize`,
`logSize`, `nrUsed`, `nrCuckood`, `nrTotal` and the table are untouched. -/
theorem deserialize_unknown_tag (env : Env) (e : Estimator) (serialized : List Byte)
    (hlen : 9 < serialized.length)
    (hu : serialized.getD 8 0 ≠ env.uncompressedTag)
    (hc : serialized.getD 8 0 ≠ env.compressedTag) :
    deserialize env e serialized =
      ({ e with appliedSeq := readAt env.byteOrder 8 serialized 0 }, some Failure.invalidFormat) := by
  have h9 : ¬ serialized.length < 9 := by omega
  simp only [deserialize, h9, if_false, hu, hc]

/-- C8, at a concrete input: ten bytes with tag byte `'9'`. -/
theorem deserialize_unknown_tag_witness :
    deserialize sampleEnv sample257 [1, 0, 0, 0, 0, 0, 0, 0, 57, 0] =
      ({ sample257 with
          appliedSeq := readAt sampleEnv.byteOrder 8 [1, 0, 0, 0, 0, 0, 0, 0, 57, 0] 0 },
        some Failure.invalidFormat) :=
  deserialize_unknown_tag sampleEnv sample257 [1, 0, 0, 0, 0, 0, 0, 0, 57, 0] (by decide)
    (by decide) (by decide)

theorem deserializeUncompressedBody_size (env : Env) (e : Estimator) (body : List Byte)
    (h : (deserializeUncompressedBody env e body).2 = none) :
    256 < (deserializeUncompressedBody env e body).1.size := by
  simp only [deserializeUncompressedBody] at h ⊢
  by_cases h1 : body.length ≤ minRequiredSize
  · simp [h1] at h
  · by_cases h2 : readAt env.byteOrder 8 body 8 ≤ 256
    · simp [h1, h2] at h
    · simp only [h1, h2, if_false] at h ⊢
      split_ifs at h ⊢ with h3
      exact Nat.lt_of_not_le h2

theorem deserialize_size (env : Env) (e : Estimator) (serialized : List Byte)
    (h : (deserialize env e serialized).2 = none) :
    256 < (deserialize env e serialized).1.size := by
  revert h
  unfold deserialize
  by_cases h1 : serialized.length < 9
  · simp only [h1, if_true]
    simp
  · simp only [h1, if_false]
    by_cases h2 : serialized.getD 8 0 = env.uncompressedTag
    · simp only [h2, if_true]
      exact deserializeUncompressedBody_size env _ _
    · simp only [h2, if_false]
      by_cases h3 : serialized.getD 8 0 = env.compressedTag
      · simp only [h3, if_true]
        by_cases h4 : (List.drop 9 serialized).length < 8
        · simp only [h4, if_true]
          simp
        · simp only [h4, if_false]
          by_cases h5 : (List.drop 8 (List.drop 9 serialized)).length <
              readAt env.byteOrder 8 (List.drop 9 serialized) 0
          · simp only [h5, if_true]
            simp
          · simp only [h5, if_false]
            cases hs : env.uncompress (List.take (readAt env.byteOrder 8 (List.drop 9 serialized) 0)
                (List.drop 8 (List.drop 9 serialized))) with
            | none => simp
            | some scratch =>
              simp only
              exact deserializeUncompressedBody_size env _ _
      · simp only [h3, if_false]
        simp

theorem deserializeUncompressedBody_rejects (env : Env) (e : Estimator) (body : List Byte)
    (h : readAt env.byteOrder 8 body 8 ≤ 256) :
    deserializeUncompressedBody env e body = (e, some Failure.invalidFormat) ∨
    deserializeUncompressedBody env e body =
      ({ e with size := readAt env.byteOrder 8 body 8 }, some Failure.unserialize) := by
  simp only [deserializeUncompressedBody]
  by_cases h1 : body.length ≤ minRequiredSize
  · left
    simp only [h1, if_true]
  · right
    simp only [h1, if_false, h, if_true]

/-- C9. Minimum table size on load: whenever `deserialize` completes without
error the estimator's size is above 256; and a body that declares
`size <= 256` is rejected by `deserializeUncompressedBody` with an error
("invalid format found" when it is too short to hold the members, "unable to
unserialize index estimates" otherwise) in a state in which at most `_size` has
been overwritten: no table was allocated and no counter member was loaded. -/
theorem deserialize_size_guard (env : Env) (e : Estimator) (serialized body : List Byte) :
    ((deserialize env e serialized).2 = none → 256 < (deserialize env e serialized).1.size) ∧
    (readAt env.byteOrder 8 body 8 ≤ 256 →
      (deserializeUncompressedBody env e body = (e, some Failure.invalidFormat) ∨
        deserializeUncompressedBody env e body =
          ({ e with size := readAt env.byteOrder 8 body 8 }, some Failure.unserialize))) :=
  ⟨deserialize_size env e serialized, deserializeUncompressedBody_rejects env e body⟩

theorem sample257_table :
    sample257.slots.length = sample257.size * kSlotsPerBucket ∧
    sample257.counters.length = sample257.size * kSlotsPerBucket ∧
    sample257.size * 24 + 64 < 2 ^ 64 ∧ 256 < sample257.size := by
  simp [sample257]

/-- C9, at concrete inputs: the laid out blob of the 257-bucket estimator loads
with size 257, and a body of 60 zero bytes (declared size 0) is rejected. -/
theorem deserialize_size_guard_witness :
    256 < (deserialize sampleEnv emptyEstimator
      (uncompressedLayout sampleEnv sample257 0 6225)).1.size ∧
    (deserializeUncompressedBody sampleEnv emptyEstimator (List.replicate 60 0) =
        (emptyEstimator, some Failure.invalidFormat) ∨
      deserializeUncompressedBody sampleEnv emptyEstimator (List.replicate 60 0) =
        ({ emptyEstimator with size := readAt sampleEnv.byteOrder 8 (List.replicate 60 0) 8 },
          some Failure.unserialize)) :=
  have hload : (deserialize sampleEnv emptyEstimator
      (uncompressedLayout sampleEnv sample257 0 6225)).2 = none := by
    have h := deserialize_layout sampleEnv emptyEstimator sample257 0 6225 []
      sample257_table.2.2.2 sample257_table.1 sample257_table.2.1 sample257_table.2.2.1
    rw [List.append_nil] at h
    rw [h]
  ⟨(deserialize_size_guard sampleEnv emptyEstimator
      (uncompressedLayout sampleEnv sample257 0 6225) []).1 hload,
    (deserialize_size_guard sampleEnv emptyEstimator [] (List.replicate 60 0)).2 (by decide)⟩

/-- C10, at the failing input: the blob of the 257-bucket estimator with the
declared length 0 and one surplus byte at the end (6234 bytes in all) is
accepted by `deserialize`: it completes without error and has loaded the table
of 257 buckets.  The declared length is only compared inside `TRI_ASSERT`. -/
theorem deserialize_accepts_wrong_length :
    readAt sampleEnv.byteOrder 8 (uncompressedLayout sampleEnv sample257 7 0 ++ [0]) 9 = 0 ∧
    (uncompressedLayout sampleEnv sample257 7 0 ++ [0]).length = 6234 ∧
    (deserialize sampleEnv emptyEstimator (uncompressedLayout sampleEnv sample257 7 0 ++ [0])).2 =
      none ∧
    (deserialize sampleEnv emptyEstimator
      (uncompressedLayout sampleEnv sample257 7 0 ++ [0])).1.size = 257 ∧
    (deserialize sampleEnv emptyEstimator
      (uncompressedLayout sampleEnv sample257 7 0 ++ [0])).1.slots = sample257.slots ∧
    (deserialize sampleEnv emptyEstimator
      (uncompressedLayout sampleEnv sample257 7 0 ++ [0])).1.counters = sample257.counters := by
  obtain ⟨hs, hc, hsize, hbig⟩ := sample257_table
  have h := deserialize_layout sampleEnv emptyEstimator sample257 7 0 [0] hbig hs hc hsize
  have hlen := uncompressedLayout_length sampleEnv sample257 7 0 hs hc
  have hsz : sample257.size = 257 := rfl
  have hz16 : ∀ x ∈ sample257.slots, x < 2 ^ 16 := by
    intro x hx
    simp only [sample257, List.mem_replicate] at hx
    omega
  have hz32 : ∀ x ∈ sample257.counters, x < 2 ^ 32 := by
    intro x hx
    simp only [sample257, List.mem_replicate] at hx
    omega
  refine ⟨?_, ?_, ?_, ?_, ?_, ?_⟩
  · rw [uncompressedLayout_eq]
    have hskip : ∀ rest : List Byte,
        readAt sampleEnv.byteOrder 8
          (uintToPersistent sampleEnv.byteOrder 8 7 ++ [sampleEnv.uncompressedTag] ++ rest) 9 =
        readAt sampleEnv.byteOrder 8 rest 0 := by
      intro rest
      have := readAt_append_left sampleEnv.byteOrder 8
        (uintToPersistent sampleEnv.byteOrder 8 7 ++ [sampleEnv.uncompressedTag]) rest
      simpa [uintToPersistent_length] using this
    rw [hskip]
    simp only [List.flatMap_cons, List.append_assoc]
    rw [readAt_zero_uint64]
    rfl
  · rw [List.length_append, hlen, hsz]
    rfl
  · rw [h]
  · rw [h]
    simp [deriveSizesAndAlloc, increaseMemoryUsage, hsz]
  · rw [h]
    exact map_mod_of_lt _ _ hz16
  · rw [h]
    exact map_mod_of_lt _ _ hz32

/-! ## The positive halves at concrete inputs -/

theorem sample257_ok : TableOk sample257.toFilter ∧ MembersOk sample257 := by
  refine ⟨⟨by simp [sample257], by simp [sample257], ?_, ?_, by simp [sample257]⟩, by decide⟩
  · intro x hx
    simp only [sample257, List.mem_replicate] at hx
    omega
  · intro x hx
    simp only [sample257, List.mem_replicate] at hx
    omega

/-- The round trip of the empty 257-bucket estimator. -/
theorem roundtrip_uncompressed_witness :
    ∃ blob x' y, serialize sampleEnv 1 sample257 0 SerializeFormat.UNCOMPRESSED =
        some (blob, x') ∧
      deserialize sampleEnv emptyEstimator blob = (y, none) ∧
      y.size = x'.size ∧ y.niceSize = x'.niceSize ∧ y.logSize = x'.logSize ∧
      y.nrUsed = x'.nrUsed ∧ y.nrTotal = x'.nrTotal ∧ y.nrCuckood = x'.nrCuckood ∧
      y.appliedSeq = x'.appliedSeq ∧ y.slots = x'.slots ∧ y.counters = x'.counters :=
  roundtrip_uncompressed sampleEnv 1 sample257 0 0 sample257
    (applyUpdates_unbuffered sampleEnv sample257 0 0 rfl rfl rfl) (by decide) (by decide)
    sample257_ok.1 sample257_ok.2

/-- Truncation at 4 of an estimator that holds key 1 and has batches buffered
under 2, 3, 4 and 6. -/
theorem bufferTruncate_applyUpdates_witness :
    ∃ m, applyUpdates sampleEnv 3
        (bufferTruncate sampleEnv
          { insertBatch sampleEnv tinyEstimator [1] with
            insertBuffers := [(2, [7]), (6, [8])], removalBuffers := [(3, [1]), (4, [9])] } 4) 4 =
      some (4,
        { insertBatch sampleEnv tinyEstimator [1] with
          nrTotal := 0, nrCuckood := 0, nrUsed := 0
          slots := List.replicate (2 * kSlotsPerBucket) 0
          counters := List.replicate (2 * kSlotsPerBucket) 0
          needToPersist := true
          memoryUsage := m
          insertBuffers := [(6, [8])]
          removalBuffers := []
          truncateBuffer := [] }) :=
  bufferTruncate_applyUpdates sampleEnv
    { insertBatch sampleEnv tinyEstimator [1] with
      insertBuffers := [(2, [7]), (6, [8])], removalBuffers := [(3, [1]), (4, [9])] }
    4 3 (by decide) (by decide) (by decide) (by decide) (by decide)

/-- The estimator of `2 ^ 32` buckets is what `deserialize` loads from the blob
that lays it out. -/
theorem hugeEstimator_loaded :
    (deserialize sampleEnv emptyEstimator (uncompressedLayout sampleEnv hugeEstimator 0 0)).2 =
      none ∧
    (deserialize sampleEnv emptyEstimator
      (uncompressedLayout sampleEnv hugeEstimator 0 0)).1.size = 2 ^ 32 := by
  have h := deserialize_layout sampleEnv emptyEstimator hugeEstimator 0 0 []
    (by simp [hugeEstimator]) (by simp [hugeEstimator]) (by simp [hugeEstimator])
    (by simp [hugeEstimator])
  rw [List.append_nil] at h
  rw [h]
  exact ⟨rfl, rfl⟩

/-! ## Further facts about the failing inputs -/

theorem construct_small (n fuel : Nat) (hn : n ≤ 512) (hfuel : 256 < fuel) :
    construct fuel n = some minimalEstimator := by
  obtain ⟨m, rfl⟩ : ∃ m, fuel = m + 1 := ⟨fuel - 1, by omega⟩
  have hr := resetLoop_full minimalEstimator.toFilter (m + 1) (by simp [minimalEstimator])
    (by simp [minimalEstimator]; omega) (by simp [minimalEstimator]) (by simp [minimalEstimator])
  have hloop : niceSizeLoop 256 (m + 1) 256 8 = some (256, 8) := by simp [niceSizeLoop]
  have hsz : (if u64 (n * 2) ≥ 1024 then u64 (n * 2) else 1024) / kSlotsPerBucket = 256 := by
    have h1 : u64 (n * 2) = n * 2 := Nat.mod_eq_of_lt (by omega)
    rw [h1]
    simp only [kSlotsPerBucket]
    split_ifs <;> omega
  have h1 : construct (m + 1) n = initializeDefault (m + 1) { emptyEstimator with size := 256 } := by
    simp only [construct, hsz]
  rw [h1, initializeDefault_eq (m + 1) _ 256 8 minimalEstimator hloop deriveSizesAndAlloc_minimal,
    hr]
  rfl

/-- The round trip fails for every requested size up to 512. -/
theorem roundtrip_fails_up_to_512 (env : Env) (n : Nat) (hn : n ≤ 512) :
    ∃ x blob x', construct 257 n = some x ∧ x.size = 256 ∧
      serialize env 1 x 0 SerializeFormat.UNCOMPRESSED = some (blob, x') ∧
      (deserialize env emptyEstimator blob).2 = some Failure.unserialize := by
  obtain ⟨blob, x', h1, h2⟩ := minimalEstimator_not_loaded env
  exact ⟨minimalEstimator, blob, x', construct_small n 257 hn (by norm_num), rfl, h1, h2⟩

theorem readAt_drop (bo : ByteOrder) (w : Nat) (bs : List Byte) (k off : Nat) :
    readAt bo w (bs.drop k) off = readAt bo w bs (k + off) := by
  simp [readAt, List.drop_drop, Nat.add_comm]

/-- The length field is not examined: two bodies of the same length that agree
behind their first 8 bytes are treated alike by `deserializeUncompressedBody`. -/
theorem deserializeUncompressedBody_ignores_length (env : Env) (e : Estimator)
    (b1 b2 : List Byte) (hlen : b1.length = b2.length) (h : b1.drop 8 = b2.drop 8) :
    deserializeUncompressedBody env e b1 = deserializeUncompressedBody env e b2 := by
  have r (k : Nat) : readAt env.byteOrder 8 b1 (8 + k) = readAt env.byteOrder 8 b2 (8 + k) := by
    rw [← readAt_drop, ← readAt_drop, h]
  have hd : b1.drop minRequiredSize = b2.drop minRequiredSize := by
    have e1 : b1.drop minRequiredSize = (b1.drop 8).drop 48 := by
      rw [List.drop_drop]; rfl
    have e2 : b2.drop minRequiredSize = (b2.drop 8).drop 48 := by
      rw [List.drop_drop]; rfl
    rw [e1, e2, h]
  have r8 := r 0
  have r16 := r 8
  have r24 := r 16
  have r32 := r 24
  have r40 := r 32
  have r48 := r 40
  simp only [Nat.reduceAdd] at r8 r16 r24 r32 r40 r48
  simp only [deserializeUncompressedBody, hlen, r8, r16, r24, r32, r40, r48, hd]

/-- A blob cut short inside the fingerprint data (the first 100 bytes of the blob
of the 257-bucket estimator): no exception is raised before the loading loop
runs past the end of the input. -/
theorem deserialize_cut_short :
    (deserialize sampleEnv emptyEstimator
      (List.take 100 (uncompressedLayout sampleEnv sample257 7 6225))).2 =
      some Failure.outOfBounds := by
  decide


/-! ## What the slot search leaves alone -/

theorem SameShape.refl (f : Filter) : SameShape f f :=
  ⟨rfl, rfl, rfl, rfl, rfl, rfl, rfl⟩

theorem SameShape.trans {f g h : Filter} (a : SameShape f g) (b : SameShape g h) :
    SameShape f h := by
  obtain ⟨a1, a2, a3, a4, a5, a6, a7⟩ := a
  obtain ⟨b1, b2, b3, b4, b5, b6, b7⟩ := b
  exact ⟨b1.trans a1, b2.trans a2, b3.trans a3, b4.trans a4, b5.trans a5, b6.trans a6,
    b7.trans a7⟩

theorem place_shape (f : Filter) (s fp cnt : Nat) : SameShape f (f.place s fp cnt) := by
  simp [SameShape, Filter.place]

theorem slotIncrease_shape (f : Filter) (s : Nat) : SameShape f (slotIncrease f s) := by
  unfold slotIncrease
  split <;> simp [SameShape]

theorem hashToPos_shape {f g : Filter} (h : SameShape f g) (hash : Nat) :
    hashToPos g hash = hashToPos f hash := by
  obtain ⟨h1, h2, h3, -⟩ := h
  simp [hashToPos, h1, h2, h3]

theorem relocate_shape (env : Env) (keep rounds : Nat) :
    ∀ (f : Filter) (pos fp cnt : Nat), SameShape f (relocate env keep rounds f pos fp cnt) := by
  induction rounds with
  | zero => intro f pos fp cnt; simp [relocate, SameShape]
  | succ n ih =>
    intro f pos fp cnt
    simp only [relocate]
    split
    · simp [SameShape, Filter.place]
    · refine SameShape.trans ?_ (ih _ _ _ _)
      simp [SameShape, Filter.place]

theorem relocate_nrTotal (env : Env) (keep rounds : Nat) :
    ∀ (f : Filter) (pos fp cnt : Nat),
      (relocate env keep rounds f pos fp cnt).nrTotal = f.nrTotal := by
  induction rounds with
  | zero => intro f pos fp cnt; simp [relocate]
  | succ n ih =>
    intro f pos fp cnt
    simp only [relocate]
    split
    · simp [Filter.place]
    · rw [ih]; simp [Filter.place]

theorem findSlotCuckoo_shape (env : Env) (f : Filter) (pos1 pos2 fp : Nat) :
    SameShape f (findSlotCuckoo env f pos1 pos2 fp).1 := by
  unfold findSlotCuckoo
  split
  · exact SameShape.refl f
  · split
    · exact SameShape.refl f
    · split
      · exact SameShape.refl f
      · split
        · exact SameShape.refl f
        · refine SameShape.trans ?_ (relocate_shape env _ _ _ _ _ _)
          simp [SameShape, Filter.place]

theorem findSlotCuckoo_nrTotal (env : Env) (f : Filter) (pos1 pos2 fp : Nat) :
    (findSlotCuckoo env f pos1 pos2 fp).1.nrTotal = f.nrTotal := by
  unfold findSlotCuckoo
  split
  · rfl
  · split
    · rfl
    · split
      · rfl
      · split
        · rfl
        · simp only []
          rw [relocate_nrTotal]; simp [Filter.place]

theorem insertKey_eq (env : Env) (f : Filter) (k : Key) :
    insertKey env f k =
      storeAt (findSlotCuckoo env f (pos1Of env f k) (pos2Of env f k) (env.keyToFingerprint k)).1
        (findSlotCuckoo env f (pos1Of env f k) (pos2Of env f k) (env.keyToFingerprint k)).2
        (env.keyToFingerprint k) := rfl

theorem storeAt_shape (g : Filter) (s fp : Nat) : SameShape g (storeAt g s fp) := by
  unfold storeAt
  by_cases h : slotIsEmpty g s = true
  · simp [h, SameShape, slotInit, Filter.place]
  · have := slotIncrease_shape g s
    simpa [h, SameShape] using this

theorem storeAt_nrTotal (g : Filter) (s fp : Nat) :
    (storeAt g s fp).nrTotal = u64 (g.nrTotal + 1) := by
  unfold storeAt
  by_cases h : slotIsEmpty g s = true
  · simp [h, slotInit, Filter.place]
  · have hn : (slotIncrease g s).nrTotal = g.nrTotal := by
      unfold slotIncrease
      split <;> rfl
    simp [h, hn]

theorem insertKey_shape (env : Env) (f : Filter) (k : Key) : SameShape f (insertKey env f k) := by
  rw [insertKey_eq]
  exact SameShape.trans (findSlotCuckoo_shape env f _ _ _) (storeAt_shape _ _ _)

theorem insertBatchStep_eq (env : Env) (f : Filter) (k : Key) :
    insertBatchStep env f k = insertKey env f k := rfl

theorem removeBatchStep_eq (env : Env) (f : Filter) (k : Key) :
    removeBatchStep env f k = (removeKey env f k).1 := by
  unfold removeBatchStep removeKey
  simp only []
  split
  · split <;> rfl
  · split <;> rfl

theorem removeKey_shape (env : Env) (f : Filter) (k : Key) :
    SameShape f (removeKey env f k).1 := by
  unfold removeKey
  simp only []
  split
  · split
    · simp [SameShape, slotDecrease]
    · simp [SameShape, slotDecrease, slotReset, Filter.place]
  · split <;> simp [SameShape]

theorem foldl_insert_shape (env : Env) (keys : List Key) :
    ∀ f : Filter, SameShape f (keys.foldl (insertBatchStep env) f) := by
  induction keys with
  | nil => intro f; exact SameShape.refl f
  | cons k ks ih =>
    intro f
    exact SameShape.trans (insertKey_shape env f k) (ih _)

theorem foldl_remove_shape (env : Env) (keys : List Key) :
    ∀ f : Filter, SameShape f (keys.foldl (removeBatchStep env) f) := by
  induction keys with
  | nil => intro f; exact SameShape.refl f
  | cons k ks ih =>
    intro f
    refine SameShape.trans ?_ (ih _)
    rw [removeBatchStep_eq]
    exact removeKey_shape env f k


/-! ## What applyUpdates leaves alone, and when it returns -/

theorem resetBucket_shape (f : Filter) (b : Nat) : SameShape f (resetBucket f b) := by
  rw [resetBucket_eq]
  simp [SameShape]

theorem resetLoop_shape (size : Nat) (fuel : Nat) :
    ∀ (b : Nat) (f g : Filter), resetLoop size fuel b f = some g → SameShape f g := by
  induction fuel with
  | zero => intro b f g h; simp [resetLoop] at h
  | succ n ih =>
    intro b f g h
    simp only [resetLoop] at h
    split at h
    · exact SameShape.trans (resetBucket_shape f b) (ih _ _ _ h)
    · cases h; exact SameShape.refl f

theorem clear_frame (fuel : Nat) (e e2 : Estimator) (h : clear fuel e = some e2) :
    SameShape e.toFilter e2.toFilter ∧ e2.appliedSeq = e.appliedSeq ∧
      e2.allocSize = e.allocSize ∧ e2.memoryUsage = e.memoryUsage ∧
      e2.insertBuffers = e.insertBuffers ∧ e2.removalBuffers = e.removalBuffers ∧
      e2.truncateBuffer = e.truncateBuffer := by
  simp only [clear] at h
  split at h
  · cases h
  · rename_i f hf
    cases h
    have := resetLoop_shape _ _ _ _ _ hf
    exact ⟨this, rfl, rfl, rfl, rfl, rfl, rfl⟩

theorem clear_returns (fuel : Nat) (e : Estimator) (hsize : e.size < 2 ^ 32)
    (hfuel : e.size < fuel) : ∃ e2, clear fuel e = some e2 := by
  obtain ⟨sl, ct, hres, -⟩ :=
    resetLoop_spec e.size hsize fuel 0
      { e.toFilter with nrTotal := 0, nrCuckood := 0, nrUsed := 0 } (Nat.zero_le _) (by omega)
  simp only [clear]
  rw [hres]
  exact ⟨_, rfl⟩

theorem scanBatch_rest_length (env : Env) (c ig : Nat) (l : List (Nat × List Key)) :
    ∀ ap mem, (scanBatch env c ig l ap mem).rest.length ≤ l.length ∧
      ((scanBatch env c ig l ap mem).batch ≠ [] →
        (scanBatch env c ig l ap mem).rest.length < l.length) := by
  induction l with
  | nil => intro ap mem; simp [scanBatch]
  | cons b rest ih =>
    intro ap mem
    obtain ⟨s, ks⟩ := b
    simp only [scanBatch]
    split
    · split
      · have := ih ap (u64 (mem + batchMemory env ks))
        simp only [List.length_cons]
        exact ⟨by omega, fun hne => by have := this.2 hne; omega⟩
      · simp
    · simp

theorem insertBatch_frame (env : Env) (e : Estimator) (keys : List Key) :
    SameShape e.toFilter (insertBatch env e keys).toFilter ∧
      (insertBatch env e keys).appliedSeq = e.appliedSeq ∧
      (insertBatch env e keys).allocSize = e.allocSize ∧
      (insertBatch env e keys).memoryUsage = e.memoryUsage := by
  refine ⟨?_, ?_, ?_, ?_⟩
  · rw [insertBatch_toFilter]; exact foldl_insert_shape env keys _
  all_goals (unfold insertBatch; split <;> rfl)

theorem removeBatch_frame (env : Env) (e : Estimator) (keys : List Key) :
    SameShape e.toFilter (removeBatch env e keys).toFilter ∧
      (removeBatch env e keys).appliedSeq = e.appliedSeq ∧
      (removeBatch env e keys).allocSize = e.allocSize ∧
      (removeBatch env e keys).memoryUsage = e.memoryUsage := by
  refine ⟨?_, ?_, ?_, ?_⟩
  · rw [removeBatch_toFilter]; exact foldl_remove_shape env keys _
  all_goals (unfold removeBatch; split <;> rfl)

theorem applyUpdatesLoop_frame (env : Env) (c cf : Nat) (fuel : Nat) :
    ∀ (e : Estimator) (ap ig a : Nat) (e2 : Estimator),
      applyUpdatesLoop env c cf fuel e ap ig = some (a, e2) →
      SameShape e.toFilter e2.toFilter ∧ e2.appliedSeq = e.appliedSeq ∧
        e2.allocSize = e.allocSize := by
  induction fuel with
  | zero => intro e ap ig a e2 h; simp [applyUpdatesLoop] at h
  | succ n ih =>
    intro e ap ig a e2 h
    simp only [applyUpdatesLoop] at h
    split at h
    · cases h
    · rename_i e1 he1
      have hfr : SameShape e.toFilter e1.toFilter ∧ e1.appliedSeq = e.appliedSeq ∧
          e1.allocSize = e.allocSize := by
        split at he1
        · have := clear_frame _ _ _ he1
          exact ⟨this.1, this.2.1, this.2.2.1⟩
        · cases he1
          exact ⟨SameShape.refl _, rfl, rfl⟩
      split at h
      · cases h; exact hfr
      · have := ih _ _ _ _ _ h
        have hi := insertBatch_frame env e1
          (scanBatch env c
            (scanTruncate env c e.truncateBuffer ig ap false 0).ignoreSeq e.insertBuffers
            (scanTruncate env c e.truncateBuffer ig ap false 0).appliedSeq
            (scanTruncate env c e.truncateBuffer ig ap false 0).memoryUsage).batch
        have hr := removeBatch_frame env (insertBatch env e1
          (scanBatch env c
            (scanTruncate env c e.truncateBuffer ig ap false 0).ignoreSeq e.insertBuffers
            (scanTruncate env c e.truncateBuffer ig ap false 0).appliedSeq
            (scanTruncate env c e.truncateBuffer ig ap false 0).memoryUsage).batch)
          (scanBatch env c
            (scanTruncate env c e.truncateBuffer ig ap false 0).ignoreSeq e.removalBuffers
            (scanBatch env c
              (scanTruncate env c e.truncateBuffer ig ap false 0).ignoreSeq e.insertBuffers
              (scanTruncate env c e.truncateBuffer ig ap false 0).appliedSeq
              (scanTruncate env c e.truncateBuffer ig ap false 0).memoryUsage).appliedSeq
            (scanBatch env c
              (scanTruncate env c e.truncateBuffer ig ap false 0).ignoreSeq e.insertBuffers
              (scanTruncate env c e.truncateBuffer ig ap false 0).appliedSeq
              (scanTruncate env c e.truncateBuffer ig ap false 0).memoryUsage).memoryUsage).batch
        refine ⟨?_, ?_, ?_⟩
        · exact SameShape.trans hfr.1 (SameShape.trans hi.1 (SameShape.trans hr.1 this.1))
        · rw [this.2.1, hr.2.1, hi.2.1, hfr.2.1]
        · rw [this.2.2, hr.2.2.1, hi.2.2.1, hfr.2.2]


theorem applyUpdatesLoop_returns (env : Env) (c cf : Nat) (fuel : Nat) :
    ∀ (e : Estimator) (ap ig : Nat), e.size < 2 ^ 32 → e.size < cf →
      e.insertBuffers.length + e.removalBuffers.length < fuel →
      ∃ r, applyUpdatesLoop env c cf fuel e ap ig = some r := by
  induction fuel with
  | zero => intro e ap ig _ _ h; omega
  | succ n ih =>
    intro e ap ig hsize hcf hfuel
    simp only [applyUpdatesLoop]
    generalize ht : scanTruncate env c e.truncateBuffer ig ap false 0 = t
    have hli := scanBatch_rest_length env c t.ignoreSeq e.insertBuffers t.appliedSeq t.memoryUsage
    generalize hi : scanBatch env c t.ignoreSeq e.insertBuffers t.appliedSeq t.memoryUsage = i
      at hli
    have hlr := scanBatch_rest_length env c t.ignoreSeq e.removalBuffers i.appliedSeq
      i.memoryUsage
    generalize hr : scanBatch env c t.ignoreSeq e.removalBuffers i.appliedSeq i.memoryUsage = r
      at hlr
    generalize he1 : decreaseMemoryUsage
        { e with truncateBuffer := t.rest, insertBuffers := i.rest, removalBuffers := r.rest }
        r.memoryUsage = e1
    have hsz1 : e1.size = e.size := by rw [← he1]; rfl
    have hib1 : e1.insertBuffers = i.rest := by rw [← he1]; rfl
    have hrb1 : e1.removalBuffers = r.rest := by rw [← he1]; rfl
    have hex : ∃ e2, (if t.foundTruncate then clear cf e1 else some e1) = some e2 ∧
        e2.size = e.size ∧ e2.insertBuffers = i.rest ∧ e2.removalBuffers = r.rest := by
      by_cases hf : t.foundTruncate = true
      · obtain ⟨e2, h2⟩ := clear_returns cf e1 (by omega) (by omega)
        have hfr := clear_frame _ _ _ h2
        refine ⟨e2, by simp [hf, h2], ?_, ?_, ?_⟩
        · rw [hfr.1.1, hsz1]
        · rw [hfr.2.2.2.2.1, hib1]
        · rw [hfr.2.2.2.2.2.1, hrb1]
      · exact ⟨e1, by simp [hf], hsz1, hib1, hrb1⟩
    obtain ⟨e2, h2, hsz2, hib2, hrb2⟩ := hex
    rw [h2]
    simp only []
    by_cases hb : (i.batch.isEmpty && r.batch.isEmpty) = true
    · simp only [hb, if_true]
      exact ⟨_, rfl⟩
    · simp only [hb]
      have hne : i.batch ≠ [] ∨ r.batch ≠ [] := by
        by_contra hcon
        push_neg at hcon
        apply hb
        simp [hcon.1, hcon.2]
      have hfi := insertBatch_frame env e2 i.batch
      have hbi := insertBatch_buffers env e2 i.batch
      have hfr := removeBatch_frame env (insertBatch env e2 i.batch) r.batch
      have hbr := removeBatch_buffers env (insertBatch env e2 i.batch) r.batch
      apply ih
      · rw [hfr.1.1, hfi.1.1, hsz2]; exact hsize
      · rw [hfr.1.1, hfi.1.1, hsz2]; exact hcf
      · rw [hbr.1, hbr.2.1, hbi.1, hbi.2.1, hib2, hrb2]
        rcases hne with h | h
        · have := hli.2 h; omega
        · have := hlr.2 h; omega

theorem applyUpdates_returns (env : Env) (fuel : Nat) (e : Estimator) (c : Nat)
    (hsize : e.size < 2 ^ 32) (hfuel : e.size < fuel)
    (hbuf : e.insertBuffers.length + e.removalBuffers.length < fuel) :
    ∃ a e2, applyUpdates env fuel e c = some (a, e2) ∧ e2.appliedSeq = e.appliedSeq := by
  obtain ⟨r, hr⟩ := applyUpdatesLoop_returns env c fuel fuel e 0 0 hsize hfuel hbuf
  obtain ⟨a, e2⟩ := r
  exact ⟨a, e2, hr, (applyUpdatesLoop_frame env c fuel fuel e 0 0 a e2 hr).2.1⟩


/-! ## The uncompressed layout -/

/-- C7 (amended). Uncompressed layout: for every state whose table holds
`size * kSlotsPerBucket` fingerprints and counters and whose byte counts fit 64
bits, whenever the call of `applyUpdates` inside `serialize(.., UNCOMPRESSED)`
returns, `serialize` returns a blob that is exactly the concatenation of 8 bytes
`appliedSeq`, the format byte UNCOMPRESSED, 8 bytes length, 8 bytes each for
`size`, `nrUsed`, `nrCuckood`, `nrTotal`, `niceSize`, `logSize`, the
fingerprints as 2-byte values in slot order and the counters as 4-byte values
in slot order, all taken from the state the call leaves; its length is
`8 + 1 + 8 + 48 + size * kSlotsPerBucket * 2 + size * kSlotsPerBucket * 4`. On a
table of fewer than `2 ^ 32` buckets `serialize` returns. -/
theorem serialize_uncompressed_layout (env : Env) (fuel : Nat) (e : Estimator)
    (maxCommitSeq : Nat)
    (hs : e.slots.length = e.size * kSlotsPerBucket)
    (hc : e.counters.length = e.size * kSlotsPerBucket)
    (hsize : e.size * 24 + 64 < 2 ^ 64) :
    (∀ a e1, applyUpdates env fuel e maxCommitSeq = some (a, e1) →
      ∃ blob e', serialize env fuel e maxCommitSeq SerializeFormat.UNCOMPRESSED =
          some (blob, e') ∧
        e'.toFilter = e1.toFilter ∧ e'.appliedSeq = max a e1.appliedSeq ∧
        blob =
            uintToPersistent env.byteOrder 8 e'.appliedSeq
              ++ [env.tag SerializeFormat.UNCOMPRESSED]
              ++ uintToPersistent env.byteOrder 8
                (1 + 8 + 48 + e'.size * kSlotsPerBucket * 2 + e'.size * kSlotsPerBucket * 4)
              ++ uintToPersistent env.byteOrder 8 e'.size
              ++ uintToPersistent env.byteOrder 8 e'.nrUsed
              ++ uintToPersistent env.byteOrder 8 e'.nrCuckood
              ++ uintToPersistent env.byteOrder 8 e'.nrTotal
              ++ uintToPersistent env.byteOrder 8 e'.niceSize
              ++ uintToPersistent env.byteOrder 8 e'.logSize
              ++ e'.slots.flatMap (uintToPersistent env.byteOrder 2)
              ++ e'.counters.flatMap (uintToPersistent env.byteOrder 4) ∧
        blob.length =
          8 + 1 + 8 + 48 + e'.size * kSlotsPerBucket * 2 + e'.size * kSlotsPerBucket * 4 ∧
        e'.size = e.size) ∧
    (e.size < 2 ^ 32 → e.size < fuel →
      e.insertBuffers.length + e.removalBuffers.length < fuel →
      ∃ blob e', serialize env fuel e maxCommitSeq SerializeFormat.UNCOMPRESSED =
          some (blob, e') ∧
        blob.length =
          8 + 1 + 8 + 48 + e.size * kSlotsPerBucket * 2 + e.size * kSlotsPerBucket * 4) := by
  have key : ∀ a e1, applyUpdates env fuel e maxCommitSeq = some (a, e1) →
      e1.slots.length = e1.size * kSlotsPerBucket ∧
        e1.counters.length = e1.size * kSlotsPerBucket ∧ e1.size = e.size := by
    intro a e1 happ
    obtain ⟨hsh, -, -⟩ := applyUpdatesLoop_frame env maxCommitSeq fuel fuel e 0 0 a e1 happ
    obtain ⟨h1, -, -, -, -, h6, h7⟩ := hsh
    exact ⟨by rw [h6, h1, hs], by rw [h7, h1, hc], h1⟩
  constructor
  · intro a e1 happ
    obtain ⟨hs1, hc1, hsz⟩ := key a e1 happ
    exact ⟨_, _, serialize_of_applyUpdates env fuel e maxCommitSeq a e1 happ hs1 hc1
        (by rw [hsz]; exact hsize), rfl, rfl, rfl,
      uncompressedLayout_length env _ _ _ hs1 hc1, hsz⟩
  · intro h32 hfuel hbuf
    obtain ⟨a, e1, happ, -⟩ := applyUpdates_returns env fuel e maxCommitSeq h32 hfuel hbuf
    obtain ⟨hs1, hc1, hsz⟩ := key a e1 happ
    refine ⟨_, _, serialize_of_applyUpdates env fuel e maxCommitSeq a e1 happ hs1 hc1
        (by rw [hsz]; exact hsize), ?_⟩
    rw [uncompressedLayout_length env _ _ _ hs1 hc1, hsz]

set_option maxRecDepth 100000 in
/-- C7, at a concrete input: the blob of the estimator constructed for a
requested size of 0 (256 buckets), of `8 + 1 + 8 + 48 + 2048 + 4096` bytes. -/
theorem serialize_uncompressed_layout_witness :
    (minimalEstimator.slots.length = minimalEstimator.size * kSlotsPerBucket ∧
      minimalEstimator.counters.length = minimalEstimator.size * kSlotsPerBucket ∧
      minimalEstimator.size * 24 + 64 < 2 ^ 64) ∧
    ∃ blob e', serialize sampleEnv 257 minimalEstimator 5 SerializeFormat.UNCOMPRESSED =
        some (blob, e') ∧
      blob.length =
        8 + 1 + 8 + 48 + minimalEstimator.size * kSlotsPerBucket * 2 +
          minimalEstimator.size * kSlotsPerBucket * 4 :=
  ⟨⟨by decide, by decide, by decide⟩,
    (serialize_uncompressed_layout sampleEnv 257 minimalEstimator 5 (by decide) (by decide)
      (by decide)).2 (by decide) (by decide) (by decide)⟩

set_option maxRecDepth 100000 in
/-- C7 fails as stated: the 66-byte blob whose header declares `2 ^ 61` buckets
is loaded without error (the byte counts of the table wrap to 0, so no slot is
read); `serialize(.., UNCOMPRESSED)` of the loaded state returns 65 bytes, the
header alone, where the claim has `65 + 2 ^ 61 * 4 * 2 + 2 ^ 61 * 4 * 4`. -/
theorem serialize_wrapped_table :
    wrappedBlob.length = 66 ∧
      deserialize sampleEnv emptyEstimator wrappedBlob = (wrappedEstimator, none) ∧
      wrappedEstimator.size = 2 ^ 61 ∧
      ∃ blob e', serialize sampleEnv 1 wrappedEstimator 0 SerializeFormat.UNCOMPRESSED =
          some (blob, e') ∧
        e'.size = 2 ^ 61 ∧ blob.length = 65 ∧
        blob.length ≠
          8 + 1 + 8 + 48 + e'.size * kSlotsPerBucket * 2 + e'.size * kSlotsPerBucket * 4 := by
  refine ⟨by decide, by decide, rfl, ?_⟩
  have h : serialize sampleEnv 1 wrappedEstimator 0 SerializeFormat.UNCOMPRESSED =
      some ((serialize sampleEnv 1 wrappedEstimator 0 SerializeFormat.UNCOMPRESSED).get
          (by decide)) := by simp
  refine ⟨_, _, h, by decide, by decide, by decide⟩

/-! ## The format test and the stored watermark -/

/-- C11: on an input of more than 9 bytes `isFormatSupported` answers, and the
answer is `true` exactly when the byte at offset 8 is the `UNCOMPRESSED` or the
`COMPRESSED` tag; two such inputs that agree on the byte at offset 8 get the
same answer, whatever their other bytes and lengths. -/
theorem isFormatSupported_tag_only (env : Env) (a b : List Byte)
    (ha : 9 < a.length) (hb : 9 < b.length) :
    isFormatSupported env a =
        some (decide (a.getD 8 0 = env.uncompressedTag ∨ a.getD 8 0 = env.compressedTag)) ∧
      (a.getD 8 0 = b.getD 8 0 → isFormatSupported env a = isFormatSupported env b) := by
  have h1 : ¬ a.length < 9 := by omega
  have h2 : ¬ b.length < 9 := by omega
  refine ⟨?_, fun h => ?_⟩
  · simp [isFormatSupported, h1]
  · simp only [isFormatSupported, h1, h2, if_false, h]

/-- C11, at two blobs of different lengths that share the tag byte only. -/
theorem isFormatSupported_tag_only_witness :
    (9 < [(1 : Byte), 2, 3, 4, 5, 6, 7, 8, 49, 0].length ∧
      9 < [(0 : Byte), 0, 0, 0, 0, 0, 0, 0, 49, 7, 7, 7].length) ∧
    (isFormatSupported sampleEnv [1, 2, 3, 4, 5, 6, 7, 8, 49, 0] =
        some (decide (([1, 2, 3, 4, 5, 6, 7, 8, 49, 0] : List Byte).getD 8 0 =
            sampleEnv.uncompressedTag ∨
          ([1, 2, 3, 4, 5, 6, 7, 8, 49, 0] : List Byte).getD 8 0 = sampleEnv.compressedTag)) ∧
      (([1, 2, 3, 4, 5, 6, 7, 8, 49, 0] : List Byte).getD 8 0 =
          ([0, 0, 0, 0, 0, 0, 0, 0, 49, 7, 7, 7] : List Byte).getD 8 0 →
        isFormatSupported sampleEnv [1, 2, 3, 4, 5, 6, 7, 8, 49, 0] =
          isFormatSupported sampleEnv [0, 0, 0, 0, 0, 0, 0, 0, 49, 7, 7, 7])) :=
  ⟨⟨by decide, by decide⟩,
    isFormatSupported_tag_only sampleEnv [1, 2, 3, 4, 5, 6, 7, 8, 49, 0]
      [0, 0, 0, 0, 0, 0, 0, 0, 49, 7, 7, 7] (by decide) (by decide)⟩

theorem emplaceBatch_length_le (multi : Bool) (l : List (Nat × List Key)) (seq : Nat)
    (keys : List Key) : (emplaceBatch multi l seq keys).length ≤ l.length + 1 := by
  induction l with
  | nil => simp [emplaceBatch]
  | cons b rest ih =>
    obtain ⟨s, ks⟩ := b
    simp only [emplaceBatch]
    split_ifs <;> simp only [List.length_cons] <;> omega

theorem bufferUpdates_frame (env : Env) (e : Estimator) (seq : Nat) (inserts removals : List Key) :
    (bufferUpdates env e seq inserts removals).toFilter = e.toFilter ∧
      (bufferUpdates env e seq inserts removals).appliedSeq = e.appliedSeq ∧
      (bufferUpdates env e seq inserts removals).insertBuffers.length ≤
        e.insertBuffers.length + 1 ∧
      (bufferUpdates env e seq inserts removals).removalBuffers.length ≤
        e.removalBuffers.length + 1 := by
  have h1 := emplaceBatch_length_le env.multiBuffers e.insertBuffers seq inserts
  have h2 := emplaceBatch_length_le env.multiBuffers e.removalBuffers seq removals
  unfold bufferUpdates
  by_cases hi : inserts.isEmpty = true <;> by_cases hr : removals.isEmpty = true <;>
    simp [hi, hr, increaseMemoryUsage, h1, h2]

/-- C12, as the code has it: on an estimator of fewer than `2 ^ 32` buckets
`applyUpdates(c)` returns and leaves the stored `appliedSeq` as it was (the
watermark is only returned; it is `serialize` that stores it); so after
`bufferUpdates(S, ...)` and `applyUpdates(S)` the stored `appliedSeq` is still
the previous one. -/
theorem applyUpdates_keeps_stored_appliedSeq (env : Env) (fuel : Nat) (e : Estimator)
    (c S : Nat) (inserts removals : List Key)
    (hsize : e.size < 2 ^ 32) (hfuel : e.size < fuel)
    (hbuf : e.insertBuffers.length + e.removalBuffers.length + 2 < fuel) :
    (∃ a e2, applyUpdates env fuel e c = some (a, e2) ∧ e2.appliedSeq = e.appliedSeq) ∧
      (∃ a e2, applyUpdates env fuel (bufferUpdates env e S inserts removals) S = some (a, e2) ∧
        e2.appliedSeq = e.appliedSeq) := by
  have hb := bufferUpdates_frame env e S inserts removals
  have hsz : (bufferUpdates env e S inserts removals).size = e.size := by rw [hb.1]
  refine ⟨applyUpdates_returns env fuel e c hsize hfuel (by omega), ?_⟩
  obtain ⟨a, e2, h, h2⟩ := applyUpdates_returns env fuel (bufferUpdates env e S inserts removals) S
    (by rw [hsz]; exact hsize) (by rw [hsz]; exact hfuel) (by omega)
  exact ⟨a, e2, h, by rw [h2, hb.2.1]⟩

/-- C12, as the code has it, at a concrete input: one key buffered under
sequence number 5 on the two-bucket estimator. -/
theorem applyUpdates_keeps_stored_appliedSeq_witness :
    (tinyEstimator.size < 2 ^ 32 ∧ tinyEstimator.size < 4 ∧
      tinyEstimator.insertBuffers.length + tinyEstimator.removalBuffers.length + 2 < 4) ∧
    ((∃ a e2, applyUpdates sampleEnv 4 tinyEstimator 5 = some (a, e2) ∧
        e2.appliedSeq = tinyEstimator.appliedSeq) ∧
      (∃ a e2, applyUpdates sampleEnv 4 (bufferUpdates sampleEnv tinyEstimator 5 [1] []) 5 =
          some (a, e2) ∧
        e2.appliedSeq = tinyEstimator.appliedSeq)) :=
  ⟨by decide,
    applyUpdates_keeps_stored_appliedSeq sampleEnv 4 tinyEstimator 5 5 [1] [] (by decide)
      (by decide) (by decide)⟩

/-- C12 fails as stated: after `bufferUpdates(5, [1], [])` and `applyUpdates(5)`
on an estimator whose stored `appliedSeq` is 0, the call returns 5 and the key
is in the filter, but the stored `appliedSeq` is still 0, not `max 0 5`. -/
theorem applyUpdates_does_not_store_watermark :
    (applyUpdates sampleEnv 4 (bufferUpdates sampleEnv tinyEstimator 5 [1] []) 5).map
        (fun r => (r.1, r.2.appliedSeq, r.2.nrTotal)) = some (5, 0, 1) ∧
      (bufferUpdates sampleEnv tinyEstimator 5 [1] []).appliedSeq = 0 ∧
      (0 : Nat) ≠ max 0 5 := by
  decide


theorem applyUpdates_appliedSeq (env : Env) (fuel : Nat) (e : Estimator) (c a : Nat)
    (e1 : Estimator) (h : applyUpdates env fuel e c = some (a, e1)) :
    e1.appliedSeq = e.appliedSeq :=
  (applyUpdatesLoop_frame env c fuel fuel e 0 0 a e1 h).2.1

theorem take_8_uintToPersistent (bo : ByteOrder) (v : Nat) (rest : List Byte) :
    (uintToPersistent bo 8 v ++ rest).take 8 = uintToPersistent bo 8 v := by
  have := List.take_left (uintToPersistent bo 8 v) rest
  rw [uintToPersistent_length] at this
  exact this

/-- C13: when `applyUpdates(maxCommitSeq)` returns `a`, `serialize` returns a
blob and leaves as stored `appliedSeq` the maximum of the previous value and
`a`, which is not below the previous value; the first 8 bytes of the blob are
the encoding of that maximum, and decode to it when it fits 64 bits. -/
theorem serialize_appliedSeq_monotone (env : Env) (fuel : Nat) (e : Estimator)
    (maxCommitSeq : Nat) (format : SerializeFormat) (a : Nat) (e1 : Estimator)
    (happ : applyUpdates env fuel e maxCommitSeq = some (a, e1)) :
    ∃ blob e2, serialize env fuel e maxCommitSeq format = some (blob, e2) ∧
      e2.appliedSeq = max e.appliedSeq a ∧ e.appliedSeq ≤ e2.appliedSeq ∧
      blob.take 8 = uintToPersistent env.byteOrder 8 e2.appliedSeq ∧
      (e2.appliedSeq < 2 ^ 64 → readAt env.byteOrder 8 blob 0 = e2.appliedSeq) := by
  have hseq := applyUpdates_appliedSeq env fuel e maxCommitSeq a e1 happ
  rw [serialize_eq, happ]
  simp only [Option.map_some']
  refine ⟨_, _, rfl, ?_, ?_, ?_, ?_⟩
  · simp only [hseq]; exact max_comm _ _
  · simp only [hseq]; exact le_max_right _ _
  · simp only [List.append_assoc]
    exact take_8_uintToPersistent _ _ _
  · intro hlt
    simp only [List.append_assoc]
    rw [readAt_zero_uint64]
    exact Nat.mod_eq_of_lt hlt

/-- C13, at a concrete input: a batch buffered under sequence number 5 on an
estimator whose stored `appliedSeq` is 0, serialized up to 7. -/
theorem serialize_appliedSeq_monotone_witness :
    ∃ blob e2, serialize sampleEnv 4 (bufferUpdates sampleEnv tinyEstimator 5 [1] []) 7
        SerializeFormat.COMPRESSED = some (blob, e2) ∧
      e2.appliedSeq = max (bufferUpdates sampleEnv tinyEstimator 5 [1] []).appliedSeq 5 ∧
      (bufferUpdates sampleEnv tinyEstimator 5 [1] []).appliedSeq ≤ e2.appliedSeq ∧
      blob.take 8 = uintToPersistent sampleEnv.byteOrder 8 e2.appliedSeq ∧
      (e2.appliedSeq < 2 ^ 64 → readAt sampleEnv.byteOrder 8 blob 0 = e2.appliedSeq) :=
  serialize_appliedSeq_monotone sampleEnv 4 (bufferUpdates sampleEnv tinyEstimator 5 [1] []) 7
    SerializeFormat.COMPRESSED 5
    (removeBatch sampleEnv (insertBatch sampleEnv
      { tinyEstimator with needToPersist := true, memoryUsage := 112 } [1]) [])
    (by decide)


/-! ## clear -/

/-- On an estimator of fewer than `2 ^ 32` buckets `clear()` returns; afterwards
every slot of every bucket is empty with counter 0, the three statistics are 0,
and the geometry, the allocation size, the memory usage, the stored
`appliedSeq` and the three buffers are as before. -/
theorem clear_resets (e : Estimator) (fuel : Nat) (hsize : e.size < 2 ^ 32)
    (hfuel : e.size < fuel) :
    ∃ e2, clear fuel e = some e2 ∧
      (∀ b i, b < e.size → i < kSlotsPerBucket →
        e2.fingerprintAt (findSlot b i) = 0 ∧ e2.counterAt (findSlot b i) = 0) ∧
      e2.nrUsed = 0 ∧ e2.nrCuckood = 0 ∧ e2.nrTotal = 0 ∧
      e2.size = e.size ∧ e2.niceSize = e.niceSize ∧ e2.logSize = e.logSize ∧
      e2.slots.length = e.slots.length ∧ e2.counters.length = e.counters.length ∧
      e2.allocSize = e.allocSize ∧ e2.memoryUsage = e.memoryUsage ∧
      e2.appliedSeq = e.appliedSeq ∧ e2.insertBuffers = e.insertBuffers ∧
      e2.removalBuffers = e.removalBuffers ∧ e2.truncateBuffer = e.truncateBuffer := by
  obtain ⟨sl, ct, hres, hl1, hl2, hs, hc⟩ :=
    resetLoop_spec e.size hsize fuel 0
      { e.toFilter with nrTotal := 0, nrCuckood := 0, nrUsed := 0 } (Nat.zero_le _) (by omega)
  simp only [clear]
  rw [hres]
  refine ⟨_, rfl, ?_, rfl, rfl, rfl, rfl, rfl, rfl, hl1, hl2, rfl, rfl, rfl, rfl, rfl, rfl⟩
  intro b i hb hi
  have hlt : findSlot b i < e.size * 4 := by
    simp only [findSlot, kSlotsPerBucket] at hi ⊢
    omega
  constructor
  · show sl.getD (findSlot b i) 0 = 0
    rw [hs]; simp [hlt]
  · show ct.getD (findSlot b i) 0 = 0
    rw [hc]; simp [hlt]

/-- C20 fails on an estimator with `2 ^ 32` buckets: `clear()` does not return,
whatever the fuel, because the 32-bit bucket index wraps to 0 before it can
reach `_size`; there is no state after the call. -/
theorem clear_huge_never_returns (fuel : Nat) : clear fuel hugeEstimator = none :=
  clear_diverges hugeEstimator fuel (Nat.le_refl _)


/-! ## Double-precision arithmetic -/

theorem floorLog2Aux_spec (fuel : Nat) :
    ∀ n, n ≠ 0 → n < 2 ^ fuel →
      2 ^ floorLog2Aux fuel n ≤ n ∧ n < 2 ^ (floorLog2Aux fuel n + 1) := by
  induction fuel with
  | zero => intro n h0 h; simp at h; omega
  | succ f ih =>
    intro n h0 h
    simp only [floorLog2Aux]
    split
    · simp; omega
    · rename_i h2
      have hlt : n / 2 < 2 ^ f := by
        rw [pow_succ] at h
        omega
      obtain ⟨h1, h3⟩ := ih (n / 2) (by omega) hlt
      rw [pow_succ, pow_succ]
      rw [pow_succ] at h3
      constructor <;> omega

theorem floorLog2_spec (n : Nat) (h0 : n ≠ 0) :
    2 ^ floorLog2 n ≤ n ∧ n < 2 ^ (floorLog2 n + 1) :=
  floorLog2Aux_spec n n h0 (Nat.lt_two_pow n)

theorem floorLog2_unique (n L : Nat) (h1 : 2 ^ L ≤ n) (h2 : n < 2 ^ (L + 1)) :
    floorLog2 n = L := by
  have h0 : n ≠ 0 := by
    have : 0 < 2 ^ L := Nat.pow_pos (by norm_num)
    omega
  obtain ⟨h3, h4⟩ := floorLog2_spec n h0
  have ha : floorLog2 n < L + 1 :=
    (Nat.pow_lt_pow_iff_right (by norm_num : 1 < 2)).mp (lt_of_le_of_lt h3 h2)
  have hb : L < floorLog2 n + 1 :=
    (Nat.pow_lt_pow_iff_right (by norm_num : 1 < 2)).mp (lt_of_le_of_lt h1 h4)
  omega

theorem floorLog2_zero : floorLog2 0 = 0 := by decide

theorem floorLog2_pow (k : Nat) : floorLog2 (2 ^ k) = k :=
  floorLog2_unique _ k (le_refl _) (Nat.pow_lt_pow_right (by norm_num) (Nat.lt_succ_self k))

theorem floorLog2_mono (u t : Nat) (hu : u ≠ 0) (hut : u ≤ t) :
    floorLog2 u ≤ floorLog2 t := by
  obtain ⟨h1, -⟩ := floorLog2_spec u hu
  obtain ⟨-, h4⟩ := floorLog2_spec t (by omega)
  have : floorLog2 u < floorLog2 t + 1 :=
    (Nat.pow_lt_pow_iff_right (by norm_num : 1 < 2)).mp (by omega)
  omega

theorem le_roundHalfEven (n d : Nat) : n / d ≤ roundHalfEven n d := by
  unfold roundHalfEven
  simp only []
  split
  · exact le_refl _
  · split
    · omega
    · split <;> omega

theorem roundHalfEven_le (n d : Nat) : roundHalfEven n d ≤ n / d + 1 := by
  unfold roundHalfEven
  simp only []
  split
  · omega
  · split
    · omega
    · split <;> omega

theorem roundHalfEven_exact (m d : Nat) (hd : 0 < d) : roundHalfEven (m * d) d = m := by
  unfold roundHalfEven
  simp only [Nat.mul_mod_left, Nat.mul_div_cancel _ hd]
  rw [if_pos (by omega)]

theorem roundHalfEven_mono (n n' d : Nat) (h : n ≤ n') :
    roundHalfEven n d ≤ roundHalfEven n' d := by
  by_cases hd : d = 0
  · subst hd
    simp only [roundHalfEven, Nat.div_zero, Nat.mod_zero]
    split_ifs <;> omega
  have hd0 : 0 < d := Nat.pos_of_ne_zero hd
  have hq : n / d ≤ n' / d := Nat.div_le_div_right h
  by_cases hqq : n / d = n' / d
  · have hr : n % d ≤ n' % d := by
      have e1 := Nat.div_add_mod n d
      have e2 := Nat.div_add_mod n' d
      rw [hqq] at e1
      omega
    unfold roundHalfEven
    simp only [hqq]
    split_ifs <;> omega
  · calc roundHalfEven n d ≤ n / d + 1 := roundHalfEven_le n d
      _ ≤ n' / d := by omega
      _ ≤ roundHalfEven n' d := le_roundHalfEven n' d

theorem roundHalfEven_err (n d : Nat) (hd : 0 < d) :
    2 * (roundHalfEven n d * d) ≤ 2 * n + d ∧ 2 * n ≤ 2 * (roundHalfEven n d * d) + d := by
  have e1 := Nat.div_add_mod n d
  have hr := Nat.mod_lt n hd
  have hc : d * (n / d) = n / d * d := Nat.mul_comm _ _
  have hs : (n / d + 1) * d = n / d * d + d := by ring
  unfold roundHalfEven
  simp only []
  split
  · constructor <;> omega
  · split
    · rw [hs]; constructor <;> omega
    · split
      · constructor <;> omega
      · rw [hs]; constructor <;> omega

theorem roundHalfEven_one (n : Nat) : roundHalfEven n 1 = n := by
  have := roundHalfEven_exact n 1 (by norm_num)
  rwa [Nat.mul_one] at this

theorem toDouble_of_lt (n : Nat) (h : n < 2 ^ 53) : toDouble n = n := by
  have hs : floorLog2 n - 52 = 0 := by
    by_cases h0 : n = 0
    · subst h0; rfl
    · obtain ⟨h1, -⟩ := floorLog2_spec n h0
      have : floorLog2 n < 53 :=
        (Nat.pow_lt_pow_iff_right (by norm_num : 1 < 2)).mp (lt_of_le_of_lt h1 h)
      omega
  unfold toDouble
  simp only [hs, pow_zero, roundHalfEven_one, Nat.mul_one]

/-- Scaling by `2 ^ s` with `s ≤ L`: a number in `[2 ^ L, 2 ^ (L + 1))` is
rounded to a multiple of `2 ^ s` in `[2 ^ L, 2 ^ (L + 1)]`. -/
theorem round_scaled_bounds (n L s : Nat) (hs : s ≤ L) (h1 : 2 ^ L ≤ n) (h2 : n < 2 ^ (L + 1)) :
    2 ^ L ≤ roundHalfEven n (2 ^ s) * 2 ^ s ∧ roundHalfEven n (2 ^ s) * 2 ^ s ≤ 2 ^ (L + 1) := by
  have hpos : 0 < 2 ^ s := Nat.pow_pos (by norm_num)
  have e1 : 2 ^ L = 2 ^ (L - s) * 2 ^ s := by rw [← pow_add]; congr 1; omega
  have e2 : 2 ^ (L + 1) = 2 ^ (L + 1 - s) * 2 ^ s := by rw [← pow_add]; congr 1; omega
  constructor
  · have hq : 2 ^ (L - s) ≤ n / 2 ^ s := by
      rw [Nat.le_div_iff_mul_le hpos, ← e1]
      exact h1
    calc 2 ^ L = 2 ^ (L - s) * 2 ^ s := e1
      _ ≤ roundHalfEven n (2 ^ s) * 2 ^ s :=
        Nat.mul_le_mul_right _ (le_trans hq (le_roundHalfEven _ _))
  · have hq : n / 2 ^ s < 2 ^ (L + 1 - s) := by
      rw [Nat.div_lt_iff_lt_mul hpos, ← e2]
      exact h2
    calc roundHalfEven n (2 ^ s) * 2 ^ s ≤ 2 ^ (L + 1 - s) * 2 ^ s :=
        Nat.mul_le_mul_right _ (le_trans (roundHalfEven_le _ _) hq)
      _ = 2 ^ (L + 1) := e2.symm

theorem toDouble_bounds (n : Nat) (h0 : n ≠ 0) :
    2 ^ floorLog2 n ≤ toDouble n ∧ toDouble n ≤ 2 ^ (floorLog2 n + 1) := by
  obtain ⟨h1, h2⟩ := floorLog2_spec n h0
  exact round_scaled_bounds n (floorLog2 n) (floorLog2 n - 52) (Nat.sub_le _ _) h1 h2

theorem toDouble_zero : toDouble 0 = 0 := by decide

theorem toDouble_pos (n : Nat) (h0 : n ≠ 0) : 0 < toDouble n :=
  lt_of_lt_of_le (Nat.pow_pos (by norm_num)) (toDouble_bounds n h0).1

theorem toDouble_mono (u t : Nat) (hut : u ≤ t) :
    toDouble u ≤ toDouble t := by
  by_cases hu : u = 0
  · subst hu
    rw [toDouble_zero]
    exact Nat.zero_le _
  have ht0 : t ≠ 0 := by omega
  have hL := floorLog2_mono u t hu hut
  by_cases hLL : floorLog2 u = floorLog2 t
  · unfold toDouble
    simp only [hLL]
    exact Nat.mul_le_mul_right _ (roundHalfEven_mono _ _ _ hut)
  · calc toDouble u ≤ 2 ^ (floorLog2 u + 1) := (toDouble_bounds u hu).2
      _ ≤ 2 ^ floorLog2 t := Nat.pow_le_pow_right (by norm_num) (by omega)
      _ ≤ toDouble t := (toDouble_bounds t ht0).1

theorem toDouble_pow (k : Nat) : toDouble (2 ^ k) = 2 ^ k := by
  unfold toDouble
  simp only [floorLog2_pow k]
  by_cases hk : k ≤ 52
  · have : k - 52 = 0 := by omega
    simp only [this, pow_zero, roundHalfEven_one, Nat.mul_one]
  · have e : 2 ^ k = 2 ^ 52 * 2 ^ (k - 52) := by rw [← pow_add]; congr 1; omega
    have hpos : 0 < 2 ^ (k - 52) := Nat.pow_pos (by norm_num)
    conv_lhs => rw [e, roundHalfEven_exact _ _ hpos]
    exact e.symm

theorem toDouble_le (n : Nat) (h : n < 2 ^ 64) : toDouble n ≤ 2 ^ 64 := by
  have := toDouble_mono n (2 ^ 64 - 1) (by omega)
  have h2 : toDouble (2 ^ 64 - 1) = 2 ^ 64 := by decide
  omega

theorem divDouble_zero (b : Nat) : divDouble 0 b = 0 := by
  unfold divDouble
  simp only [Nat.zero_mul, Nat.zero_div, floorLog2_zero, pow_zero, Nat.mul_one]
  have : roundHalfEven 0 b = 0 := by
    unfold roundHalfEven
    simp only [Nat.zero_div, Nat.zero_mod]
    split_ifs <;> omega
  simp [this]

theorem divDouble_self (a : Nat) (ha : 0 < a) : divDouble a a = 1 := by
  unfold divDouble
  have hx : a * 2 ^ 117 / a = 2 ^ 117 := Nat.mul_div_cancel_left _ ha
  have hl : floorLog2 (2 ^ 117) - 52 = 65 := by rw [floorLog2_pow 117]
  have hm : roundHalfEven (a * 2 ^ 117) (a * 2 ^ 65) = 2 ^ 52 := by
    have e : a * 2 ^ 117 = 2 ^ 52 * (a * 2 ^ 65) := by ring
    rw [e, roundHalfEven_exact _ _ (Nat.mul_pos ha (Nat.pow_pos (by norm_num)))]
  simp only [hx, hl, hm]
  norm_num

theorem divDouble_nonneg (a b : Nat) : 0 ≤ divDouble a b := by
  unfold divDouble
  positivity

theorem divDouble_le_one (a b : Nat) (hab : a ≤ b) : divDouble a b ≤ 1 := by
  rcases Nat.eq_or_lt_of_le hab with heq | hlt
  · subst heq
    by_cases ha : a = 0
    · subst ha; rw [divDouble_zero]; norm_num
    · rw [divDouble_self a (Nat.pos_of_ne_zero ha)]
  · have hb : 0 < b := by omega
    have hx : a * 2 ^ 117 / b < 2 ^ 117 := by
      rw [Nat.div_lt_iff_lt_mul hb]
      calc a * 2 ^ 117 < b * 2 ^ 117 := Nat.mul_lt_mul_of_pos_right hlt (by norm_num)
        _ = 2 ^ 117 * b := Nat.mul_comm _ _
    have hbound : roundHalfEven (a * 2 ^ 117) (b * 2 ^ (floorLog2 (a * 2 ^ 117 / b) - 52)) *
        2 ^ (floorLog2 (a * 2 ^ 117 / b) - 52) ≤ 2 ^ 117 := by
      generalize hxe : a * 2 ^ 117 / b = x at hx
      by_cases hx0 : x = 0
      · subst hx0
        have hm := roundHalfEven_le (a * 2 ^ 117) (b * 2 ^ (floorLog2 0 - 52))
        have h52 : floorLog2 0 - 52 = 0 := by decide
        rw [h52] at hm ⊢
        simp only [pow_zero, Nat.mul_one] at hm ⊢
        rw [hxe] at hm
        omega
      · obtain ⟨h1, h2⟩ := floorLog2_spec x hx0
        have hL : floorLog2 x < 117 :=
          (Nat.pow_lt_pow_iff_right (by norm_num : 1 < 2)).mp (lt_of_le_of_lt h1 hx)
        generalize floorLog2 x = L at h1 h2 hL
        have hpos : 0 < 2 ^ (L - 52) := Nat.pow_pos (by norm_num)
        have e2 : 2 ^ (L + 1) = 2 ^ (L + 1 - (L - 52)) * 2 ^ (L - 52) := by
          rw [← pow_add]; congr 1; omega
        have hq : a * 2 ^ 117 / (b * 2 ^ (L - 52)) < 2 ^ (L + 1 - (L - 52)) := by
          rw [← Nat.div_div_eq_div_mul, hxe, Nat.div_lt_iff_lt_mul hpos, ← e2]
          exact h2
        calc roundHalfEven (a * 2 ^ 117) (b * 2 ^ (L - 52)) * 2 ^ (L - 52)
            ≤ 2 ^ (L + 1 - (L - 52)) * 2 ^ (L - 52) :=
              Nat.mul_le_mul_right _ (le_trans (roundHalfEven_le _ _) hq)
          _ = 2 ^ (L + 1) := e2.symm
          _ ≤ 2 ^ 117 := Nat.pow_le_pow_right (by norm_num) (by omega)
    unfold divDouble
    simp only []
    rw [div_le_one (by positivity)]
    exact_mod_cast hbound

theorem divDouble_one_pow (k : Nat) (hk : k ≤ 64) : divDouble 1 (2 ^ k) = 1 / 2 ^ k := by
  unfold divDouble
  have hx : 1 * 2 ^ 117 / 2 ^ k = 2 ^ (117 - k) := by
    rw [Nat.one_mul, Nat.pow_div (by omega) (by norm_num)]
  have hl : floorLog2 (2 ^ (117 - k)) - 52 = 65 - k := by
    rw [floorLog2_pow]; omega
  have hd : 2 ^ k * 2 ^ (65 - k) = 2 ^ 65 := by rw [← pow_add]; congr 1; omega
  have hm : roundHalfEven (1 * 2 ^ 117) (2 ^ 65) = 2 ^ 52 := by decide
  simp only [hx, hl, hd, hm]
  have e : (2 : ℚ) ^ 117 = 2 ^ 52 * 2 ^ (65 - k) * 2 ^ k := by
    rw [← pow_add, ← pow_add]; congr 1; omega
  push_cast
  rw [e]
  have hk0 : (2 : ℚ) ^ k ≠ 0 := by positivity
  have h0 : (2 : ℚ) ^ (65 - k) ≠ 0 := by positivity
  field_simp
  norm_num

/-- The rounding error of the division is at most half a unit in the last
place: relative to the quotient, at most `2 ^ (-53)`. -/
theorem divDouble_err (a b : Nat) (hb : 0 < b) (h1 : 2 ^ 52 ≤ a * 2 ^ 117 / b) :
    |divDouble a b - (a : ℚ) / (b : ℚ)| ≤ (a : ℚ) / (b : ℚ) / 2 ^ 53 := by
  have hx0 : a * 2 ^ 117 / b ≠ 0 := by
    have : 0 < 2 ^ 52 := by norm_num
    omega
  obtain ⟨hl1, -⟩ := floorLog2_spec _ hx0
  have hL : 52 ≤ floorLog2 (a * 2 ^ 117 / b) := by
    by_contra hc
    obtain ⟨-, hl2⟩ := floorLog2_spec _ hx0
    have : 2 ^ (floorLog2 (a * 2 ^ 117 / b) + 1) ≤ 2 ^ 52 :=
      Nat.pow_le_pow_right (by norm_num) (by omega)
    omega
  unfold divDouble
  simp only []
  generalize floorLog2 (a * 2 ^ 117 / b) = L at hl1 hL
  obtain ⟨s, rfl⟩ : ∃ s, L = 52 + s := ⟨L - 52, by omega⟩
  have hs : 52 + s - 52 = s := by omega
  rw [hs]
  have hd : 0 < b * 2 ^ s := Nat.mul_pos hb (Nat.pow_pos (by norm_num))
  obtain ⟨e1, e2⟩ := roundHalfEven_err (a * 2 ^ 117) (b * 2 ^ s) hd
  have e3 : 2 ^ (52 + s) * b ≤ a * 2 ^ 117 := (Nat.le_div_iff_mul_le hb).mp hl1
  generalize roundHalfEven (a * 2 ^ 117) (b * 2 ^ s) = m at e1 e2
  have q1 : (2 : ℚ) * ((m : ℚ) * ((b : ℚ) * 2 ^ s)) ≤ 2 * ((a : ℚ) * 2 ^ 117) + (b : ℚ) * 2 ^ s := by
    exact_mod_cast e1
  have q2 : (2 : ℚ) * ((a : ℚ) * 2 ^ 117) ≤ 2 * ((m : ℚ) * ((b : ℚ) * 2 ^ s)) + (b : ℚ) * 2 ^ s := by
    exact_mod_cast e2
  have q3 : (2 : ℚ) ^ 52 * 2 ^ s * (b : ℚ) ≤ (a : ℚ) * 2 ^ 117 := by
    rw [← pow_add]
    exact_mod_cast e3
  have hB : (0 : ℚ) < (b : ℚ) := by exact_mod_cast hb
  have hD : (0 : ℚ) < (b : ℚ) * 2 ^ 117 * 2 ^ 53 := by positivity
  have f1 : ((m * 2 ^ s : Nat) : ℚ) / 2 ^ 117 - (a : ℚ) / (b : ℚ) =
      (((m : ℚ) * 2 ^ s * (b : ℚ) - (a : ℚ) * 2 ^ 117) * 2 ^ 53) / ((b : ℚ) * 2 ^ 117 * 2 ^ 53) := by
    push_cast
    field_simp
    ring
  have f2 : (a : ℚ) / (b : ℚ) / 2 ^ 53 = ((a : ℚ) * 2 ^ 117) / ((b : ℚ) * 2 ^ 117 * 2 ^ 53) := by
    field_simp
    ring
  rw [f1, f2, abs_div, abs_of_pos hD, div_le_div_iff_of_pos_right hD, abs_le]
  have p1 : (m : ℚ) * ((b : ℚ) * 2 ^ s) = (m : ℚ) * 2 ^ s * (b : ℚ) := by ring
  have p3 : (2 : ℚ) ^ 52 * 2 ^ s * (b : ℚ) = 2 ^ 52 * ((b : ℚ) * 2 ^ s) := by ring
  rw [p1] at q1 q2
  rw [p3] at q3
  generalize (m : ℚ) * 2 ^ s * (b : ℚ) = P at q1 q2
  generalize (b : ℚ) * 2 ^ s = Q at q1 q2 q3
  generalize (a : ℚ) * 2 ^ 117 = A at q1 q2 q3
  constructor <;> linarith

theorem divDouble_err_of_le (a b : Nat) (ha : 0 < a) (hb : 0 < b) (hb2 : b ≤ 2 ^ 65) :
    |divDouble a b - (a : ℚ) / (b : ℚ)| ≤ (a : ℚ) / (b : ℚ) / 2 ^ 53 := by
  apply divDouble_err a b hb
  rw [Nat.le_div_iff_mul_le hb]
  calc 2 ^ 52 * b ≤ 2 ^ 52 * 2 ^ 65 := Nat.mul_le_mul_left _ hb2
    _ = 1 * 2 ^ 117 := by norm_num
    _ ≤ a * 2 ^ 117 := Nat.mul_le_mul_right _ ha

set_option maxRecDepth 100000 in
theorem divDouble_one_three : divDouble 1 3 = 6004799503160661 / 2 ^ 54 := by
  have h : roundHalfEven (1 * 2 ^ 117) (3 * 2 ^ (floorLog2 (1 * 2 ^ 117 / 3) - 52)) *
      2 ^ (floorLog2 (1 * 2 ^ 117 / 3) - 52) = 6004799503160661 * 2 ^ 63 := by decide
  simp only [divDouble, h]
  norm_num

/-! ## computeEstimate -/

theorem computeEstimate_eq (e : Estimator) :
    (computeEstimate e).1 =
      if e.nrTotal = 0 then 1
      else divDouble (toDouble (min e.nrUsed e.nrTotal)) (toDouble e.nrTotal) := by
  unfold computeEstimate
  by_cases h0 : e.nrTotal = 0
  · simp [h0]
  · by_cases hgt : e.nrUsed > e.nrTotal
    · have hmin : min e.nrUsed e.nrTotal = e.nrTotal := Nat.min_eq_right (Nat.le_of_lt hgt)
      have hu : e.nrUsed ≠ 0 := by omega
      simp only [h0, if_false, hgt, if_true, hmin]
      rw [divDouble_self _ (toDouble_pos _ hu), divDouble_self _ (toDouble_pos _ h0)]
    · have hmin : min e.nrUsed e.nrTotal = e.nrUsed := Nat.min_eq_left (by omega)
      simp only [h0, if_false, hgt, hmin]

theorem computeEstimate_of_ge (e : Estimator) (h : e.nrTotal ≤ e.nrUsed) :
    (computeEstimate e).1 = 1 := by
  rw [computeEstimate_eq]
  split
  · rfl
  · rename_i h0
    rw [Nat.min_eq_right h, divDouble_self _ (toDouble_pos _ h0)]

/-- C19 (amended): in every state `computeEstimate` returns 1 when `nrTotal = 0`
and otherwise the double-precision quotient of the doubles nearest to
`min(nrUsed, nrTotal)` and to `nrTotal` (also when `nrUsed > nrTotal`); the
value lies in the interval from 0 to 1. It is 1 when `nrUsed >= nrTotal` and 0
when `nrUsed = 0 < nrTotal`; when `nrTotal < 2 ^ 53` (both conversions are exact
then) it differs from the ratio `min(nrUsed, nrTotal) / nrTotal` by at most the
ratio times `2 ^ (-53)`. -/
theorem computeEstimate_value_and_range (e : Estimator) :
    (computeEstimate e).1 =
        (if e.nrTotal = 0 then 1
          else divDouble (toDouble (min e.nrUsed e.nrTotal)) (toDouble e.nrTotal)) ∧
      0 ≤ (computeEstimate e).1 ∧ (computeEstimate e).1 ≤ 1 ∧
      (e.nrTotal ≤ e.nrUsed → (computeEstimate e).1 = 1) ∧
      (e.nrTotal ≠ 0 → e.nrUsed = 0 → (computeEstimate e).1 = 0) ∧
      (e.nrTotal ≠ 0 → e.nrTotal < 2 ^ 53 →
        |(computeEstimate e).1 - ((min e.nrUsed e.nrTotal : Nat) : ℚ) / (e.nrTotal : ℚ)| ≤
          ((min e.nrUsed e.nrTotal : Nat) : ℚ) / (e.nrTotal : ℚ) / 2 ^ 53) := by
  refine ⟨computeEstimate_eq e, ?_, ?_, computeEstimate_of_ge e, ?_, ?_⟩
  · rw [computeEstimate_eq]
    split
    · norm_num
    · exact divDouble_nonneg _ _
  · rw [computeEstimate_eq]
    split
    · norm_num
    · exact divDouble_le_one _ _ (toDouble_mono _ _ (Nat.min_le_right _ _))
  · intro h0 hu
    rw [computeEstimate_eq, if_neg h0, hu, Nat.zero_min, toDouble_zero, divDouble_zero]
  · intro h0 ht
    rw [computeEstimate_eq, if_neg h0]
    have hm : min e.nrUsed e.nrTotal < 2 ^ 53 := lt_of_le_of_lt (Nat.min_le_right _ _) ht
    rw [toDouble_of_lt _ hm, toDouble_of_lt _ ht]
    by_cases ha : min e.nrUsed e.nrTotal = 0
    · rw [ha, divDouble_zero]
      simp
    · exact divDouble_err_of_le _ _ (Nat.pos_of_ne_zero ha) (Nat.pos_of_ne_zero h0)
        (le_trans (Nat.le_of_lt ht) (by norm_num))

/-- C19, at a concrete input: the counters `nrUsed = 3` and `nrTotal = 4` on
the estimator constructed for a requested size of 0. -/
theorem computeEstimate_value_and_range_witness :
    (sampleCounters.nrTotal ≠ 0 ∧ sampleCounters.nrTotal < 2 ^ 53) ∧
      |(computeEstimate sampleCounters).1 -
          ((min sampleCounters.nrUsed sampleCounters.nrTotal : Nat) : ℚ) /
            (sampleCounters.nrTotal : ℚ)| ≤
        ((min sampleCounters.nrUsed sampleCounters.nrTotal : Nat) : ℚ) /
          (sampleCounters.nrTotal : ℚ) / 2 ^ 53 :=
  ⟨⟨by decide, by decide⟩,
    (computeEstimate_value_and_range sampleCounters).2.2.2.2.2 (by decide) (by decide)⟩

/-- C19 fails as stated: with `nrUsed = 1` and `nrTotal = 3` the call returns
`6004799503160661 / 2 ^ 54`, the double nearest to one third, and not the ratio
`1 / 3`; with `nrUsed = 2 ^ 64 - 2` and `nrTotal = 2 ^ 64 - 1` both conversions
round to `2 ^ 64` and the call returns 1, above the ratio. -/
theorem computeEstimate_rounds :
    (computeEstimate { minimalEstimator with nrUsed := 1, nrTotal := 3 }).1 =
        6004799503160661 / 2 ^ 54 ∧
      (6004799503160661 / 2 ^ 54 : ℚ) ≠ ((min 1 3 : Nat) : ℚ) / ((3 : Nat) : ℚ) ∧
      toDouble (2 ^ 64 - 2) = 2 ^ 64 ∧ toDouble (2 ^ 64 - 1) = 2 ^ 64 ∧
      (computeEstimate { minimalEstimator with nrUsed := 2 ^ 64 - 2, nrTotal := 2 ^ 64 - 1 }).1
        = 1 ∧
      (1 : ℚ) ≠ ((min (2 ^ 64 - 2) (2 ^ 64 - 1) : Nat) : ℚ) / ((2 ^ 64 - 1 : Nat) : ℚ) := by
  have h1 : toDouble 1 = 1 := by decide
  have h3 : toDouble 3 = 3 := by decide
  have ha : toDouble (2 ^ 64 - 2) = 2 ^ 64 := by decide
  have hb : toDouble (2 ^ 64 - 1) = 2 ^ 64 := by decide
  refine ⟨?_, by norm_num, ha, hb, ?_, by norm_num⟩
  · rw [computeEstimate_eq]
    show (if (3 : Nat) = 0 then (1 : ℚ) else divDouble (toDouble (min 1 3)) (toDouble 3)) = _
    rw [if_neg (by decide), show min 1 3 = 1 from rfl, h1, h3, divDouble_one_three]
  · rw [computeEstimate_eq]
    show (if (2 ^ 64 - 1 : Nat) = 0 then (1 : ℚ)
      else divDouble (toDouble (min (2 ^ 64 - 2) (2 ^ 64 - 1))) (toDouble (2 ^ 64 - 1))) = _
    rw [if_neg (by decide), show min (2 ^ 64 - 2) (2 ^ 64 - 1) = 2 ^ 64 - 2 from by decide, ha, hb,
      divDouble_self _ (by norm_num)]

/-! ## Probing the two candidate buckets -/

theorem probeBucket_some (f : Filter) (pos fp s : Nat) (h : probeBucket f pos fp = some s) :
    InBucket pos s ∧ f.fingerprintAt s = fp := by
  unfold probeBucket at h
  rw [Option.map_eq_some'] at h
  obtain ⟨i, hi, rfl⟩ := h
  have h1 := List.find?_some hi
  have h2 := List.mem_of_find?_eq_some hi
  rw [List.mem_range] at h2
  exact ⟨⟨i, h2, rfl⟩, by simpa using h1⟩

theorem probeBucket_none (f : Filter) (pos fp : Nat) :
    probeBucket f pos fp = none ↔ ¬ HasFp f pos fp := by
  unfold probeBucket HasFp
  rw [Option.map_eq_none', List.find?_eq_none]
  constructor
  · rintro h ⟨i, hi, hfp⟩
    exact h i (List.mem_range.mpr hi) (by simpa using hfp)
  · intro h i hi hfp
    exact h ⟨i, List.mem_range.mp hi, by simpa using hfp⟩

theorem probeBucket_isSome (f : Filter) (pos fp : Nat) (h : HasFp f pos fp) :
    ∃ s, probeBucket f pos fp = some s := by
  cases hp : probeBucket f pos fp with
  | none => exact absurd h ((probeBucket_none f pos fp).mp hp)
  | some s => exact ⟨s, rfl⟩

theorem findSlotNoCuckoo_found (f : Filter) (pos1 pos2 fp : Nat) :
    (findSlotNoCuckoo f pos1 pos2 fp).2 = true ↔ (HasFp f pos1 fp ∨ HasFp f pos2 fp) := by
  unfold findSlotNoCuckoo
  cases h1 : probeBucket f pos1 fp with
  | some s =>
    have := probeBucket_some f pos1 fp s h1
    obtain ⟨⟨i, hi, rfl⟩, hfp⟩ := this
    simp only [true_iff]
    exact Or.inl ⟨i, hi, hfp⟩
  | none =>
    cases h2 : probeBucket f pos2 fp with
    | some s =>
      obtain ⟨⟨i, hi, rfl⟩, hfp⟩ := probeBucket_some f pos2 fp s h2
      simp only [true_iff]
      exact Or.inr ⟨i, hi, hfp⟩
    | none =>
      simp only [Bool.false_eq_true, false_iff]
      rintro (h | h)
      · exact (probeBucket_none f pos1 fp).mp h1 h
      · exact (probeBucket_none f pos2 fp).mp h2 h

theorem findSlotNoCuckoo_slot (f : Filter) (pos1 pos2 fp : Nat)
    (h : (findSlotNoCuckoo f pos1 pos2 fp).2 = true) :
    (InBucket pos1 (findSlotNoCuckoo f pos1 pos2 fp).1 ∨
        InBucket pos2 (findSlotNoCuckoo f pos1 pos2 fp).1) ∧
      f.fingerprintAt (findSlotNoCuckoo f pos1 pos2 fp).1 = fp := by
  unfold findSlotNoCuckoo at h ⊢
  cases h1 : probeBucket f pos1 fp with
  | some s =>
    have := probeBucket_some f pos1 fp s h1
    exact ⟨Or.inl this.1, this.2⟩
  | none =>
    cases h2 : probeBucket f pos2 fp with
    | some s =>
      have := probeBucket_some f pos2 fp s h2
      exact ⟨Or.inr this.1, this.2⟩
    | none => simp [h1, h2] at h


/-! ## remove -/

theorem removeKey_found (env : Env) (f : Filter) (k : Key) (h : Stored env f k) :
    removeKey env f k =
      if 0 < f.counterAt (foundSlot env f k) - 1 then
        ({ f with
            nrTotal := sub64 f.nrTotal 1
            counters := f.counters.set (foundSlot env f k) (f.counterAt (foundSlot env f k) - 1) },
          true)
      else
        ({ f with
            nrTotal := sub64 f.nrTotal 1
            slots := f.slots.set (foundSlot env f k) 0
            counters := (f.counters.set (foundSlot env f k)
              (f.counterAt (foundSlot env f k) - 1)).set (foundSlot env f k) 0
            nrUsed := sub64 f.nrUsed 1 }, true) := by
  have hf : (findSlotNoCuckoo f (hashToPos f (env.hasherKey k))
      (hashToPos f (env.hasherPosFingerprint (hashToPos f (env.hasherKey k))
        (env.keyToFingerprint k))) (env.keyToFingerprint k)).2 = true :=
    (findSlotNoCuckoo_found f _ _ _).mpr h
  unfold removeKey
  simp only [hf, if_true, slotDecrease, Filter.counterAt, decide_eq_true_eq, slotReset,
    Filter.place, foundSlot, pos1Of, pos2Of]

theorem removeKey_not_found (env : Env) (f : Filter) (k : Key) (h : ¬ Stored env f k) :
    removeKey env f k =
      if 0 < f.nrCuckood then ({ f with nrCuckood := f.nrCuckood - 1 }, false) else (f, false) := by
  have hf : (findSlotNoCuckoo f (hashToPos f (env.hasherKey k))
      (hashToPos f (env.hasherPosFingerprint (hashToPos f (env.hasherKey k))
        (env.keyToFingerprint k))) (env.keyToFingerprint k)).2 = false := by
    rw [Bool.eq_false_iff]
    exact fun hc => h ((findSlotNoCuckoo_found f _ _ _).mp hc)
  unfold removeKey
  simp only [hf, Bool.false_eq_true, if_false]

theorem getD_set_self_sub (l : List Nat) (s v : Nat) (hv : 0 < v → s < l.length) :
    (l.set s v).getD s 0 = v := by
  simp only [List.getD_eq_getElem?_getD, List.getElem?_set]
  by_cases hs : s < l.length
  · simp [hs]
  · have : v = 0 := by
      by_contra hne
      exact hs (hv (Nat.pos_of_ne_zero hne))
    simp [hs, this]

theorem getD_set_ne (l : List Nat) (s t v : Nat) (h : t ≠ s) :
    (l.set s v).getD t 0 = l.getD t 0 := by
  simp only [List.getD_eq_getElem?_getD, List.getElem?_set]
  have : ¬ s = t := fun hc => h hc.symm
  simp [this]

theorem getD_pos_lt (l : List Nat) (s : Nat) (h : 0 < l.getD s 0) : s < l.length := by
  by_contra hc
  have : l.getD s 0 = 0 := by
    simp only [List.getD_eq_getElem?_getD]
    rw [List.getElem?_eq_none (by omega)]
    rfl
  omega


theorem foundSlot_spec (env : Env) (f : Filter) (k : Key) (h : Stored env f k) :
    (InBucket (pos1Of env f k) (foundSlot env f k) ∨
        InBucket (pos2Of env f k) (foundSlot env f k)) ∧
      f.fingerprintAt (foundSlot env f k) = env.keyToFingerprint k :=
  findSlotNoCuckoo_slot f _ _ _ ((findSlotNoCuckoo_found f _ _ _).mpr h)

/-- C14: the three cases of `remove(k)`, in the 64-bit arithmetic of the
members. (a) When the fingerprint is stored in one of the two candidate
buckets, the call returns `true`, decrements `nrTotal` by 1, leaves `nrCuckood`
alone and decrements the counter of the slot found (a slot of one of the two
buckets that holds the fingerprint) by 1; when the counter has reached zero the
slot is emptied and `nrUsed` decremented by 1, otherwise the fingerprints and
`nrUsed` stay; no other slot changes. (b) When it is not stored and
`nrCuckood > 0`, the call returns `false`, decrements `nrCuckood` by 1 and
leaves `nrUsed`, `nrTotal` and every slot alone. (c) When it is not stored and
`nrCuckood = 0`, the call returns `false` and leaves the filter as it was. -/
theorem remove_three_cases (env : Env) (e : Estimator) (k : Key) :
    (Stored env e.toFilter k →
      ((InBucket (pos1Of env e.toFilter k) (foundSlot env e.toFilter k) ∨
          InBucket (pos2Of env e.toFilter k) (foundSlot env e.toFilter k)) ∧
        e.fingerprintAt (foundSlot env e.toFilter k) = env.keyToFingerprint k) ∧
      (remove env e k).2 = true ∧
      (remove env e k).1.nrTotal = sub64 e.nrTotal 1 ∧
      (remove env e k).1.nrCuckood = e.nrCuckood ∧
      (remove env e k).1.counterAt (foundSlot env e.toFilter k) =
        e.counterAt (foundSlot env e.toFilter k) - 1 ∧
      (e.counterAt (foundSlot env e.toFilter k) - 1 = 0 →
        (remove env e k).1.fingerprintAt (foundSlot env e.toFilter k) = 0 ∧
          (remove env e k).1.nrUsed = sub64 e.nrUsed 1) ∧
      (0 < e.counterAt (foundSlot env e.toFilter k) - 1 →
        (remove env e k).1.slots = e.slots ∧ (remove env e k).1.nrUsed = e.nrUsed) ∧
      (∀ t, t ≠ foundSlot env e.toFilter k →
        (remove env e k).1.fingerprintAt t = e.fingerprintAt t ∧
          (remove env e k).1.counterAt t = e.counterAt t)) ∧
    (¬ Stored env e.toFilter k → 0 < e.nrCuckood →
      (remove env e k).2 = false ∧ (remove env e k).1.nrCuckood = e.nrCuckood - 1 ∧
        (remove env e k).1.nrUsed = e.nrUsed ∧ (remove env e k).1.nrTotal = e.nrTotal ∧
        (remove env e k).1.slots = e.slots ∧ (remove env e k).1.counters = e.counters) ∧
    (¬ Stored env e.toFilter k → e.nrCuckood = 0 →
      (remove env e k).2 = false ∧ (remove env e k).1.toFilter = e.toFilter) := by
  refine ⟨fun h => ?_, fun h hc => ?_, fun h hc => ?_⟩
  · have hrk := removeKey_found env e.toFilter k h
    refine ⟨foundSlot_spec env e.toFilter k h, ?_⟩
    by_cases hpos : 0 < e.counterAt (foundSlot env e.toFilter k) - 1
    · simp only [hpos, if_true] at hrk
      have hlt : foundSlot env e.toFilter k < e.counters.length :=
        getD_pos_lt _ _ (by simp only [Filter.counterAt] at hpos; omega)
      simp only [remove, hrk, Filter.fingerprintAt, Filter.counterAt]
      refine ⟨(by trivial), (by trivial), (by trivial), ?_, ?_, ?_, ?_⟩
      · exact getD_set_self_sub _ _ _ (fun _ => hlt)
      · intro h0; simp only [Filter.counterAt] at hpos; omega
      · intro _; exact ⟨(by trivial), (by trivial)⟩
      · intro t ht
        exact ⟨(by trivial), getD_set_ne _ _ _ _ ht⟩
    · simp only [hpos, if_false] at hrk
      have h0 : e.counterAt (foundSlot env e.toFilter k) - 1 = 0 := by omega
      simp only [remove, hrk, Filter.fingerprintAt, Filter.counterAt]
      refine ⟨(by trivial), (by trivial), (by trivial), ?_, ?_, ?_, ?_⟩
      · simp only [Filter.counterAt] at h0
        rw [h0]
        exact getD_set_self_sub _ _ _ (fun hc => absurd hc (Nat.lt_irrefl 0))
      · intro _
        exact ⟨getD_set_self_sub _ _ _ (fun hc => absurd hc (Nat.lt_irrefl 0)), (by trivial)⟩
      · intro hc
        simp only [Filter.counterAt] at h0
        omega
      · intro t ht
        exact ⟨getD_set_ne _ _ _ _ ht, by rw [getD_set_ne _ _ _ _ ht, getD_set_ne _ _ _ _ ht]⟩
  · have hrk := removeKey_not_found env e.toFilter k h
    simp only [hc, if_true] at hrk
    simp only [remove, hrk]
    exact ⟨(by trivial), (by trivial), (by trivial), (by trivial), (by trivial), (by trivial)⟩
  · have hrk := removeKey_not_found env e.toFilter k h
    have hz : ¬ 0 < e.nrCuckood := by omega
    simp only [hz, if_false] at hrk
    simp only [remove, hrk]
    exact ⟨(by trivial), (by trivial)⟩


/-- C14, at concrete inputs on the two-bucket estimator: key 1 stored once
(case a), key 2 absent with one dropped entry on record (case b), key 2 absent
with none (case c). -/
theorem remove_three_cases_witness :
    (Stored sampleEnv (insert sampleEnv tinyEstimator 1).toFilter 1 ∧
      (remove sampleEnv (insert sampleEnv tinyEstimator 1) 1).2 = true ∧
      (remove sampleEnv (insert sampleEnv tinyEstimator 1) 1).1.nrTotal =
        sub64 (insert sampleEnv tinyEstimator 1).nrTotal 1) ∧
    ((¬ Stored sampleEnv { tinyEstimator with nrCuckood := 1 }.toFilter 2 ∧
        0 < ({ tinyEstimator with nrCuckood := 1 } : Estimator).nrCuckood) ∧
      (remove sampleEnv { tinyEstimator with nrCuckood := 1 } 2).2 = false ∧
      (remove sampleEnv { tinyEstimator with nrCuckood := 1 } 2).1.nrCuckood = 1 - 1) ∧
    ((¬ Stored sampleEnv tinyEstimator.toFilter 2 ∧ tinyEstimator.nrCuckood = 0) ∧
      (remove sampleEnv tinyEstimator 2).2 = false ∧
      (remove sampleEnv tinyEstimator 2).1.toFilter = tinyEstimator.toFilter) :=
  ⟨⟨by decide,
      ((remove_three_cases sampleEnv (insert sampleEnv tinyEstimator 1) 1).1 (by decide)).2.1,
      ((remove_three_cases sampleEnv (insert sampleEnv tinyEstimator 1) 1).1 (by decide)).2.2.1⟩,
    ⟨⟨by decide, by decide⟩,
      ((remove_three_cases sampleEnv { tinyEstimator with nrCuckood := 1 } 2).2.1 (by decide)
        (by decide)).1,
      ((remove_three_cases sampleEnv { tinyEstimator with nrCuckood := 1 } 2).2.1 (by decide)
        (by decide)).2.1⟩,
    ⟨⟨by decide, by decide⟩,
      (remove_three_cases sampleEnv tinyEstimator 2).2.2 (by decide) (by decide)⟩⟩


/-! ## insert and nrTotal -/

theorem insertKey_nrTotal (env : Env) (f : Filter) (k : Key) :
    (insertKey env f k).nrTotal = u64 (f.nrTotal + 1) := by
  rw [insertKey_eq, storeAt_nrTotal, findSlotCuckoo_nrTotal]

theorem foldl_insert_nrTotal (env : Env) (keys : List Key) :
    ∀ f : Filter, f.nrTotal < 2 ^ 64 →
      (keys.foldl (insertBatchStep env) f).nrTotal = u64 (f.nrTotal + keys.length) := by
  induction keys with
  | nil =>
    intro f hf
    simp only [List.foldl_nil, List.length_nil, Nat.add_zero, u64]
    exact (Nat.mod_eq_of_lt hf).symm
  | cons k ks ih =>
    intro f _
    rw [List.foldl_cons, ih _ (by
      rw [insertBatchStep_eq, insertKey_nrTotal]; exact Nat.mod_lt _ (by norm_num)),
      insertBatchStep_eq, insertKey_nrTotal]
    simp only [u64, List.length_cons]
    omega

/-- C15: `insert(k)` increments the 64-bit member `nrTotal` once on every path,
and `insert(keys)` once per key of the list: the new value is the old one plus 1
(plus the length of the list) modulo `2 ^ 64`, which is exactly the old value
plus 1 (plus the length) unless the counter wraps. -/
theorem insert_counts_in_nrTotal (env : Env) (e : Estimator) (k : Key) (keys : List Key)
    (htyp : e.nrTotal < 2 ^ 64) :
    (insert env e k).nrTotal = (e.nrTotal + 1) % 2 ^ 64 ∧
      (insertBatch env e keys).nrTotal = (e.nrTotal + keys.length) % 2 ^ 64 ∧
      (e.nrTotal + 1 < 2 ^ 64 → (insert env e k).nrTotal = e.nrTotal + 1) ∧
      (e.nrTotal + keys.length < 2 ^ 64 →
        (insertBatch env e keys).nrTotal = e.nrTotal + keys.length) := by
  have h1 : (insert env e k).nrTotal = (e.nrTotal + 1) % 2 ^ 64 :=
    insertKey_nrTotal env e.toFilter k
  have h2 : (insertBatch env e keys).nrTotal = (e.nrTotal + keys.length) % 2 ^ 64 := by
    have : (insertBatch env e keys).nrTotal = (insertBatch env e keys).toFilter.nrTotal := rfl
    rw [this, insertBatch_toFilter]
    exact foldl_insert_nrTotal env keys e.toFilter htyp
  exact ⟨h1, h2, fun h => by rw [h1, Nat.mod_eq_of_lt h], fun h => by rw [h2, Nat.mod_eq_of_lt h]⟩

/-- C15, at a concrete input: the full two-bucket table, where the insert of
one more key evicts an entry, and a list of three keys. -/
theorem insert_counts_in_nrTotal_witness :
    (insertBatch sampleEnv tinyEstimator [1, 2, 3, 4, 5, 6, 7, 8]).nrTotal < 2 ^ 64 ∧
    ((insert sampleEnv (insertBatch sampleEnv tinyEstimator [1, 2, 3, 4, 5, 6, 7, 8]) 9).nrTotal =
        ((insertBatch sampleEnv tinyEstimator [1, 2, 3, 4, 5, 6, 7, 8]).nrTotal + 1) % 2 ^ 64 ∧
      (insertBatch sampleEnv (insertBatch sampleEnv tinyEstimator [1, 2, 3, 4, 5, 6, 7, 8])
          [9, 9, 10]).nrTotal =
        ((insertBatch sampleEnv tinyEstimator [1, 2, 3, 4, 5, 6, 7, 8]).nrTotal +
          [9, 9, 10].length) % 2 ^ 64 ∧
      ((insertBatch sampleEnv tinyEstimator [1, 2, 3, 4, 5, 6, 7, 8]).nrTotal + 1 < 2 ^ 64 →
        (insert sampleEnv (insertBatch sampleEnv tinyEstimator [1, 2, 3, 4, 5, 6, 7, 8])
          9).nrTotal = (insertBatch sampleEnv tinyEstimator [1, 2, 3, 4, 5, 6, 7, 8]).nrTotal + 1) ∧
      ((insertBatch sampleEnv tinyEstimator [1, 2, 3, 4, 5, 6, 7, 8]).nrTotal +
          [9, 9, 10].length < 2 ^ 64 →
        (insertBatch sampleEnv (insertBatch sampleEnv tinyEstimator [1, 2, 3, 4, 5, 6, 7, 8])
          [9, 9, 10]).nrTotal =
          (insertBatch sampleEnv tinyEstimator [1, 2, 3, 4, 5, 6, 7, 8]).nrTotal +
            [9, 9, 10].length)) :=
  ⟨by decide,
    insert_counts_in_nrTotal sampleEnv
      (insertBatch sampleEnv tinyEstimator [1, 2, 3, 4, 5, 6, 7, 8]) 9 [9, 9, 10] (by decide)⟩


/-! ## What the size constructor builds -/

theorem niceSizeLoop_some (size : Nat) (hsz : size < 2 ^ 62) (fuel : Nat) :
    ∀ (nice log n2 l2 : Nat), niceSizeLoop size fuel nice log = some (n2, l2) →
      256 ≤ nice → (nice = 256 ∨ nice < 2 * size) →
      size ≤ n2 ∧ 256 ≤ n2 ∧ (n2 = 256 ∨ n2 < 2 * size) := by
  induction fuel with
  | zero => intro nice log n2 l2 h; simp [niceSizeLoop] at h
  | succ n ih =>
    intro nice log n2 l2 h h256 hinv
    simp only [niceSizeLoop] at h
    split at h
    · rename_i hlt
      have hu : u64 (nice * 2) = nice * 2 := Nat.mod_eq_of_lt (by omega)
      rw [hu] at h
      exact ih _ _ _ _ h (by omega) (Or.inr (by omega))
    · rename_i hge
      cases h
      exact ⟨by omega, h256, hinv⟩

theorem resetBucket_zero (f : Filter) (b m : Nat) (hs : f.slots = List.replicate m 0)
    (hc : f.counters = List.replicate m 0) : resetBucket f b = f := by
  rw [resetBucket_eq, hs, hc]
  simp only [List.set_replicate_self]
  cases f
  simp only at hs hc
  simp [hs, hc]

theorem resetLoop_zero (size m : Nat) (f : Filter) (hs : f.slots = List.replicate m 0)
    (hc : f.counters = List.replicate m 0) (fuel : Nat) :
    ∀ (b : Nat) (g : Filter), resetLoop size fuel b f = some g → g = f := by
  induction fuel with
  | zero => intro b g h; simp [resetLoop] at h
  | succ n ih =>
    intro b g h
    simp only [resetLoop] at h
    split at h
    · rw [resetBucket_zero f b m hs hc] at h
      exact ih _ _ h
    · cases h; rfl

theorem resetLoop_some_lt (size fuel : Nat) (f g : Filter)
    (h : resetLoop size fuel 0 f = some g) : size < 2 ^ 32 := by
  by_contra hc
  rw [resetLoop_diverges size (by omega) fuel 0 f (by norm_num)] at h
  cases h

theorem hashToPos_lt (f : Filter) (hash nice : Nat) (hm : f.sizeMask = nice - 1)
    (h1 : 1 ≤ nice) (h2 : nice ≤ 2 * f.size) : hashToPos f hash < f.size := by
  unfold hashToPos
  have hle : (hash >>> f.sizeShift) &&& f.sizeMask ≤ f.sizeMask := Nat.and_le_right
  simp only []
  split
  · assumption
  · omega


theorem construct_fresh (fuel n : Nat) (e : Estimator) (h : construct fuel n = some e) :
    Fresh e ∧ 256 ≤ e.size ∧ e.size < 2 ^ 32 := by
  obtain ⟨size0, hsize0, h256, h62⟩ : ∃ size0,
      (if u64 (n * 2) ≥ 1024 then u64 (n * 2) else 1024) / kSlotsPerBucket = size0 ∧
        256 ≤ size0 ∧ size0 < 2 ^ 62 := by
    refine ⟨_, rfl, ?_, ?_⟩
    · simp only [kSlotsPerBucket]
      split_ifs <;> omega
    · have : u64 (n * 2) < 2 ^ 64 := Nat.mod_lt _ (by norm_num)
      simp only [kSlotsPerBucket]
      split_ifs <;> omega
  have h1 : initializeDefault fuel { emptyEstimator with size := size0 } = some e := by
    rw [← h]
    simp only [construct, hsize0]
  unfold initializeDefault at h1
  cases hn : niceSizeLoop size0 fuel 256 8 with
  | none => simp [hn] at h1
  | some p =>
    obtain ⟨nice, log⟩ := p
    obtain ⟨hge, hn256, hor⟩ :=
      niceSizeLoop_some size0 h62 fuel 256 8 nice log hn (Nat.le_refl _) (Or.inl rfl)
    simp only [hn] at h1
    generalize hd : deriveSizesAndAlloc
      { emptyEstimator with size := size0, niceSize := nice, logSize := log } = d at h1
    have hdsize : d.size = size0 := by rw [← hd]; rfl
    have hdm : d.sizeMask = nice - 1 := by
      rw [← hd]
      show sub64 nice 1 = nice - 1
      simp only [sub64]
      rw [if_pos (by omega)]
    have hdu : d.nrUsed = 0 ∧ d.nrCuckood = 0 ∧ d.nrTotal = 0 := by
      rw [← hd]; exact ⟨rfl, rfl, rfl⟩
    cases hr : resetLoop d.size fuel 0 d.toFilter with
    | none => simp [hr] at h1
    | some f =>
      have hlt := resetLoop_some_lt _ _ _ _ hr
      rw [hdsize] at hlt
      have hds : d.slots = List.replicate (size0 * kSlotsPerBucket) 0 := by
        rw [← hd]
        show List.replicate (u64 (size0 * kSlotSize * kSlotsPerBucket) / kSlotSize) 0 = _
        rw [slotBytes_eq size0 (by omega)]
      have hdc : d.counters = List.replicate (size0 * kSlotsPerBucket) 0 := by
        rw [← hd]
        show List.replicate (u64 (size0 * kCounterSize * kSlotsPerBucket) / kCounterSize) 0 = _
        rw [counterBytes_eq size0 (by omega)]
      have hf : f = d.toFilter := resetLoop_zero _ _ _ hds hdc fuel 0 f hr
      simp only [hr, Option.some.injEq] at h1
      subst hf
      have hed : e = d := by rw [← h1]
      subst hed
      refine ⟨⟨?_, ?_, hdu.1, hdu.2.1, hdu.2.2, ?_⟩, by omega, by omega⟩
      · rw [hds, hdsize]
      · rw [hdc, hdsize]
      · intro hash
        exact hashToPos_lt _ hash nice hdm (by omega) (by rcases hor with h | h <;> omega)


/-! ## insert without eviction -/

theorem findSlotCuckoo_of_stored (env : Env) (f : Filter) (pos1 pos2 fp : Nat)
    (h : HasFp f pos1 fp ∨ HasFp f pos2 fp) :
    findSlotCuckoo env f pos1 pos2 fp = (f, (findSlotNoCuckoo f pos1 pos2 fp).1) := by
  unfold findSlotCuckoo findSlotNoCuckoo
  cases h1 : probeBucket f pos1 fp with
  | some s => rfl
  | none =>
    cases h2 : probeBucket f pos2 fp with
    | some s => rfl
    | none =>
      rcases h with h | h
      · exact absurd h ((probeBucket_none f pos1 fp).mp h1)
      · exact absurd h ((probeBucket_none f pos2 fp).mp h2)

theorem findSlotCuckoo_of_free (env : Env) (f : Filter) (pos1 pos2 fp : Nat)
    (hn : ¬ (HasFp f pos1 fp ∨ HasFp f pos2 fp)) (h : HasFp f pos1 0 ∨ HasFp f pos2 0) :
    findSlotCuckoo env f pos1 pos2 fp = (f, (findSlotNoCuckoo f pos1 pos2 0).1) := by
  have n1 : probeBucket f pos1 fp = none :=
    (probeBucket_none f pos1 fp).mpr (fun hc => hn (Or.inl hc))
  have n2 : probeBucket f pos2 fp = none :=
    (probeBucket_none f pos2 fp).mpr (fun hc => hn (Or.inr hc))
  unfold findSlotCuckoo findSlotNoCuckoo
  simp only [n1, n2]
  cases h1 : probeBucket f pos1 0 with
  | some s => rfl
  | none =>
    cases h2 : probeBucket f pos2 0 with
    | some s => rfl
    | none =>
      rcases h with h | h
      · exact absurd h ((probeBucket_none f pos1 0).mp h1)
      · exact absurd h ((probeBucket_none f pos2 0).mp h2)

theorem insertKey_of_stored (env : Env) (f : Filter) (k : Key) (h : Stored env f k)
    (hfp : env.keyToFingerprint k ≠ 0) :
    insertKey env f k =
      { slotIncrease f (foundSlot env f k) with nrTotal := u64 (f.nrTotal + 1) } := by
  have hs := foundSlot_spec env f k h
  rw [insertKey_eq, findSlotCuckoo_of_stored env f _ _ _ h]
  have hne : slotIsEmpty f (foundSlot env f k) = false := by
    simp only [slotIsEmpty, hs.2]
    simpa using hfp
  have hn : (slotIncrease f (foundSlot env f k)).nrTotal = f.nrTotal := by
    unfold slotIncrease
    split <;> rfl
  show storeAt f (foundSlot env f k) _ = _
  simp only [storeAt, hne, Bool.false_eq_true, if_false, hn]

theorem freeSlot_spec (env : Env) (f : Filter) (k : Key) (h : HasFree env f k) :
    (InBucket (pos1Of env f k) (freeSlot env f k) ∨
        InBucket (pos2Of env f k) (freeSlot env f k)) ∧
      f.fingerprintAt (freeSlot env f k) = 0 :=
  findSlotNoCuckoo_slot f _ _ _ ((findSlotNoCuckoo_found f _ _ _).mpr h)

theorem insertKey_of_free (env : Env) (f : Filter) (k : Key) (hn : ¬ Stored env f k)
    (h : HasFree env f k) :
    insertKey env f k =
      { f with
        slots := f.slots.set (freeSlot env f k) (env.keyToFingerprint k)
        counters := f.counters.set (freeSlot env f k) 1
        nrUsed := u64 (f.nrUsed + 1)
        nrTotal := u64 (f.nrTotal + 1) } := by
  have hs := freeSlot_spec env f k h
  rw [insertKey_eq, findSlotCuckoo_of_free env f _ _ _ hn h]
  have he : slotIsEmpty f (freeSlot env f k) = true := by
    simp only [slotIsEmpty, hs.2]
    rfl
  show storeAt f (freeSlot env f k) _ = _
  simp only [storeAt, he, if_true, slotInit, Filter.place]


theorem Fresh.inTable {e : Estimator} (h : Fresh e) : InTable e.toFilter := by
  obtain ⟨hs, hc, -, -, -, hp⟩ := h
  exact ⟨by rw [hs]; simp, by rw [hc]; simp, hp⟩

theorem InTable.of_shape {f g : Filter} (h : InTable f) (hs : SameShape f g) : InTable g := by
  obtain ⟨h1, h2, h3⟩ := h
  refine ⟨?_, ?_, fun hash => ?_⟩
  · rw [hs.2.2.2.2.2.1, hs.1, h1]
  · rw [hs.2.2.2.2.2.2, hs.1, h2]
  · rw [hashToPos_shape hs, hs.1]; exact h3 hash

theorem pos1Of_shape (env : Env) {f g : Filter} (h : SameShape f g) (k : Key) :
    pos1Of env g k = pos1Of env f k := hashToPos_shape h _

theorem pos2Of_shape (env : Env) {f g : Filter} (h : SameShape f g) (k : Key) :
    pos2Of env g k = pos2Of env f k := by
  unfold pos2Of
  rw [pos1Of_shape env h, hashToPos_shape h]

theorem InBucket.lt {pos s : Nat} (h : InBucket pos s) {f : Filter} (hp : pos < f.size)
    (hl : f.slots.length = f.size * kSlotsPerBucket) : s < f.slots.length := by
  obtain ⟨i, hi, rfl⟩ := h
  rw [hl]
  simp only [findSlot, kSlotsPerBucket] at hi ⊢
  omega

theorem HasFp.of_slot {f : Filter} {pos s fp : Nat} (h : InBucket pos s)
    (hfp : f.fingerprintAt s = fp) : HasFp f pos fp := by
  obtain ⟨i, hi, rfl⟩ := h
  exact ⟨i, hi, hfp⟩

theorem HasFp.slot {f : Filter} {pos fp : Nat} (h : HasFp f pos fp) :
    ∃ s, InBucket pos s ∧ f.fingerprintAt s = fp := by
  obtain ⟨i, hi, hfp⟩ := h
  exact ⟨_, ⟨i, hi, rfl⟩, hfp⟩

theorem Stored.iff_slot (env : Env) (f : Filter) (k : Key) :
    Stored env f k ↔ ∃ s, (InBucket (pos1Of env f k) s ∨ InBucket (pos2Of env f k) s) ∧
      f.fingerprintAt s = env.keyToFingerprint k := by
  constructor
  · rintro (h | h)
    · obtain ⟨s, h1, h2⟩ := h.slot
      exact ⟨s, Or.inl h1, h2⟩
    · obtain ⟨s, h1, h2⟩ := h.slot
      exact ⟨s, Or.inr h1, h2⟩
  · rintro ⟨s, h1 | h1, h2⟩
    · exact Or.inl (HasFp.of_slot h1 h2)
    · exact Or.inr (HasFp.of_slot h1 h2)

theorem Stored.mono (env : Env) {f g : Filter} (k : Key) (hs : SameShape f g)
    (hk : ∀ t, f.fingerprintAt t = env.keyToFingerprint k →
      g.fingerprintAt t = env.keyToFingerprint k)
    (h : Stored env f k) : Stored env g k := by
  rw [Stored.iff_slot] at h ⊢
  obtain ⟨s, h1, h2⟩ := h
  exact ⟨s, by rw [pos1Of_shape env hs, pos2Of_shape env hs]; exact h1, hk s h2⟩

theorem insertKey_keeps_fingerprints (env : Env) (f : Filter) (k : Key)
    (h : Stored env f k ∨ HasFree env f k) (hfp : env.keyToFingerprint k ≠ 0) (t : Nat)
    (ht : f.fingerprintAt t ≠ 0) :
    (insertKey env f k).fingerprintAt t = f.fingerprintAt t := by
  by_cases hst : Stored env f k
  · rw [insertKey_of_stored env f k hst hfp]
    unfold slotIncrease
    split <;> rfl
  · have hfree : HasFree env f k := h.resolve_left hst
    rw [insertKey_of_free env f k hst hfree]
    have hs := freeSlot_spec env f k hfree
    have hne : t ≠ freeSlot env f k := by
      rintro rfl
      exact ht hs.2
    exact getD_set_ne _ _ _ _ hne

theorem insertKey_stores (env : Env) (f : Filter) (k : Key) (hin : InTable f)
    (h : Stored env f k ∨ HasFree env f k) (hfp : env.keyToFingerprint k ≠ 0) :
    Stored env (insertKey env f k) k := by
  have hshape := insertKey_shape env f k
  by_cases hst : Stored env f k
  · refine Stored.mono env k hshape (fun t ht => ?_) hst
    rw [insertKey_keeps_fingerprints env f k h hfp t (by rw [ht]; exact hfp)]
    exact ht
  · have hfree : HasFree env f k := h.resolve_left hst
    have hs := freeSlot_spec env f k hfree
    rw [Stored.iff_slot]
    refine ⟨freeSlot env f k, ?_, ?_⟩
    · rw [pos1Of_shape env hshape, pos2Of_shape env hshape]; exact hs.1
    · rw [insertKey_of_free env f k hst hfree]
      have hlt : freeSlot env f k < f.slots.length := by
        rcases hs.1 with hb | hb
        · exact hb.lt (hin.2.2 _) hin.1
        · exact hb.lt (hin.2.2 _) hin.1
      exact getD_set_self_sub _ _ _ (fun _ => hlt)

theorem insertKey_keeps_stored (env : Env) (f : Filter) (k j : Key)
    (h : Stored env f k ∨ HasFree env f k) (hfp : env.keyToFingerprint k ≠ 0)
    (hfj : env.keyToFingerprint j ≠ 0) (hj : Stored env f j) :
    Stored env (insertKey env f k) j := by
  refine Stored.mono env j (insertKey_shape env f k) (fun t ht => ?_) hj
  rw [insertKey_keeps_fingerprints env f k h hfp t (by rw [ht]; exact hfj)]
  exact ht


/-! ## lookup after inserts -/

theorem lookup_eq_true (env : Env) (e : Estimator) (k : Key) :
    lookup env e k = true ↔ Stored env e.toFilter k :=
  findSlotNoCuckoo_found e.toFilter _ _ _

theorem foldl_insert_toFilter (env : Env) (keys : List Key) :
    ∀ e : Estimator, (keys.foldl (insert env) e).toFilter = keys.foldl (insertKey env) e.toFilter := by
  induction keys with
  | nil => intro e; rfl
  | cons k ks ih => intro e; rw [List.foldl_cons, ih]; rfl

theorem foldl_insertKey_shape (env : Env) (keys : List Key) :
    ∀ f : Filter, SameShape f (keys.foldl (insertKey env) f) :=
  foldl_insert_shape env keys

theorem foldl_insertKey_stored (env : Env) (keys : List Key) :
    ∀ f : Filter, InTable f → (∀ k ∈ keys, env.keyToFingerprint k ≠ 0) →
      NoEviction env f keys →
      (∀ j, env.keyToFingerprint j ≠ 0 → Stored env f j →
        Stored env (keys.foldl (insertKey env) f) j) ∧
      ∀ k ∈ keys, Stored env (keys.foldl (insertKey env) f) k := by
  induction keys with
  | nil => intro f _ _ _; exact ⟨fun j _ hj => hj, fun k hk => by cases hk⟩
  | cons k ks ih =>
    intro f hin hfp hne
    obtain ⟨hk, hrest⟩ := hne
    have hfk := hfp k (List.mem_cons_self _ _)
    obtain ⟨keep, all⟩ := ih (insertKey env f k) (hin.of_shape (insertKey_shape env f k))
      (fun j hj => hfp j (List.mem_cons_of_mem _ hj)) hrest
    refine ⟨fun j hfj hj => ?_, fun j hj => ?_⟩
    · exact keep j hfj (insertKey_keeps_stored env f k j hk hfk hfj hj)
    · rcases List.mem_cons.mp hj with rfl | hj
      · exact keep j hfk (insertKey_stores env f j hin hk hfk)
      · exact all j hj

/-- C17, as the model has it: after a sequence of `insert` calls on a freshly
constructed estimator none of which had to evict an entry (each key found its
fingerprint or an empty slot in one of its two candidate buckets), `lookup(k)`
returns `true` for every key `k` that was inserted. Fingerprints are non-zero,
as `keyToFingerprint` is specified. -/
theorem lookup_after_inserts_without_eviction (env : Env) (fuel n : Nat) (e : Estimator)
    (keys : List Key) (hc : construct fuel n = some e)
    (hfp : ∀ k ∈ keys, env.keyToFingerprint k ≠ 0)
    (hne : NoEviction env e.toFilter keys) :
    ∀ k ∈ keys, lookup env (keys.foldl (insert env) e) k = true := by
  intro k hk
  rw [lookup_eq_true, foldl_insert_toFilter]
  exact (foldl_insertKey_stored env keys e.toFilter (construct_fresh fuel n e hc).1.inTable hfp
    hne).2 k hk

set_option maxRecDepth 100000 in
/-- C17, as the model has it, at a concrete input: keys 1, 2, 3, 2 inserted into
the estimator constructed for a requested size of 0. -/
theorem lookup_after_inserts_without_eviction_witness :
    (construct 257 0 = some minimalEstimator ∧
      (∀ k ∈ [1, 2, 3, 2], sampleEnv.keyToFingerprint k ≠ 0) ∧
      NoEviction sampleEnv minimalEstimator.toFilter [1, 2, 3, 2]) ∧
    ∀ k ∈ [1, 2, 3, 2], lookup sampleEnv ([1, 2, 3, 2].foldl (insert sampleEnv) minimalEstimator) k
      = true :=
  ⟨⟨construct_zero, by decide, by decide⟩,
    lookup_after_inserts_without_eviction sampleEnv 257 0 minimalEstimator [1, 2, 3, 2]
      construct_zero (by decide) (by decide)⟩

set_option maxRecDepth 100000 in
/-- C17 fails as stated: with hash functions that send the keys 0 to 8 to the
candidate buckets 0 and 1, the nine inserts into the estimator constructed for a
requested size of 0 drop no entry (`nrCuckood` is 0 after each of them), but
the ninth evicts the entry of key 0 from bucket 0, which takes the place of the
entry of key 4 in bucket 1, which moves on to bucket 2; `lookup(4)` probes the
buckets 0 and 1 and returns `false`. -/
theorem lookup_false_negative_without_drop :
    construct 257 0 = some minimalEstimator ∧
      (∀ m, m ≤ 9 →
        (([0, 1, 2, 3, 4, 5, 6, 7, 8].take m).foldl (insert driftEnv) minimalEstimator).nrCuckood
          = 0) ∧
      4 ∈ [0, 1, 2, 3, 4, 5, 6, 7, 8] ∧
      lookup driftEnv ([0, 1, 2, 3, 4, 5, 6, 7, 8].foldl (insert driftEnv) minimalEstimator) 4
        = false := by
  refine ⟨construct_zero, ?_, by decide, by decide⟩
  decide


/-! ## One key inserted repeatedly -/

theorem Fresh.fingerprintAt {e : Estimator} (h : Fresh e) (t : Nat) : e.fingerprintAt t = 0 := by
  unfold Filter.fingerprintAt
  rw [h.1]
  simp only [List.getD_eq_getElem?_getD, List.getElem?_replicate]
  split <;> rfl

theorem Fresh.not_stored {e : Estimator} (h : Fresh e) (env : Env) (k : Key)
    (hfp : env.keyToFingerprint k ≠ 0) : ¬ Stored env e.toFilter k := by
  rw [Stored.iff_slot]
  rintro ⟨s, -, hs⟩
  rw [h.fingerprintAt s] at hs
  exact hfp hs.symm

theorem Fresh.hasFree {e : Estimator} (h : Fresh e) (env : Env) (k : Key) :
    HasFree env e.toFilter k :=
  Or.inl ⟨0, by decide, h.fingerprintAt _⟩

theorem slotIncrease_frame (f : Filter) (s : Nat) :
    (slotIncrease f s).nrUsed = f.nrUsed ∧ (slotIncrease f s).nrCuckood = f.nrCuckood ∧
      (slotIncrease f s).nrTotal = f.nrTotal ∧ (slotIncrease f s).slots = f.slots := by
  unfold slotIncrease
  split <;> exact ⟨rfl, rfl, rfl, rfl⟩

theorem iterate_insert_toFilter (env : Env) (k : Key) (N : Nat) (e : Estimator) :
    ((fun x => insert env x k)^[N] e).toFilter = (fun f => insertKey env f k)^[N] e.toFilter := by
  induction N with
  | zero => rfl
  | succ n ih =>
    rw [Function.iterate_succ_apply', Function.iterate_succ_apply', ← ih]
    rfl

theorem iterate_insertKey (env : Env) (e : Estimator) (k : Key) (hf : Fresh e)
    (hfp : env.keyToFingerprint k ≠ 0) (N : Nat) :
    InTable ((fun f => insertKey env f k)^[N + 1] e.toFilter) ∧
      Stored env ((fun f => insertKey env f k)^[N + 1] e.toFilter) k ∧
      ((fun f => insertKey env f k)^[N + 1] e.toFilter).nrUsed = 1 ∧
      ((fun f => insertKey env f k)^[N + 1] e.toFilter).nrTotal = (N + 1) % 2 ^ 64 := by
  induction N with
  | zero =>
    have hns := hf.not_stored env k hfp
    have hfr := hf.hasFree env k
    refine ⟨hf.inTable.of_shape (insertKey_shape env _ k),
      insertKey_stores env _ k hf.inTable (Or.inr hfr) hfp, ?_, ?_⟩
    · show (insertKey env e.toFilter k).nrUsed = 1
      rw [insertKey_of_free env _ k hns hfr]
      show u64 (e.nrUsed + 1) = 1
      rw [hf.2.2.1]; rfl
    · show (insertKey env e.toFilter k).nrTotal = (0 + 1) % 2 ^ 64
      rw [insertKey_nrTotal]
      show u64 (e.nrTotal + 1) = _
      rw [hf.2.2.2.2.1]; rfl
  | succ n ih =>
    obtain ⟨hin, hst, hu, ht⟩ := ih
    rw [Function.iterate_succ_apply']
    refine ⟨hin.of_shape (insertKey_shape env _ k), insertKey_stores env _ k hin (Or.inl hst) hfp,
      ?_, ?_⟩
    · rw [insertKey_of_stored env _ k hst hfp]
      show (slotIncrease _ _).nrUsed = 1
      rw [(slotIncrease_frame _ _).1, hu]
    · rw [insertKey_nrTotal, ht]
      simp only [u64]
      omega

/-- C18 (amended): for every key `k` (with a non-zero fingerprint, as
`keyToFingerprint` is specified) and every `N >= 1` that fits the 64-bit
counter, `N` calls of `insert(k)` on a freshly constructed estimator leave
`nrUsed = 1` and `nrTotal = N`, and `computeEstimate` returns the
double-precision quotient of 1 and the double nearest to `N`. The value lies
between 0 and 1; it is exactly `1 / N` when `N` is a power of two, and for
`N < 2 ^ 53` it differs from `1 / N` by at most `(1 / N) * 2 ^ (-53)`. -/
theorem repeated_key (env : Env) (fuel n : Nat) (e : Estimator) (k : Key) (N : Nat)
    (hc : construct fuel n = some e) (hfp : env.keyToFingerprint k ≠ 0)
    (hN : 1 ≤ N) (hN64 : N < 2 ^ 64) :
    ((fun x => insert env x k)^[N] e).nrUsed = 1 ∧
      ((fun x => insert env x k)^[N] e).nrTotal = N ∧
      (computeEstimate ((fun x => insert env x k)^[N] e)).1 = divDouble 1 (toDouble N) ∧
      0 ≤ (computeEstimate ((fun x => insert env x k)^[N] e)).1 ∧
      (computeEstimate ((fun x => insert env x k)^[N] e)).1 ≤ 1 ∧
      (∀ j, N = 2 ^ j → (computeEstimate ((fun x => insert env x k)^[N] e)).1 = 1 / (N : ℚ)) ∧
      (N < 2 ^ 53 →
        |(computeEstimate ((fun x => insert env x k)^[N] e)).1 - 1 / (N : ℚ)| ≤
          1 / (N : ℚ) / 2 ^ 53) := by
  obtain ⟨m, rfl⟩ : ∃ m, N = m + 1 := ⟨N - 1, by omega⟩
  obtain ⟨-, -, hu, ht⟩ := iterate_insertKey env e k (construct_fresh fuel n e hc).1 hfp m
  rw [← iterate_insert_toFilter] at hu ht
  rw [Nat.mod_eq_of_lt hN64] at ht
  have hu2 : ((fun x => insert env x k)^[m + 1] e).nrUsed = 1 := hu
  have ht2 : ((fun x => insert env x k)^[m + 1] e).nrTotal = m + 1 := ht
  have hmin : min 1 (m + 1) = 1 := Nat.min_eq_left (by omega)
  have h1 : toDouble 1 = 1 := toDouble_of_lt 1 (by norm_num)
  have hv : (computeEstimate ((fun x => insert env x k)^[m + 1] e)).1 =
      divDouble 1 (toDouble (m + 1)) := by
    rw [computeEstimate_eq, hu2, ht2, if_neg (by omega), hmin, h1]
  refine ⟨hu2, ht2, hv, ?_, ?_, ?_, ?_⟩
  · rw [hv]
    exact divDouble_nonneg _ _
  · rw [hv]
    exact divDouble_le_one _ _ (toDouble_pos _ (by omega))
  · intro j hj
    have hj64 : j ≤ 64 := by
      have h2 : 2 ^ j < 2 ^ 64 := by omega
      exact Nat.le_of_lt ((Nat.pow_lt_pow_iff_right (by norm_num : 1 < 2)).mp h2)
    rw [hv, hj, toDouble_pow, divDouble_one_pow j hj64]
    push_cast
    rfl
  · intro h53
    rw [hv, toDouble_of_lt _ h53]
    have := divDouble_err_of_le 1 (m + 1) (by norm_num) (by omega)
      (le_trans (Nat.le_of_lt h53) (by norm_num))
    simpa using this

set_option maxRecDepth 100000 in
/-- C18, at a concrete input: key 1 inserted four times into the estimator
constructed for a requested size of 0; the estimate is one quarter. -/
theorem repeated_key_witness :
    (construct 257 0 = some minimalEstimator ∧ sampleEnv.keyToFingerprint 1 ≠ 0 ∧ 1 ≤ 4 ∧
      4 < 2 ^ 64) ∧
    (((fun x => insert sampleEnv x 1)^[4] minimalEstimator).nrUsed = 1 ∧
      ((fun x => insert sampleEnv x 1)^[4] minimalEstimator).nrTotal = 4 ∧
      (computeEstimate ((fun x => insert sampleEnv x 1)^[4] minimalEstimator)).1 =
        1 / ((4 : Nat) : ℚ)) :=
  have h := repeated_key sampleEnv 257 0 minimalEstimator 1 4 construct_zero (by decide)
    (by decide) (by decide)
  ⟨⟨construct_zero, by decide, by decide, by decide⟩, h.1, h.2.1, h.2.2.2.2.2.1 2 rfl⟩

/-- C18 fails as stated for `N = 3`: after three calls of `insert(1)` on the
estimator constructed for a requested size of 0, `nrUsed = 1` and `nrTotal = 3`,
and `computeEstimate` returns `6004799503160661 / 2 ^ 54`, the double nearest
to one third, which is not `1 / 3`. -/
theorem repeated_key_estimate_is_rounded :
    construct 257 0 = some minimalEstimator ∧
      ((fun x => insert sampleEnv x 1)^[3] minimalEstimator).nrUsed = 1 ∧
      ((fun x => insert sampleEnv x 1)^[3] minimalEstimator).nrTotal = 3 ∧
      (computeEstimate ((fun x => insert sampleEnv x 1)^[3] minimalEstimator)).1 =
        6004799503160661 / 2 ^ 54 ∧
      (6004799503160661 / 2 ^ 54 : ℚ) ≠ 1 / ((3 : Nat) : ℚ) := by
  obtain ⟨-, -, hu, ht⟩ := iterate_insertKey sampleEnv minimalEstimator 1
    (construct_fresh 257 0 _ construct_zero).1 (Nat.succ_ne_zero _) 2
  rw [← iterate_insert_toFilter] at hu ht
  have hu2 : ((fun x => insert sampleEnv x 1)^[3] minimalEstimator).nrUsed = 1 := hu
  have ht2 : ((fun x => insert sampleEnv x 1)^[3] minimalEstimator).nrTotal = 3 := ht
  refine ⟨construct_zero, hu2, ht2, ?_, by norm_num⟩
  rw [computeEstimate_eq, hu2, ht2, if_neg (by decide), show min 1 3 = 1 from rfl,
    toDouble_of_lt 1 (by norm_num), toDouble_of_lt 3 (by norm_num), divDouble_one_three]


/-! ## Distinct keys, one slot each -/

theorem countP_set_zero (l : List Nat) (v : Nat) (hv : v ≠ 0) :
    ∀ s, s < l.length → l.getD s 0 = 0 →
      (l.set s v).countP (fun x => decide (x ≠ 0)) = l.countP (fun x => decide (x ≠ 0)) + 1 := by
  induction l with
  | nil => intro s hs; simp at hs
  | cons a l ih =>
    intro s hs h0
    cases s with
    | zero =>
      have ha : a = 0 := by simpa using h0
      subst ha
      simp [List.countP_cons, hv]
    | succ s =>
      have := ih s (by simpa using hs) (by simpa using h0)
      simp only [List.set_cons_succ, List.countP_cons, this]
      omega

theorem InBucket.unique {p q s : Nat} (h1 : InBucket p s) (h2 : InBucket q s) : p = q := by
  obtain ⟨i, hi, rfl⟩ := h1
  obtain ⟨j, hj, h⟩ := h2
  simp only [findSlot, kSlotsPerBucket] at hi hj h
  omega

theorem Compatible.symm {env : Env} {f : Filter} {a b : Key} (h : Compatible env f a b) :
    Compatible env f b a := by
  intro hfp
  obtain ⟨h1, h2, h3, h4⟩ := h hfp.symm
  exact ⟨fun hc => h1 hc.symm, fun hc => h3 hc.symm, fun hc => h2 hc.symm, fun hc => h4 hc.symm⟩

theorem Owns.clash {env : Env} {f0 f g : Filter} {a b : Key} {s : Nat}
    (ha : Owns env f0 f a s) (hb : Owns env f0 g b s)
    (hfp : env.keyToFingerprint a = env.keyToFingerprint b) : ¬ Compatible env f0 a b := by
  intro hc
  obtain ⟨h1, h2, h3, h4⟩ := hc hfp
  rcases ha.1 with x | x <;> rcases hb.1 with y | y
  · exact h1 (x.unique y)
  · exact h2 (x.unique y)
  · exact h3 (x.unique y)
  · exact h4 (x.unique y)

theorem Stored.iff_owns (env : Env) {f0 f : Filter} (hs : SameShape f0 f) (k : Key) :
    Stored env f k ↔ ∃ s, Owns env f0 f k s := by
  rw [Stored.iff_slot, pos1Of_shape env hs, pos2Of_shape env hs]
  rfl

theorem OneSlotEach.fresh (env : Env) {e : Estimator} (h : Fresh e) :
    OneSlotEach env e.toFilter e.toFilter [] := by
  refine ⟨SameShape.refl _, fun k hk => (by cases hk), fun s hs => absurd (h.fingerprintAt s) hs,
    fun k hk => (by cases hk), h.2.2.1, h.2.2.2.2.1, h.2.2.2.1, Nat.zero_le _⟩


theorem getD_set_eq (l : List Nat) (s t v : Nat) (hs : s < l.length) :
    (l.set s v).getD t 0 = if t = s then v else l.getD t 0 := by
  by_cases h : t = s
  · subst h
    rw [if_pos rfl]
    exact getD_set_self_sub _ _ _ (fun _ => hs)
  · rw [if_neg h]
    exact getD_set_ne _ _ _ _ h

theorem OneSlotEach.insert (env : Env) {f0 f : Filter} {L : List Key} (k : Key)
    (hinv : OneSlotEach env f0 f L) (hin : InTable f0) (hsize : f0.size < 2 ^ 32)
    (hcompat : ∀ j ∈ L, Compatible env f0 j k) (hfp : env.keyToFingerprint k ≠ 0)
    (hne : Stored env f k ∨ HasFree env f k) :
    OneSlotEach env f0 (insertKey env f k) (k :: L) := by
  obtain ⟨hshape, hfpL, hocc, hkeys, hU, hT, hC, hcnt⟩ := hinv
  have hinf : InTable f := hin.of_shape hshape
  have hns : ¬ Stored env f k := by
    rw [Stored.iff_owns env hshape]
    rintro ⟨s, hs⟩
    obtain ⟨-, j, hj, hjs⟩ := hocc s (by rw [hs.2]; exact hfp)
    exact hjs.clash hs (hjs.2.symm.trans hs.2) (hcompat j hj)
  have hfree := hne.resolve_left hns
  have hfs := freeSlot_spec env f k hfree
  have hf2 := insertKey_of_free env f k hns hfree
  generalize freeSlot env f k = s0 at hfs hf2
  have hb0 : InBucket (pos1Of env f0 k) s0 ∨ InBucket (pos2Of env f0 k) s0 := by
    rw [← pos1Of_shape env hshape, ← pos2Of_shape env hshape]; exact hfs.1
  have hlt : s0 < f.slots.length := by
    rcases hfs.1 with hb | hb
    · exact hb.lt (hinf.2.2 _) hinf.1
    · exact hb.lt (hinf.2.2 _) hinf.1
  have hltc : s0 < f.counters.length := by rw [hinf.2.1, ← hinf.1]; exact hlt
  have hfpa : ∀ t, (insertKey env f k).fingerprintAt t =
      if t = s0 then env.keyToFingerprint k else f.fingerprintAt t := by
    intro t; rw [hf2]; exact getD_set_eq _ _ _ _ hlt
  have hcta : ∀ t, (insertKey env f k).counterAt t = if t = s0 then 1 else f.counterAt t := by
    intro t; rw [hf2]; exact getD_set_eq _ _ _ _ hltc
  have hcnt2 : (insertKey env f k).slots.countP (fun x => decide (x ≠ 0)) =
      f.slots.countP (fun x => decide (x ≠ 0)) + 1 := by
    rw [hf2]; exact countP_set_zero _ _ hfp _ hlt hfs.2
  have hlen2 : (insertKey env f k).slots.length = f0.size * kSlotsPerBucket := by
    rw [hf2]; simp only [List.length_set]; rw [hinf.1, hshape.1]
  have hbound : L.length + 1 < 2 ^ 64 := by
    have h1 := @List.countP_le_length _ (fun x => decide (x ≠ 0)) (insertKey env f k).slots
    rw [hlen2, hcnt2] at h1
    simp only [kSlotsPerBucket] at h1
    omega
  have hown : ∀ j t, t ≠ s0 → (Owns env f0 (insertKey env f k) j t ↔ Owns env f0 f j t) := by
    intro j t ht
    unfold Owns
    rw [hfpa t, if_neg ht]
  have hown0 : Owns env f0 (insertKey env f k) k s0 := ⟨hb0, by rw [hfpa s0, if_pos rfl]⟩
  have hnot0 : ∀ j ∈ L, ¬ Owns env f0 (insertKey env f k) j s0 := by
    intro j hj hjs
    exact hjs.clash hown0 (hjs.2.symm.trans hown0.2) (hcompat j hj)
  refine ⟨SameShape.trans hshape (insertKey_shape env f k), ?_, ?_, ?_, ?_, ?_, ?_, ?_⟩
  · intro j hj
    rcases List.mem_cons.mp hj with rfl | hj
    · exact hfp
    · exact hfpL j hj
  · intro t ht
    by_cases hts : t = s0
    · subst hts
      exact ⟨by rw [hcta t, if_pos rfl], k, List.mem_cons_self _ _, hown0⟩
    · rw [hfpa t, if_neg hts] at ht
      obtain ⟨hc1, j, hj, hjs⟩ := hocc t ht
      exact ⟨by rw [hcta t, if_neg hts]; exact hc1, j, List.mem_cons_of_mem _ hj,
        (hown j t hts).mpr hjs⟩
  · intro j hj
    rcases List.mem_cons.mp hj with rfl | hj
    · refine ⟨⟨s0, hown0⟩, ?_⟩
      have hall : ∀ t, Owns env f0 (insertKey env f j) j t → t = s0 := by
        intro t ht
        by_contra hts
        exact hns ((Stored.iff_owns env hshape j).mpr ⟨t, (hown j t hts).mp ht⟩)
      intro s t hs ht
      rw [hall s hs, hall t ht]
    · obtain ⟨⟨s, hs⟩, huniq⟩ := hkeys j hj
      have hne0 : ∀ t, Owns env f0 (insertKey env f k) j t → t ≠ s0 := by
        rintro t ht rfl
        exact hnot0 j hj ht
      have hs0 : s ≠ s0 := by
        rintro rfl
        have := hs.2
        rw [hfs.2] at this
        exact hfpL j hj this.symm
      refine ⟨⟨s, (hown j s hs0).mpr hs⟩, fun a b ha hb => ?_⟩
      exact huniq a b ((hown j a (hne0 a ha)).mp ha) ((hown j b (hne0 b hb)).mp hb)
  · rw [hf2]
    show u64 (f.nrUsed + 1) = (k :: L).length
    rw [hU, List.length_cons]
    exact Nat.mod_eq_of_lt hbound
  · rw [hf2]
    show u64 (f.nrTotal + 1) = (k :: L).length
    rw [hT, List.length_cons]
    exact Nat.mod_eq_of_lt hbound
  · rw [hf2]; exact hC
  · rw [hcnt2, List.length_cons]
    omega


theorem OneSlotEach.run (env : Env) {f0 : Filter} (hin : InTable f0) (hsize : f0.size < 2 ^ 32) :
    ∀ (ks : List Key) (f : Filter) (L : List Key), OneSlotEach env f0 f L →
      (∀ j ∈ L, ∀ k ∈ ks, Compatible env f0 j k) → ks.Pairwise (Compatible env f0) →
      (∀ k ∈ ks, env.keyToFingerprint k ≠ 0) → NoEviction env f ks →
      OneSlotEach env f0 (ks.foldl (insertKey env) f) (ks.reverse ++ L) := by
  intro ks
  induction ks with
  | nil => intro f L h _ _ _ _; exact h
  | cons k ks ih =>
    intro f L hinv hLk hpw hfp hne
    obtain ⟨hk, hrest⟩ := hne
    rw [List.pairwise_cons] at hpw
    have hstep := OneSlotEach.insert env k hinv hin hsize
      (fun j hj => hLk j hj k (List.mem_cons_self _ _)) (hfp k (List.mem_cons_self _ _)) hk
    have := ih (insertKey env f k) (k :: L) hstep
      (fun j hj k2 hk2 => by
        rcases List.mem_cons.mp hj with rfl | hj
        · exact hpw.1 k2 hk2
        · exact hLk j hj k2 (List.mem_cons_of_mem _ hk2))
      hpw.2 (fun j hj => hfp j (List.mem_cons_of_mem _ hj)) hrest
    rw [List.reverse_cons, List.append_assoc]
    exact this

theorem sub64_one (a : Nat) (h : 1 ≤ a) : sub64 a 1 = a - 1 := by
  simp only [sub64]
  rw [if_pos h]

/-- C16, as the model has it: on a freshly constructed estimator, for keys no
two of which have both the same fingerprint and a common candidate bucket
(fingerprints are non-zero, as `keyToFingerprint` is specified), inserted once
each without any insert having to evict an entry, and a key `r` among them:
`remove(r)` returns `true`; afterwards `lookup(r)` is `false`, `lookup` is `true`
for every other inserted key, `nrUsed` and `nrTotal` are the number of keys
left, and `computeEstimate` returns 1. -/
theorem insert_distinct_then_remove (env : Env) (fuel n : Nat) (e : Estimator)
    (keys : List Key) (r : Key) (hc : construct fuel n = some e)
    (hfp : ∀ k ∈ keys, env.keyToFingerprint k ≠ 0)
    (hcompat : keys.Pairwise (Compatible env e.toFilter))
    (hne : NoEviction env e.toFilter keys) (hr : r ∈ keys) :
    (remove env (keys.foldl (insert env) e) r).2 = true ∧
      lookup env (remove env (keys.foldl (insert env) e) r).1 r = false ∧
      (∀ k ∈ keys, k ≠ r → lookup env (remove env (keys.foldl (insert env) e) r).1 k = true) ∧
      (remove env (keys.foldl (insert env) e) r).1.nrUsed = keys.length - 1 ∧
      (remove env (keys.foldl (insert env) e) r).1.nrTotal = keys.length - 1 ∧
      (computeEstimate (remove env (keys.foldl (insert env) e) r).1).1 = 1 := by
  obtain ⟨hfresh, -, hsize⟩ := construct_fresh fuel n e hc
  have hinv := OneSlotEach.run env hfresh.inTable hsize keys e.toFilter []
    (OneSlotEach.fresh env hfresh) (fun j hj => by cases hj) hcompat hfp hne
  rw [List.append_nil, ← foldl_insert_toFilter] at hinv
  generalize keys.foldl (insert env) e = e1 at hinv ⊢
  obtain ⟨hshape, hfpL, hocc, hkeys, hU, hT, -, -⟩ := hinv
  have hlen : 1 ≤ keys.length := List.length_pos_of_mem hr
  rw [List.length_reverse] at hU hT
  have hrr : r ∈ keys.reverse := List.mem_reverse.mpr hr
  have hfr := hfp r hr
  obtain ⟨⟨s1, hs1⟩, huniq⟩ := hkeys r hrr
  have hst : Stored env e1.toFilter r := (Stored.iff_owns env hshape r).mpr ⟨s1, hs1⟩
  have hfs := foundSlot_spec env e1.toFilter r hst
  have hrk := removeKey_found env e1.toFilter r hst
  generalize foundSlot env e1.toFilter r = s at hfs hrk
  have hso : Owns env e.toFilter e1.toFilter r s :=
    ⟨by rw [← pos1Of_shape env hshape, ← pos2Of_shape env hshape]; exact hfs.1, hfs.2⟩
  have hne0 : e1.fingerprintAt s ≠ 0 := by rw [hfs.2]; exact hfr
  have hc1 : e1.counterAt s = 1 := (hocc s hne0).1
  have hlt : s < e1.slots.length :=
    getD_pos_lt _ _ (Nat.pos_of_ne_zero hne0)
  rw [hc1] at hrk
  simp only [Nat.sub_self, Nat.lt_irrefl, if_false] at hrk
  have hshape2 : SameShape e.toFilter (removeKey env e1.toFilter r).1 :=
    SameShape.trans hshape (removeKey_shape env e1.toFilter r)
  have hfpa : ∀ t, (removeKey env e1.toFilter r).1.fingerprintAt t =
      if t = s then 0 else e1.fingerprintAt t := by
    intro t; rw [hrk]; exact getD_set_eq _ _ _ _ hlt
  have hsym : Symmetric (Compatible env e.toFilter) := fun a b h => h.symm
  have h2 : (remove env e1 r).2 = true := by
    show (removeKey env e1.toFilter r).2 = true
    rw [hrk]
  have hu2 : (remove env e1 r).1.nrUsed = keys.length - 1 := by
    show (removeKey env e1.toFilter r).1.nrUsed = keys.length - 1
    rw [hrk]
    show sub64 e1.nrUsed 1 = _
    rw [hU, sub64_one _ hlen]
  have ht2 : (remove env e1 r).1.nrTotal = keys.length - 1 := by
    show (removeKey env e1.toFilter r).1.nrTotal = keys.length - 1
    rw [hrk]
    show sub64 e1.nrTotal 1 = _
    rw [hT, sub64_one _ hlen]
  refine ⟨h2, ?_, ?_, hu2, ht2, ?_⟩
  · rw [Bool.eq_false_iff, Ne, lookup_eq_true]
    show ¬ Stored env (removeKey env e1.toFilter r).1 r
    rw [Stored.iff_owns env hshape2 r]
    rintro ⟨t, ht⟩
    have hts : t ≠ s := by
      rintro rfl
      have := ht.2
      rw [hfpa t, if_pos rfl] at this
      exact hfr this.symm
    have ht1 : Owns env e.toFilter e1.toFilter r t := by
      refine ⟨ht.1, ?_⟩
      have := ht.2
      rw [hfpa t, if_neg hts] at this
      exact this
    exact hts (huniq t s ht1 hso)
  · intro k hk hkr
    rw [lookup_eq_true]
    show Stored env (removeKey env e1.toFilter r).1 k
    rw [Stored.iff_owns env hshape2 k]
    obtain ⟨⟨t, ht⟩, -⟩ := hkeys k (List.mem_reverse.mpr hk)
    have hts : t ≠ s := by
      rintro rfl
      exact ht.clash hso (ht.2.symm.trans hso.2) (hcompat.forall hsym hk hr hkr)
    exact ⟨t, ht.1, by rw [hfpa t, if_neg hts]; exact ht.2⟩
  · exact computeEstimate_of_ge _ (le_of_eq (ht2.trans hu2.symm))


set_option maxRecDepth 100000 in
/-- C16, as the model has it, at the input of the specification: keys 1, 2, 3
inserted into the estimator constructed for a requested size of 0, then key 2
removed. -/
theorem insert_distinct_then_remove_witness :
    (construct 257 0 = some minimalEstimator ∧
      (∀ k ∈ [1, 2, 3], sampleEnv.keyToFingerprint k ≠ 0) ∧
      [1, 2, 3].Pairwise (Compatible sampleEnv minimalEstimator.toFilter) ∧
      NoEviction sampleEnv minimalEstimator.toFilter [1, 2, 3] ∧ 2 ∈ [1, 2, 3]) ∧
    ((remove sampleEnv ([1, 2, 3].foldl (insert sampleEnv) minimalEstimator) 2).2 = true ∧
      lookup sampleEnv (remove sampleEnv ([1, 2, 3].foldl (insert sampleEnv) minimalEstimator) 2).1
        2 = false ∧
      (∀ k ∈ [1, 2, 3], k ≠ 2 →
        lookup sampleEnv
          (remove sampleEnv ([1, 2, 3].foldl (insert sampleEnv) minimalEstimator) 2).1 k = true) ∧
      (remove sampleEnv ([1, 2, 3].foldl (insert sampleEnv) minimalEstimator) 2).1.nrUsed =
        [1, 2, 3].length - 1 ∧
      (remove sampleEnv ([1, 2, 3].foldl (insert sampleEnv) minimalEstimator) 2).1.nrTotal =
        [1, 2, 3].length - 1 ∧
      (computeEstimate
        (remove sampleEnv ([1, 2, 3].foldl (insert sampleEnv) minimalEstimator) 2).1).1 = 1) :=
  ⟨⟨construct_zero, by decide, by decide, by decide, by decide⟩,
    insert_distinct_then_remove sampleEnv 257 0 minimalEstimator [1, 2, 3] 2 construct_zero
      (by decide) (by decide) (by decide) (by decide)⟩

set_option maxRecDepth 100000 in
/-- C16 fails as stated: with hash functions that send the keys 0 to 8 to the
candidate buckets 0 and 1 and give them the distinct fingerprints 1 to 9, the
nine inserts into the estimator constructed for a requested size of 0 drop no
entry (`nrCuckood` is 0 after each of them), but the ninth moves the entry of
key 4 to bucket 2; `remove(4)` then returns `false` and leaves
`nrUsed = nrTotal = 9`, not 8. -/
theorem remove_misses_relocated_key :
    construct 257 0 = some minimalEstimator ∧
      [0, 1, 2, 3, 4, 5, 6, 7, 8].Pairwise (Compatible driftEnv minimalEstimator.toFilter) ∧
      [0, 1, 2, 3, 4, 5, 6, 7, 8].Nodup ∧
      (∀ m, m ≤ 9 →
        (([0, 1, 2, 3, 4, 5, 6, 7, 8].take m).foldl (insert driftEnv) minimalEstimator).nrCuckood
          = 0) ∧
      (remove driftEnv ([0, 1, 2, 3, 4, 5, 6, 7, 8].foldl (insert driftEnv) minimalEstimator)
        4).2 = false ∧
      (remove driftEnv ([0, 1, 2, 3, 4, 5, 6, 7, 8].foldl (insert driftEnv) minimalEstimator)
        4).1.nrUsed = 9 ∧
      (remove driftEnv ([0, 1, 2, 3, 4, 5, 6, 7, 8].foldl (insert driftEnv) minimalEstimator)
        4).1.nrTotal = 9 := by
  refine ⟨construct_zero, by decide, by decide, ?_, by decide, by decide, by decide⟩
  decide


/-! ## Batch operations and single-key operations -/

theorem foldl_remove_toFilter (env : Env) (keys : List Key) :
    ∀ e : Estimator,
      (keys.foldl (fun x k => (remove env x k).1) e).toFilter =
        keys.foldl (fun f k => (removeKey env f k).1) e.toFilter := by
  induction keys with
  | nil => intro e; rfl
  | cons k ks ih => intro e; rw [List.foldl_cons, ih]; rfl

theorem foldl_insertBatchStep_eq (env : Env) (keys : List Key) (f : Filter) :
    keys.foldl (insertBatchStep env) f = keys.foldl (insertKey env) f := rfl

theorem foldl_removeBatchStep_eq (env : Env) (keys : List Key) :
    ∀ f : Filter,
      keys.foldl (removeBatchStep env) f = keys.foldl (fun g k => (removeKey env g k).1) f := by
  induction keys with
  | nil => intro f; rfl
  | cons k ks ih => intro f; rw [List.foldl_cons, List.foldl_cons, removeBatchStep_eq, ih]

/-- C29: for every state and every key list, `insert(keys)` leaves the filter
members (slots, counters, `nrUsed`, `nrTotal`, `nrCuckood`, the random state and
the geometry) exactly as the calls `insert(k)` for the keys in list order do,
and `remove(keys)` exactly as the calls `remove(k)` do; for the empty list both
batch operations leave the whole estimator as it was. -/
theorem batch_equals_folded_single (env : Env) (e : Estimator) (keys : List Key) :
    (insertBatch env e keys).toFilter = (keys.foldl (insert env) e).toFilter ∧
      (removeBatch env e keys).toFilter =
        (keys.foldl (fun x k => (remove env x k).1) e).toFilter ∧
      insertBatch env e [] = e ∧ removeBatch env e [] = e := by
  refine ⟨?_, ?_, rfl, rfl⟩
  · rw [insertBatch_toFilter, foldl_insert_toFilter, foldl_insertBatchStep_eq]
  · rw [removeBatch_toFilter, foldl_remove_toFilter, foldl_removeBatchStep_eq]

/-! ## computeEstimate and the state -/

theorem computeEstimate_state (e : Estimator) :
    (computeEstimate e).2 =
      if e.nrTotal ≠ 0 ∧ e.nrTotal < e.nrUsed then { e with nrTotal := e.nrUsed } else e := by
  unfold computeEstimate
  by_cases h0 : e.nrTotal = 0
  · simp [h0]
  · by_cases hgt : e.nrUsed > e.nrTotal
    · simp [h0, hgt]
    · have : ¬ e.nrTotal < e.nrUsed := hgt
      simp [h0, hgt, this]

/-- C25, as the code has it: `computeEstimate` leaves `nrUsed`, `nrCuckood`,
every slot and counter, the update buffers and `appliedSeq` as they were; it
leaves `nrTotal` as it was when `nrTotal = 0` or `nrUsed <= nrTotal`, and
otherwise raises `nrTotal` to `nrUsed`. -/
theorem computeEstimate_frame (e : Estimator) :
    (computeEstimate e).2.nrUsed = e.nrUsed ∧ (computeEstimate e).2.nrCuckood = e.nrCuckood ∧
      (computeEstimate e).2.slots = e.slots ∧ (computeEstimate e).2.counters = e.counters ∧
      (computeEstimate e).2.insertBuffers = e.insertBuffers ∧
      (computeEstimate e).2.removalBuffers = e.removalBuffers ∧
      (computeEstimate e).2.truncateBuffer = e.truncateBuffer ∧
      (computeEstimate e).2.appliedSeq = e.appliedSeq ∧
      ((e.nrTotal = 0 ∨ e.nrUsed ≤ e.nrTotal) → (computeEstimate e).2 = e) ∧
      (e.nrTotal ≠ 0 → e.nrTotal < e.nrUsed → (computeEstimate e).2.nrTotal = e.nrUsed) := by
  rw [computeEstimate_state]
  by_cases h : e.nrTotal ≠ 0 ∧ e.nrTotal < e.nrUsed
  · rw [if_pos h]
    refine ⟨rfl, rfl, rfl, rfl, rfl, rfl, rfl, rfl, ?_, fun _ _ => rfl⟩
    rintro (h0 | hle)
    · exact absurd h0 h.1
    · omega
  · rw [if_neg h]
    refine ⟨rfl, rfl, rfl, rfl, rfl, rfl, rfl, rfl, fun _ => rfl, fun h0 hlt => ?_⟩
    exact absurd ⟨h0, hlt⟩ h

/-- C25, as the code has it, at two concrete inputs: an empty table with
consistent statistics, and the same with `nrUsed = 2`, `nrTotal = 1`. -/
theorem computeEstimate_frame_witness :
    ((tinyEstimator.nrTotal = 0 ∨ tinyEstimator.nrUsed ≤ tinyEstimator.nrTotal) ∧
      (computeEstimate tinyEstimator).2 = tinyEstimator) ∧
    ((({ tinyEstimator with nrUsed := 2, nrTotal := 1 } : Estimator).nrTotal ≠ 0 ∧
        ({ tinyEstimator with nrUsed := 2, nrTotal := 1 } : Estimator).nrTotal <
          ({ tinyEstimator with nrUsed := 2, nrTotal := 1 } : Estimator).nrUsed) ∧
      (computeEstimate { tinyEstimator with nrUsed := 2, nrTotal := 1 }).2.nrTotal = 2) :=
  ⟨⟨by decide, (computeEstimate_frame tinyEstimator).2.2.2.2.2.2.2.2.1 (by decide)⟩,
    ⟨by decide,
      (computeEstimate_frame { tinyEstimator with nrUsed := 2, nrTotal := 1 }).2.2.2.2.2.2.2.2.2
        (by decide) (by decide)⟩⟩

/-- C25 fails as stated: in a state with `nrUsed = 2` and `nrTotal = 1` the call
returns 1 and leaves `nrTotal = 2`. -/
theorem computeEstimate_writes_nrTotal :
    ({ tinyEstimator with nrUsed := 2, nrTotal := 1 } : Estimator).nrTotal = 1 ∧
      (computeEstimate { tinyEstimator with nrUsed := 2, nrTotal := 1 }).1 = 1 ∧
      (computeEstimate { tinyEstimator with nrUsed := 2, nrTotal := 1 }).2.nrTotal = 2 := by
  refine ⟨rfl, ?_, ?_⟩
  · exact computeEstimate_of_ge _ (by decide)
  · rw [computeEstimate_state]
    decide


/-! ## The dimensions the size constructor computes -/

theorem requestedBuckets_eq (n : Nat) :
    requestedBuckets n = max ((n * 2) % 2 ^ 64) 1024 / kSlotsPerBucket := by
  unfold requestedBuckets u64
  split
  · rw [Nat.max_eq_left (by assumption)]
  · rw [Nat.max_eq_right (by omega)]

theorem requestedBuckets_bounds (n : Nat) :
    256 ≤ requestedBuckets n ∧ requestedBuckets n < 2 ^ 62 := by
  have : u64 (n * 2) < 2 ^ 64 := Nat.mod_lt _ (by norm_num)
  unfold requestedBuckets
  simp only [kSlotsPerBucket]
  split_ifs <;> constructor <;> omega

theorem construct_eq (fuel n : Nat) :
    construct fuel n =
      initializeDefault fuel { emptyEstimator with size := requestedBuckets n } := rfl

theorem niceSizeLoop_total (size : Nat) (hsz : size < 2 ^ 62) (fuel : Nat) :
    ∀ (nice log : Nat), nice = 2 ^ log → log ≤ 62 → 62 - log < fuel →
      ∃ n2 l2, niceSizeLoop size fuel nice log = some (n2, l2) ∧ n2 = 2 ^ l2 ∧ l2 ≤ 62 := by
  induction fuel with
  | zero => intro nice log _ _ h; omega
  | succ m ih =>
    intro nice log hn hl hf
    simp only [niceSizeLoop]
    split
    · rename_i hlt
      have hlog : log < 62 := by
        by_contra hc
        have h62 : log = 62 := by omega
        rw [hn, h62] at hlt
        omega
      have hpow : nice * 2 = 2 ^ (log + 1) := by rw [hn, pow_succ]
      have hlt63 : nice * 2 < 2 ^ 64 := by
        rw [hpow]
        exact Nat.pow_lt_pow_right (by norm_num) (by omega)
      have hu : u64 (nice * 2) = nice * 2 := Nat.mod_eq_of_lt hlt63
      have hl1 : u64 (log + 1) = log + 1 := Nat.mod_eq_of_lt (by omega)
      rw [hu, hl1]
      exact ih _ _ hpow (by omega) (by omega)
    · exact ⟨nice, log, rfl, hn, hl⟩

theorem construct_inv (fuel n : Nat) (e : Estimator) (h : construct fuel n = some e) :
    ∃ nice log, niceSizeLoop (requestedBuckets n) fuel 256 8 = some (nice, log) ∧
      e = deriveSizesAndAlloc
        { emptyEstimator with size := requestedBuckets n, niceSize := nice, logSize := log } ∧
      requestedBuckets n < 2 ^ 32 := by
  rw [construct_eq] at h
  unfold initializeDefault at h
  cases hn : niceSizeLoop (requestedBuckets n) fuel 256 8 with
  | none => simp [hn] at h
  | some p =>
    obtain ⟨nice, log⟩ := p
    simp only [hn] at h
    generalize hd : deriveSizesAndAlloc
      { emptyEstimator with size := requestedBuckets n, niceSize := nice, logSize := log } = d
      at h
    have hdsize : d.size = requestedBuckets n := by rw [← hd]; rfl
    cases hr : resetLoop d.size fuel 0 d.toFilter with
    | none => simp [hr] at h
    | some f =>
      have hlt := resetLoop_some_lt _ _ _ _ hr
      rw [hdsize] at hlt
      have hds : d.slots = List.replicate (requestedBuckets n * kSlotsPerBucket) 0 := by
        rw [← hd]
        show List.replicate (u64 (requestedBuckets n * kSlotSize * kSlotsPerBucket) / kSlotSize) 0
          = _
        rw [slotBytes_eq _ (by omega)]
      have hdc : d.counters = List.replicate (requestedBuckets n * kSlotsPerBucket) 0 := by
        rw [← hd]
        show List.replicate
          (u64 (requestedBuckets n * kCounterSize * kSlotsPerBucket) / kCounterSize) 0 = _
        rw [counterBytes_eq _ (by omega)]
      have hf : f = d.toFilter := resetLoop_zero _ _ _ hds hdc fuel 0 f hr
      simp only [hr, Option.some.injEq] at h
      subst hf
      exact ⟨nice, log, rfl, by rw [hd, ← h], hlt⟩

theorem construct_returns (fuel n : Nat) (hsize : requestedBuckets n < 2 ^ 32)
    (hfuel : requestedBuckets n < fuel) : ∃ e, construct fuel n = some e := by
  have hb := requestedBuckets_bounds n
  obtain ⟨nice, log, hn, -, -⟩ :=
    niceSizeLoop_total (requestedBuckets n) hb.2 fuel 256 8 (by norm_num) (by norm_num)
      (by omega)
  rw [construct_eq]
  unfold initializeDefault
  simp only [hn]
  obtain ⟨sl, ct, hres, -⟩ :=
    resetLoop_spec (requestedBuckets n) hsize fuel 0
      (deriveSizesAndAlloc
        { emptyEstimator with
          size := requestedBuckets n, niceSize := nice, logSize := log }).toFilter
      (Nat.zero_le _) (by omega)
  have hsz : (deriveSizesAndAlloc
      { emptyEstimator with size := requestedBuckets n, niceSize := nice, logSize := log }).size
      = requestedBuckets n := rfl
  rw [hsz, hres]
  exact ⟨_, rfl⟩


theorem niceSize_smallest (size n2 l2 j : Nat) (hn : n2 = 2 ^ l2)
    (hor : n2 = 256 ∨ n2 < 2 * size) (h256 : 256 ≤ 2 ^ j) (hsz : size ≤ 2 ^ j) :
    n2 ≤ 2 ^ j := by
  rcases hor with h | h
  · omega
  · have h1 : 2 ^ l2 < 2 ^ (j + 1) := by rw [← hn, pow_succ]; omega
    have h2 : l2 < j + 1 := (Nat.pow_lt_pow_iff_right (by norm_num)).mp h1
    rw [hn]
    exact Nat.pow_le_pow_right (by norm_num) (by omega)

/-- C26: for every requested size `n`, the constructor sets `_size` to
`max(2n mod 2^64, 1024) / kSlotsPerBucket`; the doubling loop returns (with 64
rounds of fuel) a `niceSize` that is the power of two `2 ^ logSize`, at most
`2 ^ 62` (so no doubling overflows 64 bits), not smaller than 256 and `_size`, and
the smallest such power of two; every estimator the constructor returns has
these values and `sizeMask = niceSize - 1`; the constructor returns when
`_size < 2 ^ 32`. -/
theorem construct_dimensions (n fuel : Nat) (hfuel : 64 ≤ fuel) :
    requestedBuckets n = max ((n * 2) % 2 ^ 64) 1024 / kSlotsPerBucket ∧
    ∃ nice log, niceSizeLoop (requestedBuckets n) fuel 256 8 = some (nice, log) ∧
      nice = 2 ^ log ∧ log ≤ 62 ∧ 256 ≤ nice ∧ requestedBuckets n ≤ nice ∧
      (∀ j, 256 ≤ 2 ^ j → requestedBuckets n ≤ 2 ^ j → nice ≤ 2 ^ j) ∧
      (∀ e, construct fuel n = some e →
        e.size = requestedBuckets n ∧ e.niceSize = nice ∧ e.logSize = log ∧
          e.sizeMask = nice - 1 ∧ e.sizeShift = (64 - log) / 2) ∧
      (requestedBuckets n < 2 ^ 32 → requestedBuckets n < fuel →
        ∃ e, construct fuel n = some e) := by
  have hb := requestedBuckets_bounds n
  obtain ⟨nice, log, hloop, hpow, hlog⟩ :=
    niceSizeLoop_total (requestedBuckets n) hb.2 fuel 256 8 (by norm_num) (by norm_num)
      (by omega)
  obtain ⟨hge, h256, hor⟩ :=
    niceSizeLoop_some (requestedBuckets n) hb.2 fuel 256 8 nice log hloop (Nat.le_refl _)
      (Or.inl rfl)
  refine ⟨requestedBuckets_eq n, nice, log, hloop, hpow, hlog, h256, hge,
    fun j h1 h2 => niceSize_smallest _ _ _ j hpow hor h1 h2, ?_, construct_returns fuel n⟩
  intro e he
  obtain ⟨nice2, log2, hloop2, hd, -⟩ := construct_inv fuel n e he
  rw [hloop] at hloop2
  cases hloop2
  rw [hd]
  refine ⟨rfl, rfl, rfl, ?_, ?_⟩
  · show sub64 nice 1 = nice - 1
    exact sub64_one nice (by omega)
  · show (sub64 64 log / 2) % 2 ^ 32 = (64 - log) / 2
    have : sub64 64 log = 64 - log := by
      simp only [sub64]
      rw [if_pos (by omega)]
    rw [this]
    omega

/-- C26, at a concrete input: a requested size of 1000 gives 500 buckets,
`niceSize = 512` and `logSize = 9`. -/
theorem construct_dimensions_witness :
    64 ≤ 501 ∧
    (requestedBuckets 1000 = max ((1000 * 2) % 2 ^ 64) 1024 / kSlotsPerBucket ∧
    ∃ nice log, niceSizeLoop (requestedBuckets 1000) 501 256 8 = some (nice, log) ∧
      nice = 2 ^ log ∧ log ≤ 62 ∧ 256 ≤ nice ∧ requestedBuckets 1000 ≤ nice ∧
      (∀ j, 256 ≤ 2 ^ j → requestedBuckets 1000 ≤ 2 ^ j → nice ≤ 2 ^ j) ∧
      (∀ e, construct 501 1000 = some e →
        e.size = requestedBuckets 1000 ∧ e.niceSize = nice ∧ e.logSize = log ∧
          e.sizeMask = nice - 1 ∧ e.sizeShift = (64 - log) / 2) ∧
      (requestedBuckets 1000 < 2 ^ 32 → requestedBuckets 1000 < 501 →
        ∃ e, construct 501 1000 = some e)) :=
  ⟨by decide, construct_dimensions 1000 501 (by decide)⟩

/-! ## The slot bytes and the reset loop of the constructor -/

theorem requestedBuckets_514 : requestedBuckets 514 = 257 := by decide

/-- C27 fails for a requested size of 514: the constructor returns an estimator
of 257 buckets, whose `bytesForSlots` is 2056, and 2056 leaves the remainder 8
on division by 64. -/
theorem bytesForSlots_not_multiple_of_64 :
    ∃ e, construct 258 514 = some e ∧ e.size = 257 ∧ bytesForSlots e = 2056 ∧
      bytesForSlots e % 64 = 8 := by
  obtain ⟨e, he⟩ := construct_returns 258 514 (by rw [requestedBuckets_514]; norm_num)
    (by rw [requestedBuckets_514]; norm_num)
  obtain ⟨nice, log, -, hd, -⟩ := construct_inv 258 514 e he
  have hsz : e.size = 257 := by rw [hd]; exact requestedBuckets_514
  have hb : bytesForSlots e = 2056 := by
    unfold bytesForSlots
    rw [hsz]
    decide
  exact ⟨e, he, hsz, hb, by rw [hb]⟩

theorem requestedBuckets_huge : requestedBuckets (2 ^ 33) = 2 ^ 32 := by
  unfold requestedBuckets u64 kSlotsPerBucket
  norm_num

/-- C28 fails for a requested size of `2 ^ 33`: the constructor sets `_size` to
`2 ^ 32` and does not return, whatever the fuel, because the 32-bit bucket index
of the reset loop in `initializeDefault()` wraps to 0 before it can reach
`_size`. -/
theorem construct_huge_never_returns (fuel : Nat) :
    requestedBuckets (2 ^ 33) = 2 ^ 32 ∧ construct fuel (2 ^ 33) = none := by
  refine ⟨requestedBuckets_huge, ?_⟩
  cases h : construct fuel (2 ^ 33) with
  | none => rfl
  | some e =>
    obtain ⟨-, -, -, -, hlt⟩ := construct_inv fuel (2 ^ 33) e h
    rw [requestedBuckets_huge] at hlt
    omega


/-! ## What applyUpdates drains and returns -/

theorem maxSeq_append (l1 l2 : List Nat) : maxSeq (l1 ++ l2) = max (maxSeq l1) (maxSeq l2) := by
  induction l1 with
  | nil => simp [maxSeq]
  | cons x xs ih =>
    show max x (maxSeq (xs ++ l2)) = max (max x (maxSeq xs)) (maxSeq l2)
    rw [ih, max_assoc]

theorem maxSeq_le (l : List Nat) (c : Nat) (h : ∀ x ∈ l, x ≤ c) : maxSeq l ≤ c := by
  induction l with
  | nil => exact Nat.zero_le _
  | cons x xs ih =>
    simp only [maxSeq]
    exact max_le (h x (List.mem_cons_self _ _)) (ih (fun y hy => h y (List.mem_cons_of_mem _ hy)))

theorem scanTruncate_spec (env : Env) (c : Nat) (l : List Nat) :
    ∀ (ig ap : Nat) (found : Bool) (mem : Nat), l.Pairwise (· ≤ ·) → ig ≤ ap →
      (scanTruncate env c l ig ap found mem).appliedSeq =
          max ap (maxSeq (l.filter (fun t => decide (t ≤ c)))) ∧
        (scanTruncate env c l ig ap found mem).ignoreSeq ≤
          (scanTruncate env c l ig ap found mem).appliedSeq := by
  induction l with
  | nil => intro ig ap found mem _ h; simp [scanTruncate, maxSeq, h]
  | cons t rest ih =>
    intro ig ap found mem hs hig
    rw [List.pairwise_cons] at hs
    by_cases htc : t ≤ c
    · have := ih t (max ap t) true (u64 (mem + env.bufferedEntrySize)) hs.2 (le_max_right _ _)
      simp only [scanTruncate, htc, if_true, List.filter_cons, decide_True, maxSeq]
      refine ⟨?_, this.2⟩
      rw [this.1, max_assoc]
    · have hnone : rest.filter (fun t => decide (t ≤ c)) = [] := by
        rw [List.filter_eq_nil_iff]
        intro x hx
        have := hs.1 x hx
        simp only [decide_eq_true_eq]
        omega
      simp only [scanTruncate, htc, if_false, List.filter_cons, decide_False, hnone, maxSeq]
      exact ⟨by simp, hig⟩

theorem scanBatch_spec (env : Env) (c ig : Nat) (l : List (Nat × List Key)) :
    ∀ (ap mem : Nat), (l.map Prod.fst).Pairwise (· ≤ ·) → (∀ b ∈ l, b.2 ≠ []) → ig ≤ ap →
      (scanBatch env c ig l ap mem).rest.filter (fun b => decide (c < b.1)) =
          l.filter (fun b => decide (c < b.1)) ∧
        ((scanBatch env c ig l ap mem).rest.map Prod.fst).Pairwise (· ≤ ·) ∧
        (∀ b ∈ (scanBatch env c ig l ap mem).rest, b.2 ≠ []) ∧
        ((scanBatch env c ig l ap mem).batch = [] →
          ∀ b ∈ (scanBatch env c ig l ap mem).rest, c < b.1) ∧
        max (scanBatch env c ig l ap mem).appliedSeq
            (maxSeq (dueOf c (scanBatch env c ig l ap mem).rest)) =
          max ap (maxSeq (dueOf c l)) ∧
        ap ≤ (scanBatch env c ig l ap mem).appliedSeq := by
  induction l with
  | nil => intro ap mem _ _ _; simp [scanBatch, dueOf, maxSeq]
  | cons b rest ih =>
    intro ap mem hs hne hig
    obtain ⟨s, ks⟩ := b
    simp only [List.map_cons, List.pairwise_cons] at hs
    have hne2 : ∀ b ∈ rest, b.2 ≠ [] := fun b hb => hne b (List.mem_cons_of_mem _ hb)
    by_cases hsc : s ≤ c
    · have hnc : ¬ c < s := by omega
      by_cases hsi : s ≤ ig
      · obtain ⟨h1, h2, h3, h4, h5, h6⟩ := ih ap (u64 (mem + batchMemory env ks)) hs.2 hne2 hig
        simp only [scanBatch, hsc, hsi, if_true, List.filter_cons, hnc, decide_False,
          Bool.false_eq_true, if_false]
        refine ⟨h1, h2, h3, h4, ?_, h6⟩
        rw [h5]
        simp only [dueOf, List.filter_cons, hsc, decide_True, if_true, List.map_cons, maxSeq]
        have : s ≤ ap := by omega
        omega
      · simp only [scanBatch, hsc, hsi, if_true, if_false, List.filter_cons, hnc, decide_False,
          Bool.false_eq_true]
        refine ⟨trivial, hs.2, hne2, ?_, ?_, le_max_left _ _⟩
        · intro hb
          exact absurd hb (hne (s, ks) (List.mem_cons_self _ _))
        · simp only [dueOf, List.filter_cons, hsc, decide_True, if_true, List.map_cons, maxSeq]
          omega
    · have hcs : c < s := by omega
      have hall : ∀ b ∈ rest, c < b.1 := by
        intro b hb
        have := hs.1 b.1 (List.mem_map_of_mem _ hb)
        omega
      have hdue : dueOf c ((s, ks) :: rest) = [] := by
        simp only [dueOf, List.map_eq_nil_iff, List.filter_eq_nil_iff]
        intro b hb
        simp only [decide_eq_true_eq]
        rcases List.mem_cons.mp hb with rfl | hb
        · omega
        · have := hall b hb; omega
      simp only [scanBatch, hsc, if_false]
      refine ⟨trivial, ?_, hne, ?_, ?_, Nat.le_refl _⟩
      · simpa using hs
      · intro _ b hb
        rcases List.mem_cons.mp hb with rfl | hb
        · exact hcs
        · exact hall b hb
      · trivial


theorem dueOf_eq_nil (c : Nat) (l : List (Nat × List Key)) (h : ∀ b ∈ l, c < b.1) :
    dueOf c l = [] := by
  simp only [dueOf, List.map_eq_nil_iff, List.filter_eq_nil_iff]
  intro b hb
  have := h b hb
  simp only [decide_eq_true_eq]
  omega

theorem filter_gt_filter_le (c : Nat) (l : List Nat) :
    (l.filter (fun t => decide (c < t))).filter (fun t => decide (t ≤ c)) = [] := by
  rw [List.filter_eq_nil_iff]
  intro x hx
  have := (List.mem_filter.mp hx).2
  simp only [decide_eq_true_eq] at this ⊢
  omega

theorem filter_gt_idem {α : Type} (key : α → Nat) (c : Nat) (l : List α) :
    (l.filter (fun b => decide (c < key b))).filter (fun b => decide (c < key b)) =
      l.filter (fun b => decide (c < key b)) := by
  rw [List.filter_filter]
  simp

theorem applyUpdatesLoop_drains (env : Env) (c cf : Nat) (fuel : Nat) :
    ∀ (e : Estimator) (ap ig a : Nat) (e2 : Estimator),
      applyUpdatesLoop env c cf fuel e ap ig = some (a, e2) → BuffersOk e → ig ≤ ap →
      e2.insertBuffers = e.insertBuffers.filter (fun b => decide (c < b.1)) ∧
        e2.removalBuffers = e.removalBuffers.filter (fun b => decide (c < b.1)) ∧
        e2.truncateBuffer = e.truncateBuffer.filter (fun t => decide (c < t)) ∧
        a = max ap (maxSeq (dueSeqs c e)) := by
  induction fuel with
  | zero => intro e ap ig a e2 h; simp [applyUpdatesLoop] at h
  | succ n ih =>
    intro e ap ig a e2 h hb hig
    obtain ⟨hsi, hsr, hst, hni, hnr⟩ := hb
    simp only [applyUpdatesLoop] at h
    have htr : (scanTruncate env c e.truncateBuffer ig ap false 0).rest =
        e.truncateBuffer.filter (fun t => decide (c < t)) := by
      rw [scanTruncate_rest]
      exact dropWhile_le_eq_filter id c _ (by simpa using hst)
    have hts := scanTruncate_spec env c e.truncateBuffer ig ap false 0 hst hig
    generalize scanTruncate env c e.truncateBuffer ig ap false 0 = t at h htr hts
    have his := scanBatch_spec env c t.ignoreSeq e.insertBuffers t.appliedSeq t.memoryUsage
      hsi hni hts.2
    generalize scanBatch env c t.ignoreSeq e.insertBuffers t.appliedSeq t.memoryUsage = i
      at h his
    obtain ⟨hi1, hi2, hi3, hi4, hi5, hi6⟩ := his
    have hrs := scanBatch_spec env c t.ignoreSeq e.removalBuffers i.appliedSeq i.memoryUsage
      hsr hnr (by omega)
    generalize scanBatch env c t.ignoreSeq e.removalBuffers i.appliedSeq i.memoryUsage = r
      at h hrs
    obtain ⟨hr1, hr2, hr3, hr4, hr5, hr6⟩ := hrs
    generalize he1 : decreaseMemoryUsage
        { e with truncateBuffer := t.rest, insertBuffers := i.rest, removalBuffers := r.rest }
        r.memoryUsage = e1 at h
    have hib1 : e1.insertBuffers = i.rest := by rw [← he1]; rfl
    have hrb1 : e1.removalBuffers = r.rest := by rw [← he1]; rfl
    have htb1 : e1.truncateBuffer = t.rest := by rw [← he1]; rfl
    have hdue : maxSeq (dueSeqs c e) =
        max (max (maxSeq (dueOf c e.insertBuffers)) (maxSeq (dueOf c e.removalBuffers)))
          (maxSeq (e.truncateBuffer.filter (fun t => decide (t ≤ c)))) := by
      simp only [dueSeqs, maxSeq_append]
    split at h
    · cases h
    · rename_i e3 he3
      have hbuf3 : e3.insertBuffers = i.rest ∧ e3.removalBuffers = r.rest ∧
          e3.truncateBuffer = t.rest := by
        split at he3
        · have := clear_frame _ _ _ he3
          exact ⟨by rw [this.2.2.2.2.1, hib1], by rw [this.2.2.2.2.2.1, hrb1],
            by rw [this.2.2.2.2.2.2, htb1]⟩
        · cases he3
          exact ⟨hib1, hrb1, htb1⟩
      split at h
      · rename_i hempty
        simp only [Bool.and_eq_true, List.isEmpty_iff] at hempty
        cases h
        have hgi := hi4 hempty.1
        have hgr := hr4 hempty.2
        refine ⟨?_, ?_, ?_, ?_⟩
        · rw [hbuf3.1, ← hi1]
          exact (List.filter_eq_self.mpr (fun b hb => by simpa using hgi b hb)).symm
        · rw [hbuf3.2.1, ← hr1]
          exact (List.filter_eq_self.mpr (fun b hb => by simpa using hgr b hb)).symm
        · rw [hbuf3.2.2, htr]
        · rw [dueOf_eq_nil c _ hgi] at hi5
          rw [dueOf_eq_nil c _ hgr] at hr5
          simp only [maxSeq] at hi5 hr5
          rw [hdue]
          have := hts.1
          omega
      · have hfi := insertBatch_buffers env e3 i.batch
        have hfr := removeBatch_buffers env (insertBatch env e3 i.batch) r.batch
        have hb2 : BuffersOk (removeBatch env (insertBatch env e3 i.batch) r.batch) := by
          refine ⟨?_, ?_, ?_, ?_, ?_⟩
          · rw [hfr.1, hfi.1, hbuf3.1]; exact hi2
          · rw [hfr.2.1, hfi.2.1, hbuf3.2.1]; exact hr2
          · rw [hfr.2.2, hfi.2.2, hbuf3.2.2, htr]; exact hst.filter _
          · rw [hfr.1, hfi.1, hbuf3.1]; exact hi3
          · rw [hfr.2.1, hfi.2.1, hbuf3.2.1]; exact hr3
        obtain ⟨g1, g2, g3, g4⟩ := ih _ _ _ _ _ h hb2 (by omega)
        refine ⟨?_, ?_, ?_, ?_⟩
        · rw [g1, hfr.1, hfi.1, hbuf3.1, hi1]
        · rw [g2, hfr.2.1, hfi.2.1, hbuf3.2.1, hr1]
        · rw [g3, hfr.2.2, hfi.2.2, hbuf3.2.2, htr]
          exact filter_gt_idem id c _
        · rw [g4, hdue]
          have hd2 : maxSeq (dueSeqs c (removeBatch env (insertBatch env e3 i.batch) r.batch)) =
              max (maxSeq (dueOf c i.rest)) (maxSeq (dueOf c r.rest)) := by
            simp only [dueSeqs, maxSeq_append]
            rw [hfr.1, hfi.1, hbuf3.1, hfr.2.1, hfi.2.1, hbuf3.2.1, hfr.2.2, hfi.2.2, hbuf3.2.2,
              htr, filter_gt_filter_le]
            simp [maxSeq]
          rw [hd2]
          have := hts.1
          omega


/-- C23: when `applyUpdates(c)` returns, none of the three buffers holds an
entry with `seq <= c`, and each holds exactly the entries with `seq > c` that it
held before, key lists included. The buffers are what the ordered containers
hold: ascending in `seq`, no batch empty. (The call returns on every table of
fewer than `2 ^ 32` buckets.) -/
theorem applyUpdates_drains_due (env : Env) (fuel : Nat) (e : Estimator) (c a : Nat)
    (e2 : Estimator) (hb : BuffersOk e) (h : applyUpdates env fuel e c = some (a, e2)) :
    (∀ b ∈ e2.insertBuffers, c < b.1) ∧ (∀ b ∈ e2.removalBuffers, c < b.1) ∧
      (∀ t ∈ e2.truncateBuffer, c < t) ∧
      e2.insertBuffers = e.insertBuffers.filter (fun b => decide (c < b.1)) ∧
      e2.removalBuffers = e.removalBuffers.filter (fun b => decide (c < b.1)) ∧
      e2.truncateBuffer = e.truncateBuffer.filter (fun t => decide (c < t)) := by
  obtain ⟨h1, h2, h3, -⟩ := applyUpdatesLoop_drains env c fuel fuel e 0 0 a e2 h hb (Nat.le_refl _)
  refine ⟨?_, ?_, ?_, h1, h2, h3⟩
  · intro b hb
    rw [h1] at hb
    simpa using (List.mem_filter.mp hb).2
  · intro b hb
    rw [h2] at hb
    simpa using (List.mem_filter.mp hb).2
  · intro t ht
    rw [h3] at ht
    simpa using (List.mem_filter.mp ht).2

/-- C23, at a concrete input: batches at 3, 5 and 7 and markers at 2 and 9,
applied up to 6. -/
theorem applyUpdates_drains_due_witness :
    BuffersOk bufferedEstimator ∧
    ∃ a e2, applyUpdates sampleEnv 4 bufferedEstimator 6 = some (a, e2) ∧
      ((∀ b ∈ e2.insertBuffers, 6 < b.1) ∧ (∀ b ∈ e2.removalBuffers, 6 < b.1) ∧
        (∀ t ∈ e2.truncateBuffer, 6 < t) ∧
        e2.insertBuffers = bufferedEstimator.insertBuffers.filter (fun b => decide (6 < b.1)) ∧
        e2.removalBuffers = bufferedEstimator.removalBuffers.filter (fun b => decide (6 < b.1)) ∧
        e2.truncateBuffer = bufferedEstimator.truncateBuffer.filter (fun t => decide (6 < t))) := by
  refine ⟨by decide, ?_⟩
  obtain ⟨a, e2, h, -⟩ := applyUpdates_returns sampleEnv 4 bufferedEstimator 6 (by decide)
    (by decide) (by decide)
  exact ⟨a, e2, h, applyUpdates_drains_due sampleEnv 4 bufferedEstimator 6 a e2 (by decide) h⟩

/-- Whenever `applyUpdates(c)` returns, the value is the largest sequence number
at or below `c` among the buffered batches and markers, 0 when there is none,
and is not above `c`. -/
theorem applyUpdates_result (env : Env) (fuel : Nat) (e : Estimator) (c a : Nat)
    (e2 : Estimator) (hb : BuffersOk e) (h : applyUpdates env fuel e c = some (a, e2)) :
    a = maxSeq (dueSeqs c e) ∧ a ≤ c := by
  obtain ⟨-, -, -, h4⟩ := applyUpdatesLoop_drains env c fuel fuel e 0 0 a e2 h hb (Nat.le_refl _)
  have ha : a = maxSeq (dueSeqs c e) := by rw [h4]; exact Nat.max_eq_right (Nat.zero_le _)
  refine ⟨ha, ?_⟩
  rw [ha]
  apply maxSeq_le
  intro x hx
  simp only [dueSeqs, dueOf, List.mem_append, List.mem_map, List.mem_filter,
    decide_eq_true_eq] at hx
  rcases hx with (⟨b, ⟨-, hb⟩, rfl⟩ | ⟨b, ⟨-, hb⟩, rfl⟩) | ⟨-, hx⟩
  · exact hb
  · exact hb
  · exact hx

theorem scanTruncate_found_stays (env : Env) (c : Nat) (l : List Nat) :
    ∀ (ig ap mem : Nat), (scanTruncate env c l ig ap true mem).foundTruncate = true := by
  induction l with
  | nil => intro ig ap mem; rfl
  | cons t rest ih =>
    intro ig ap mem
    simp only [scanTruncate]
    split
    · exact ih _ _ _
    · rfl

theorem scanTruncate_found (env : Env) (c : Nat) (l : List Nat) (ig ap mem : Nat)
    (hs : l.Pairwise (· ≤ ·)) (h : ∃ t ∈ l, t ≤ c) :
    (scanTruncate env c l ig ap false mem).foundTruncate = true := by
  cases l with
  | nil => obtain ⟨t, ht, -⟩ := h; cases ht
  | cons x rest =>
    rw [List.pairwise_cons] at hs
    obtain ⟨t, ht, htc⟩ := h
    have hx : x ≤ c := by
      rcases List.mem_cons.mp ht with rfl | ht
      · exact htc
      · have := hs.1 t ht; omega
    simp only [scanTruncate, hx, if_true]
    exact scanTruncate_found_stays env c rest _ _ _

theorem applyUpdates_diverges (env : Env) (fuel : Nat) (e : Estimator) (c : Nat)
    (hsize : 2 ^ 32 ≤ e.size) (hs : e.truncateBuffer.Pairwise (· ≤ ·))
    (h : ∃ t ∈ e.truncateBuffer, t ≤ c) : applyUpdates env fuel e c = none := by
  cases fuel with
  | zero => rfl
  | succ n =>
    have hf := scanTruncate_found env c e.truncateBuffer 0 0 0 hs h
    simp only [applyUpdates, applyUpdatesLoop, hf, if_true]
    rw [clear_diverges _ _ (by simpa [decreaseMemoryUsage] using hsize)]

/-- C24 fails on an estimator with `2 ^ 32` buckets that has a truncate marker
at 3 and an insert batch at 5 buffered: `applyUpdates(7)` does not return,
whatever the fuel, where the claim has it return 5, the largest buffered
sequence number at or below 7. -/
theorem applyUpdates_huge_returns_nothing (fuel : Nat) :
    applyUpdates sampleEnv fuel hugeBuffered 7 = none ∧ maxSeq (dueSeqs 7 hugeBuffered) = 5 := by
  refine ⟨?_, by decide⟩
  exact applyUpdates_diverges sampleEnv fuel hugeBuffered 7 (by decide) (by decide) (by decide)


/-! ## The dimensions of a loaded estimator -/

theorem deserialize_lift (env : Env) (P : Estimator → Prop)
    (hP : ∀ e body, (deserializeUncompressedBody env e body).2 = none →
      P (deserializeUncompressedBody env e body).1)
    (e : Estimator) (serialized : List Byte) (h : (deserialize env e serialized).2 = none) :
    P (deserialize env e serialized).1 := by
  revert h
  unfold deserialize
  by_cases h1 : serialized.length < 9
  · simp only [h1, if_true]
    simp
  · simp only [h1, if_false]
    by_cases h2 : serialized.getD 8 0 = env.uncompressedTag
    · simp only [h2, if_true]
      exact hP _ _
    · simp only [h2, if_false]
      by_cases h3 : serialized.getD 8 0 = env.compressedTag
      · simp only [h3, if_true]
        by_cases h4 : (List.drop 9 serialized).length < 8
        · simp only [h4, if_true]
          simp
        · simp only [h4, if_false]
          by_cases h5 : (List.drop 8 (List.drop 9 serialized)).length <
              readAt env.byteOrder 8 (List.drop 9 serialized) 0
          · simp only [h5, if_true]
            simp
          · simp only [h5, if_false]
            cases hs : env.uncompress (List.take (readAt env.byteOrder 8 (List.drop 9 serialized) 0)
                (List.drop 8 (List.drop 9 serialized))) with
            | none => simp
            | some scratch =>
              simp only
              exact hP _ _
      · simp only [h3, if_false]
        simp

theorem deserializeUncompressedBody_dims (env : Env) (e : Estimator) (body : List Byte)
    (h : (deserializeUncompressedBody env e body).2 = none) :
    (deserializeUncompressedBody env e body).1.sizeMask =
        sub64 (deserializeUncompressedBody env e body).1.niceSize 1 ∧
      (deserializeUncompressedBody env e body).1.sizeShift =
        (sub64 64 (deserializeUncompressedBody env e body).1.logSize / 2) % 2 ^ 32 ∧
      (deserializeUncompressedBody env e body).1.niceSize = readAt env.byteOrder 8 body 40 ∧
      (deserializeUncompressedBody env e body).1.logSize = readAt env.byteOrder 8 body 48 := by
  simp only [deserializeUncompressedBody] at h ⊢
  by_cases h1 : body.length ≤ minRequiredSize
  · simp [h1] at h
  · by_cases h2 : readAt env.byteOrder 8 body 8 ≤ 256
    · simp [h1, h2] at h
    · simp only [h1, h2, if_false] at h ⊢
      split_ifs at h ⊢ with h3
      exact ⟨rfl, rfl, rfl, rfl⟩


/-- C30, as the code has it: on every byte string on which `deserialize`
completes without error the loaded estimator has more than 256 buckets, and
`sizeMask` and `sizeShift` are derived from the loaded `niceSize` and `logSize`
in wrapping 64-bit arithmetic; `niceSize` and `logSize` are taken over from the
header unchecked. When the loaded values satisfy `1 <= niceSize <= 2 * size`,
`sizeMask` is `niceSize - 1` and every bucket position is below `size`; when
`logSize <= 64`, `sizeShift` is `(64 - logSize) / 2`. -/
theorem deserialize_dimensions (env : Env) (e0 : Estimator) (blob : List Byte)
    (h : (deserialize env e0 blob).2 = none) :
    256 < (deserialize env e0 blob).1.size ∧
      (deserialize env e0 blob).1.sizeMask = sub64 (deserialize env e0 blob).1.niceSize 1 ∧
      (deserialize env e0 blob).1.sizeShift =
        (sub64 64 (deserialize env e0 blob).1.logSize / 2) % 2 ^ 32 ∧
      (1 ≤ (deserialize env e0 blob).1.niceSize →
        (deserialize env e0 blob).1.niceSize ≤ 2 * (deserialize env e0 blob).1.size →
        (deserialize env e0 blob).1.sizeMask = (deserialize env e0 blob).1.niceSize - 1 ∧
          ∀ hash, hashToPos (deserialize env e0 blob).1.toFilter hash <
            (deserialize env e0 blob).1.size) ∧
      ((deserialize env e0 blob).1.logSize ≤ 64 →
        (deserialize env e0 blob).1.sizeShift = (64 - (deserialize env e0 blob).1.logSize) / 2) := by
  have hsz := deserialize_size env e0 blob h
  have hd := deserialize_lift env
    (fun x => x.sizeMask = sub64 x.niceSize 1 ∧ x.sizeShift = (sub64 64 x.logSize / 2) % 2 ^ 32)
    (fun e body hb => ⟨(deserializeUncompressedBody_dims env e body hb).1,
      (deserializeUncompressedBody_dims env e body hb).2.1⟩) e0 blob h
  generalize (deserialize env e0 blob).1 = x at hsz hd
  obtain ⟨hm, hs⟩ := hd
  refine ⟨hsz, hm, hs, fun h1 h2 => ?_, fun hl => ?_⟩
  · have hm2 : x.sizeMask = x.niceSize - 1 := by rw [hm, sub64_one _ h1]
    exact ⟨hm2, fun hash => hashToPos_lt x.toFilter hash x.niceSize hm2 h1 h2⟩
  · rw [hs]
    have : sub64 64 x.logSize = 64 - x.logSize := by
      simp only [sub64]
      rw [if_pos hl]
    rw [this]
    omega

/-- C30, as the code has it, at a concrete input: the blob that lays out the
empty 257-bucket estimator (`niceSize = 512`, `logSize = 9`). -/
theorem deserialize_dimensions_witness :
    (deserialize sampleEnv emptyEstimator (uncompressedLayout sampleEnv sample257 0 0)).2 = none ∧
    (256 < (deserialize sampleEnv emptyEstimator
        (uncompressedLayout sampleEnv sample257 0 0)).1.size ∧
      (deserialize sampleEnv emptyEstimator
        (uncompressedLayout sampleEnv sample257 0 0)).1.sizeMask =
        sub64 (deserialize sampleEnv emptyEstimator
          (uncompressedLayout sampleEnv sample257 0 0)).1.niceSize 1) := by
  have h : (deserialize sampleEnv emptyEstimator
      (uncompressedLayout sampleEnv sample257 0 0)).2 = none := by
    have := deserialize_layout sampleEnv emptyEstimator sample257 0 0 [] sample257_table.2.2.2
      sample257_table.1 sample257_table.2.1 sample257_table.2.2.1
    rw [List.append_nil] at this
    rw [this]
  have := deserialize_dimensions sampleEnv emptyEstimator
    (uncompressedLayout sampleEnv sample257 0 0) h
  exact ⟨h, this.1, this.2.1⟩

/-- C30 fails as stated: the blob that lays out an empty table of 257 buckets
with the header values `niceSize = 0` and `logSize = 0` is loaded without error;
the loaded `niceSize` is not a power of two, `sizeMask` is `2 ^ 64 - 1` (the
subtraction wrapped), and the hash `1000 * 2 ^ 32` is sent to bucket 743 of a
table of 257 buckets. -/
theorem deserialize_loads_inconsistent_dims :
    (deserialize sampleEnv emptyEstimator (uncompressedLayout sampleEnv sampleBadDims 0 0)).2
        = none ∧
      (deserialize sampleEnv emptyEstimator
        (uncompressedLayout sampleEnv sampleBadDims 0 0)).1.size = 257 ∧
      (deserialize sampleEnv emptyEstimator
        (uncompressedLayout sampleEnv sampleBadDims 0 0)).1.niceSize = 0 ∧
      (deserialize sampleEnv emptyEstimator
        (uncompressedLayout sampleEnv sampleBadDims 0 0)).1.logSize = 0 ∧
      (deserialize sampleEnv emptyEstimator
        (uncompressedLayout sampleEnv sampleBadDims 0 0)).1.sizeMask = 2 ^ 64 - 1 ∧
      hashToPos (deserialize sampleEnv emptyEstimator
        (uncompressedLayout sampleEnv sampleBadDims 0 0)).1.toFilter (1000 * 2 ^ 32) = 743 := by
  have := deserialize_layout sampleEnv emptyEstimator sampleBadDims 0 0 []
    sample257_table.2.2.2 sample257_table.1 sample257_table.2.1 sample257_table.2.2.1
  rw [List.append_nil] at this
  rw [this]
  refine ⟨rfl, rfl, rfl, rfl, ?_, ?_⟩
  · show sub64 (0 % 2 ^ 64) 1 = 2 ^ 64 - 1
    decide
  · show hashToPos _ _ = 743
    simp only [hashToPos, deriveSizesAndAlloc, increaseMemoryUsage, sampleBadDims]
    decide


/-! ## Memory accounting -/

theorem applyUpdates_single_marker (env : Env) (fuel : Nat) (e : Estimator) (T c : Nat)
    (hT : T ≤ c) (hi : e.insertBuffers = []) (hr : e.removalBuffers = [])
    (ht : e.truncateBuffer = [T]) (hsize : e.size < 2 ^ 32) (hfuel : e.size < fuel) :
    ∃ e2, applyUpdates env fuel e c = some (T, e2) ∧
      e2.memoryUsage = sub64 e.memoryUsage (u64 (0 + env.bufferedEntrySize)) ∧
      e2.insertBuffers = [] ∧ e2.removalBuffers = [] ∧ e2.truncateBuffer = [] ∧
      e2.allocSize = e.allocSize := by
  obtain ⟨n, rfl⟩ : ∃ n, fuel = n + 1 := ⟨fuel - 1, by omega⟩
  obtain ⟨e2, h2⟩ := clear_returns (n + 1)
    (decreaseMemoryUsage
      { e with truncateBuffer := [], insertBuffers := [], removalBuffers := [] }
      (u64 (0 + env.bufferedEntrySize))) hsize hfuel
  have hfr := clear_frame _ _ _ h2
  refine ⟨e2, ?_, hfr.2.2.2.1, hfr.2.2.2.2.1, hfr.2.2.2.2.2.1, hfr.2.2.2.2.2.2, hfr.2.2.1⟩
  simp only [applyUpdates, applyUpdatesLoop, hi, hr, ht, scanTruncate, scanBatch, hT, if_true,
    Nat.zero_max, h2, List.isEmpty_nil, Bool.and_self]

/-- C22 fails after two calls of `bufferTruncate(5)` on the estimator
constructed for a requested size of 0: the set of markers holds 5 once, but
`memoryUsage` was raised twice, to 6288, where the allocation size plus the
cost of the buffered marker is 6248 (the condition of `checkInvariants` is
false); after `applyUpdates(5)` has consumed the marker, `memoryUsage` is 6248
and not the allocation size 6208. -/
theorem memoryUsage_overcounts_repeated_marker :
    construct 257 0 = some minimalEstimator ∧
      (bufferTruncate sampleEnv (bufferTruncate sampleEnv minimalEstimator 5) 5).truncateBuffer
        = [5] ∧
      (bufferTruncate sampleEnv (bufferTruncate sampleEnv minimalEstimator 5) 5).memoryUsage
        = 6288 ∧
      (bufferTruncate sampleEnv (bufferTruncate sampleEnv minimalEstimator 5) 5).allocSize +
        sampleEnv.bufferedEntrySize * 1 = 6248 ∧
      checkInvariants sampleEnv
        (bufferTruncate sampleEnv (bufferTruncate sampleEnv minimalEstimator 5) 5) = false ∧
      ∃ e2, applyUpdates sampleEnv 257
          (bufferTruncate sampleEnv (bufferTruncate sampleEnv minimalEstimator 5) 5) 5
          = some (5, e2) ∧
        e2.insertBuffers = [] ∧ e2.removalBuffers = [] ∧ e2.truncateBuffer = [] ∧
        e2.allocSize = 6208 ∧ e2.memoryUsage = 6248 := by
  refine ⟨construct_zero, by decide, by decide, by decide, by decide, ?_⟩
  obtain ⟨e2, h, hm, h1, h2, h3, h4⟩ := applyUpdates_single_marker sampleEnv 257
    (bufferTruncate sampleEnv (bufferTruncate sampleEnv minimalEstimator 5) 5) 5 5
    (Nat.le_refl _) (by decide) (by decide) (by decide) (by decide) (by decide)
  refine ⟨e2, h, h1, h2, h3, ?_, ?_⟩
  · rw [h4]; decide
  · rw [hm]; decide


/-! ## The statistics and the table -/

theorem sum_set (l : List Nat) (v : Nat) :
    ∀ s, s < l.length → (l.set s v).sum + l.getD s 0 = l.sum + v := by
  induction l with
  | nil => intro s hs; simp at hs
  | cons a l ih =>
    intro s hs
    cases s with
    | zero => simp only [List.set_cons_zero, List.sum_cons, List.getD_cons_zero]; omega
    | succ s =>
      have := ih s (by simpa using hs)
      simp only [List.set_cons_succ, List.sum_cons, List.getD_cons_succ]
      omega

theorem countP_set_to_zero (l : List Nat) :
    ∀ s, l.getD s 0 ≠ 0 →
      (l.set s 0).countP (fun x => decide (x ≠ 0)) + 1 = l.countP (fun x => decide (x ≠ 0)) := by
  induction l with
  | nil => intro s hs; simp at hs
  | cons a l ih =>
    intro s hs
    cases s with
    | zero =>
      have ha : a ≠ 0 := by simpa using hs
      simp [List.countP_cons, ha]
    | succ s =>
      have := ih s (by simpa using hs)
      simp only [List.set_cons_succ, List.countP_cons]
      omega

theorem StatsOk.found {f : Filter} (h : StatsOk f) (env : Env) (k : Key)
    (hfp : env.keyToFingerprint k ≠ 0) (hst : Stored env f k) :
    foundSlot env f k < f.slots.length ∧ foundSlot env f k < f.counters.length ∧
      1 ≤ f.counterAt (foundSlot env f k) ∧ f.counterAt (foundSlot env f k) ≤ f.counters.sum ∧
      1 ≤ f.nrTotal ∧ 1 ≤ f.nrUsed := by
  obtain ⟨hin, hb, hu, hsum⟩ := h
  have hs := foundSlot_spec env f k hst
  have hne : f.fingerprintAt (foundSlot env f k) ≠ 0 := by rw [hs.2]; exact hfp
  have hlt : foundSlot env f k < f.slots.length := getD_pos_lt _ _ (Nat.pos_of_ne_zero hne)
  have hltc : foundSlot env f k < f.counters.length := by rw [hin.2.1, ← hin.1]; exact hlt
  have hc := hb _ hne
  have hset := sum_set f.counters 0 _ hltc
  have hcnt := countP_set_to_zero f.slots _ hne
  simp only [Filter.counterAt] at hc ⊢
  refine ⟨hlt, hltc, hc, by omega, by omega, by omega⟩

theorem bufferTruncate_toFilter (env : Env) (e : Estimator) (seq : Nat) :
    (bufferTruncate env e seq).toFilter = e.toFilter := rfl

end RocksDBCuckooIndexEstimator
